import Mathlib

/-!
# q2d: a software 2D raster canvas

A shallow embedding of `types.go`, `image.go` and `blit.go` of the q2d package, and
theorems about the view-state stack, the clip arithmetic and the pixel primitives.

Modelling conventions
* Go `int` is taken to be 64 bits wide, as on amd64 and arm64. An `int` is modelled by
  the `Int` it denotes, and every `+`, `-` and `*` of the code is followed by `wrap64`,
  the two's-complement wraparound. `I64 v` says that `v` is a value of `int`.
* Go `uint8` is modelled by `Fin 256`.
* A Go slice is modelled by a `List`; `append` adds at the end, and the element at
  index `len-1` is the last element of the list.
* A run-time panic (index out of range, negative `make` length) is modelled by `none`.
* A counted loop `for v := lo; v < hi; v++` is modelled by a monadic fold over
  `intRange lo hi`, the increasing list of the integers `lo ≤ v < hi`.
* The drawing operations take the `float64` blend as a parameter `Blend`. Its value as
  the code computes it is `float64Blend`: a `float64` is modelled by the rational it
  denotes and every operation rounds its exact result with `round64` (IEEE-754 binary64,
  round to nearest, ties to even).
-/

set_option autoImplicit false
set_option linter.dupNamespace false

namespace Q2D

/-! ## types.go -/

/-- Go `uint8`. -/
abbrev uint8 := Fin 256

/-- The `int` value of an operation whose exact result is `v`: Go integer arithmetic
wraps around silently, `v` is reduced modulo `2^64` into `[-2^63, 2^63)`. -/
def wrap64 (v : Int) : Int :=
  (v + 9223372036854775808) % 18446744073709551616 - 9223372036854775808

/-- The integer `v` is a value of Go `int`: `-2^63 <= v <= 2^63 - 1`. -/
def I64 (v : Int) : Prop := -9223372036854775808 ≤ v ∧ v ≤ 9223372036854775807

instance I64.decidable (v : Int) : Decidable (I64 v) := by
  unfold I64
  infer_instance

/-- Go `type Point [2]int`; the fields are the accessors `X()` and `Y()`. -/
structure Point where
  X : Int
  Y : Int
deriving DecidableEq, Repr

/-- Go `type Rectangle [4]int`; the fields are the accessors `X()`, `Y()`, `Width()`
and `Height()`. -/
structure Rectangle where
  X : Int
  Y : Int
  Width : Int
  Height : Int
deriving DecidableEq, Repr

/-- Go `type Color [4]uint8`; the fields are the accessors `R()`, `G()`, `B()`, `A()`. -/
structure Color where
  R : uint8
  G : uint8
  B : uint8
  A : uint8
deriving DecidableEq, Repr

/-- The Go zero value `Color{}`. -/
def Color.zero : Color := ⟨0, 0, 0, 0⟩

/-- Go `func (p Point) Add(q Point) Point`. -/
def Point.Add (p q : Point) : Point := ⟨wrap64 (p.X + q.X), wrap64 (p.Y + q.Y)⟩

/-- Go `func (p Point) Sub(q Point) Point`. -/
def Point.Sub (p q : Point) : Point := ⟨wrap64 (p.X - q.X), wrap64 (p.Y - q.Y)⟩

/-- Go `func (r Rectangle) Add(p Point) Rectangle`. -/
def Rectangle.Add (r : Rectangle) (p : Point) : Rectangle :=
  ⟨wrap64 (r.X + p.X), wrap64 (r.Y + p.Y), r.Width, r.Height⟩

/-- Go `func (r Rectangle) Sub(p Point) Rectangle`. -/
def Rectangle.Sub (r : Rectangle) (p : Point) : Rectangle :=
  ⟨wrap64 (r.X - p.X), wrap64 (r.Y - p.Y), r.Width, r.Height⟩

/-- Go `func (r Rectangle) Contains(p Point) bool`. -/
def Rectangle.Contains (r : Rectangle) (p : Point) : Bool :=
  decide (p.X ≥ r.X) && decide (p.X < wrap64 (r.X + r.Width)) &&
    decide (p.Y ≥ r.Y) && decide (p.Y < wrap64 (r.Y + r.Height))

/-- Go `func (r Rectangle) Overlap(s Rectangle) Rectangle`. -/
def Rectangle.Overlap (r s : Rectangle) : Rectangle :=
  let x1 := max r.X s.X
  let y1 := max r.Y s.Y
  let x2 := min (wrap64 (r.X + r.Width)) (wrap64 (s.X + s.Width))
  let y2 := min (wrap64 (r.Y + r.Height)) (wrap64 (s.Y + s.Height))
  ⟨x1, y1, max 0 (wrap64 (x2 - x1)), max 0 (wrap64 (y2 - y1))⟩

/-- The two subtractions `x2-x1` and `y2-y1` of `r.Overlap(s)` do not wrap around. -/
def Rectangle.OverlapExact (r s : Rectangle) : Prop :=
  I64 (min (wrap64 (r.X + r.Width)) (wrap64 (s.X + s.Width)) - max r.X s.X) ∧
    I64 (min (wrap64 (r.Y + r.Height)) (wrap64 (s.Y + s.Height)) - max r.Y s.Y)

instance Rectangle.OverlapExact.decidable (r s : Rectangle) :
    Decidable (r.OverlapExact s) := by
  unfold Rectangle.OverlapExact
  infer_instance

/-- The emptiness test used throughout the package: `Width() <= 0 || Height() <= 0`. -/
def Rectangle.isEmpty (r : Rectangle) : Bool :=
  decide (r.Width ≤ 0) || decide (r.Height ≤ 0)


/-! ## image.go: the canvas and its view-state stack -/

/-- Go `type subImageState struct`. -/
structure subImageState where
  origin : Point
  bounds : Rectangle
  clip : Rectangle
  clippingStack : List Rectangle
deriving DecidableEq, Repr

/-- Go `type Image struct`. -/
structure Image where
  Pix : List uint8
  Stride : Int
  Rect : Rectangle
  stateStack : List subImageState
deriving DecidableEq, Repr

/-- Go `func NewImage(w, h int) *Image`. The length `4*w*h` is `(4*w)*h` in `int`
arithmetic; `make([]uint8, n)` panics on a negative length; the buffer is
zero-initialised. -/
def NewImage (w h : Int) : Option Image :=
  let n := wrap64 (wrap64 (4 * w) * h)
  if n < 0 then none
  else some
    { Pix := List.replicate n.toNat 0
      Stride := wrap64 (4 * w)
      Rect := ⟨0, 0, w, h⟩
      stateStack :=
        [{ origin := ⟨0, 0⟩, bounds := ⟨0, 0, w, h⟩, clip := ⟨0, 0, w, h⟩,
           clippingStack := [] }] }

/-- Go `func (img *Image) currentState() *subImageState`: the frame at index
`len(stateStack)-1`; indexing an empty stack panics. -/
def Image.currentState (img : Image) : Option subImageState :=
  img.stateStack.getLast?

/-- A store through the pointer returned by `currentState()`: the frame at index
`len(stateStack)-1` is replaced, every other frame is kept. -/
def Image.setCurrentState (img : Image) (s : subImageState) : Image :=
  { img with stateStack := img.stateStack.set (img.stateStack.length - 1) s }

/-- Go `func (img *Image) PushSubImage(r Rectangle)`. -/
def Image.PushSubImage (img : Image) (r : Rectangle) : Option Image := do
  let curr ← img.currentState
  let absOrigin := curr.origin.Add ⟨r.X, r.Y⟩
  let absRect : Rectangle := ⟨absOrigin.X, absOrigin.Y, r.Width, r.Height⟩
  let newClip := curr.clip.Overlap absRect
  pure { img with
    stateStack := img.stateStack ++
      [{ origin := absOrigin, bounds := absRect, clip := newClip, clippingStack := [] }] }

/-- Go `func (img *Image) PopSubImage()`. -/
def Image.PopSubImage (img : Image) : Image :=
  if img.stateStack.length > 1 then
    { img with stateStack := img.stateStack.dropLast }
  else img

/-- Go `func (img *Image) PushClip(r Rectangle)`. -/
def Image.PushClip (img : Image) (r : Rectangle) : Option Image := do
  let curr ← img.currentState
  let absRect := r.Add curr.origin
  let newClip := curr.clip.Overlap absRect
  pure (img.setCurrentState
    { curr with clippingStack := curr.clippingStack ++ [curr.clip], clip := newClip })

/-- Go `func (img *Image) PopClip()`. -/
def Image.PopClip (img : Image) : Option Image := do
  let curr ← img.currentState
  if curr.clippingStack.length > 0 then
    let top ← curr.clippingStack.getLast?
    pure (img.setCurrentState
      { curr with clip := top, clippingStack := curr.clippingStack.dropLast })
  else pure img

/-! ## image.go: pixel primitives -/

/-- The store `pix[off] = v` of Go: an index outside `[0, len(pix))` panics. -/
def pixSet (pix : List uint8) (off : Int) (v : uint8) : Option (List uint8) :=
  if 0 ≤ off ∧ off < pix.length then some (pix.set off.toNat v) else none

/-- The load `pix[off]` of Go: an index outside `[0, len(pix))` panics. -/
def pixGet (pix : List uint8) (off : Int) : Option uint8 :=
  if 0 ≤ off ∧ off < pix.length then pix[off.toNat]? else none

/-- The four stores `Pix[offset] = r; Pix[offset+1] = g; Pix[offset+2] = b;
Pix[offset+3] = a`, in this order. -/
def pixSet4 (pix : List uint8) (offset : Int) (r g b a : uint8) : Option (List uint8) := do
  let pix ← pixSet pix offset r
  let pix ← pixSet pix (wrap64 (offset + 1)) g
  let pix ← pixSet pix (wrap64 (offset + 2)) b
  pixSet pix (wrap64 (offset + 3)) a

/-- The four loads `Pix[offset]`, `Pix[offset+1]`, `Pix[offset+2]`, `Pix[offset+3]`,
in this order. -/
def pixGet4 (pix : List uint8) (offset : Int) : Option (uint8 × uint8 × uint8 × uint8) := do
  let r ← pixGet pix offset
  let g ← pixGet pix (wrap64 (offset + 1))
  let b ← pixGet pix (wrap64 (offset + 2))
  let a ← pixGet pix (wrap64 (offset + 3))
  pure (r, g, b, a)

/-- The values taken by the loop variable of `for v := lo; v < hi; v++`; the increment
cannot wrap, since it is applied to a value below `hi`. -/
def intRange (lo hi : Int) : List Int :=
  (List.range (hi - lo).toNat).map (fun (i : Nat) => lo + (i : Int))

/-- Go `func (img *Image) Set(p Point, c Color)`. -/
def Image.Set (img : Image) (p : Point) (c : Color) : Option Image := do
  let curr ← img.currentState
  let absP := curr.origin.Add p
  if !curr.clip.Contains absP then pure img
  else
    let offset := wrap64 (wrap64 (absP.Y * img.Stride) + wrap64 (absP.X * 4))
    let pix ← pixSet4 img.Pix offset c.R c.G c.B c.A
    pure { img with Pix := pix }

/-- Go `func (img *Image) At(p Point) Color`. -/
def Image.At (img : Image) (p : Point) : Option Color := do
  let curr ← img.currentState
  let absP := curr.origin.Add p
  if !curr.clip.Contains absP then pure Color.zero
  else
    let offset := wrap64 (wrap64 (absP.Y * img.Stride) + wrap64 (absP.X * 4))
    let (r, g, b, a) ← pixGet4 img.Pix offset
    pure ⟨r, g, b, a⟩

/-- The doubly nested store loop shared, with identical text, by `Fill` (over the clip)
and `fillAbsRect` (over the draw rectangle):
`for y := r.Y(); y < r.Y()+r.Height(); y++ { for x := r.X(); x < r.X()+r.Width(); x++ {
offset := y*Stride + x*4; four stores } }`. -/
def fillLoop (pix : List uint8) (stride : Int) (r : Rectangle) (c : Color) :
    Option (List uint8) :=
  (intRange r.Y (wrap64 (r.Y + r.Height))).foldlM
    (fun pix y =>
      (intRange r.X (wrap64 (r.X + r.Width))).foldlM
        (fun pix x =>
          pixSet4 pix (wrap64 (wrap64 (y * stride) + wrap64 (x * 4))) c.R c.G c.B c.A) pix)
    pix

/-- Go `func (img *Image) Fill(c Color)`. -/
def Image.Fill (img : Image) (c : Color) : Option Image := do
  let curr ← img.currentState
  let clip := curr.clip
  let pix ← fillLoop img.Pix img.Stride clip c
  pure { img with Pix := pix }

/-- Go `func (img *Image) fillAbsRect(r Rectangle, c Color)`. -/
def Image.fillAbsRect (img : Image) (r : Rectangle) (c : Color) : Option Image := do
  let curr ← img.currentState
  let absRect := r.Add curr.origin
  let drawRect := curr.clip.Overlap absRect
  if drawRect.Width ≤ 0 ∨ drawRect.Height ≤ 0 then pure img
  else
    let pix ← fillLoop img.Pix img.Stride drawRect c
    pure { img with Pix := pix }

/-- Go `func (img *Image) HLine(y, x1, x2, h int, c Color)`. -/
def Image.HLine (img : Image) (y x1 x2 h : Int) (c : Color) : Option Image :=
  let (x1, x2) := if x1 > x2 then (x2, x1) else (x1, x2)
  img.fillAbsRect ⟨x1, y, wrap64 (x2 - x1), h⟩ c

/-- Go `func (img *Image) VLine(x, y1, y2, w int, c Color)`. -/
def Image.VLine (img : Image) (x y1 y2 w : Int) (c : Color) : Option Image :=
  let (y1, y2) := if y1 > y2 then (y2, y1) else (y1, y2)
  img.fillAbsRect ⟨x, y1, w, wrap64 (y2 - y1)⟩ c

/-- Go `func (img *Image) Border(c Color)`. -/
def Image.Border (img : Image) (c : Color) : Option Image := do
  let curr ← img.currentState
  let w := curr.bounds.Width
  let h := curr.bounds.Height
  let img ← img.HLine 0 0 w 1 c
  let img ← img.HLine (wrap64 (h - 1)) 0 w 1 c
  let img ← img.VLine 0 0 h 1 c
  img.VLine (wrap64 (w - 1)) 0 h 1 c

/-! ## blit.go -/

/-- The partial-alpha branch of the compositing code computes its four output bytes in
`float64` and converts them to `uint8`. That arithmetic is taken as a parameter:
`chan s bg sa` stands for `uint8(float64(s)*a + float64(bg)*(1-a))` and `alpha sa bgA`
for `uint8(float64(sa) + float64(bgA)*(1-a))`, with `a := float64(sa) / 255.0`. -/
structure Blend where
  chan : uint8 → uint8 → uint8 → uint8
  alpha : uint8 → uint8 → uint8

/-- The body of the inner loop of `Blit` for the destination pixel `(x, y)`;
`srcPix` is the source buffer `src.Pix`. -/
def blitPixel (B : Blend) (srcPix : List uint8) (srcStride dstStride : Int)
    (srcCurr : subImageState) (absDstRect : Rectangle) (y srcAbsY : Int)
    (pix : List uint8) (x : Int) : Option (List uint8) :=
  let relX := wrap64 (x - absDstRect.X)
  let srcAbsX := wrap64 (srcCurr.origin.X + relX)
  if srcAbsX < srcCurr.clip.X ∨
      srcAbsX ≥ wrap64 (srcCurr.clip.X + srcCurr.clip.Width) then
    pure pix
  else do
    let srcOffset := wrap64 (wrap64 (srcAbsY * srcStride) + wrap64 (srcAbsX * 4))
    let (sr, sg, sb, sa) ← pixGet4 srcPix srcOffset
    if sa = 0 then pure pix
    else
      let dstOffset := wrap64 (wrap64 (y * dstStride) + wrap64 (x * 4))
      if sa = 255 then
        pixSet4 pix dstOffset sr sg sb sa
      else do
        let (bgR, bgG, bgB, bgA) ← pixGet4 pix dstOffset
        let outR := B.chan sr bgR sa
        let outG := B.chan sg bgG sa
        let outB := B.chan sb bgB sa
        let outA := B.alpha sa bgA
        pixSet4 pix dstOffset outR outG outB outA

/-- The body of `Blit` after the two `currentState()` calls. When `same` is set the
source and the destination are the same canvas, so each source load reads the buffer
as the earlier stores of the same call have left it; otherwise the source buffer is
`src.Pix` throughout. -/
def blitLoop (B : Blend) (same : Bool) (img src : Image) (dstCurr srcCurr : subImageState)
    (p : Point) : Option (List uint8) :=
  let w := srcCurr.bounds.Width
  let h := srcCurr.bounds.Height
  let dstRect : Rectangle := ⟨p.X, p.Y, w, h⟩
  let absDstRect := dstRect.Add dstCurr.origin
  let drawRect := dstCurr.clip.Overlap absDstRect
  if drawRect.Width ≤ 0 ∨ drawRect.Height ≤ 0 then pure img.Pix
  else
    (intRange drawRect.Y (wrap64 (drawRect.Y + drawRect.Height))).foldlM
      (fun pix y =>
        let relY := wrap64 (y - absDstRect.Y)
        let srcAbsY := wrap64 (srcCurr.origin.Y + relY)
        if srcAbsY < srcCurr.clip.Y ∨
            srcAbsY ≥ wrap64 (srcCurr.clip.Y + srcCurr.clip.Height) then
          pure pix
        else
          (intRange drawRect.X (wrap64 (drawRect.X + drawRect.Width))).foldlM
            (fun pix x =>
              blitPixel B (if same then pix else src.Pix) src.Stride img.Stride srcCurr
                absDstRect y srcAbsY pix x)
            pix)
      img.Pix

/-- Go `func (img *Image) Blit(src *Image, p Point)` for a source canvas `src` that is a
different object from the destination `img`. -/
def Image.Blit (B : Blend) (img src : Image) (p : Point) : Option Image := do
  let dstCurr ← img.currentState
  let srcCurr ← src.currentState
  let pix ← blitLoop B false img src dstCurr srcCurr p
  pure { img with Pix := pix }

/-- The call `img.Blit(img, p)`: `Blit` called with the destination itself as source. -/
def Image.BlitSelf (B : Blend) (img : Image) (p : Point) : Option Image := do
  let dstCurr ← img.currentState
  let srcCurr ← img.currentState
  let pix ← blitLoop B true img img dstCurr srcCurr p
  pure { img with Pix := pix }

/-! ## Reachable canvases -/

/-- The canvases obtained from `NewImage(w, h)` through the view-stack operations and
the drawing operations `Set`, `Fill`, `HLine`, `VLine`, `Border` and `Blit` (whose
source is any canvas obtained the same way). The remaining drawing operations,
`DrawImageScaled` and `Text`, only store bytes into `Pix`; they are covered by
`repaint`, which allows any change of the buffer contents that keeps its length. -/
inductive Reachable : Int → Int → Image → Prop
  | newImage {w h : Int} {img : Image} :
      NewImage w h = some img → Reachable w h img
  | pushSubImage {w h : Int} {img img1 : Image} (r : Rectangle) :
      Reachable w h img → img.PushSubImage r = some img1 → Reachable w h img1
  | popSubImage {w h : Int} {img : Image} :
      Reachable w h img → Reachable w h img.PopSubImage
  | pushClip {w h : Int} {img img1 : Image} (r : Rectangle) :
      Reachable w h img → img.PushClip r = some img1 → Reachable w h img1
  | popClip {w h : Int} {img img1 : Image} :
      Reachable w h img → img.PopClip = some img1 → Reachable w h img1
  | set {w h : Int} {img img1 : Image} (p : Point) (c : Color) :
      Reachable w h img → img.Set p c = some img1 → Reachable w h img1
  | fill {w h : Int} {img img1 : Image} (c : Color) :
      Reachable w h img → img.Fill c = some img1 → Reachable w h img1
  | hline {w h : Int} {img img1 : Image} (y x1 x2 t : Int) (c : Color) :
      Reachable w h img → img.HLine y x1 x2 t c = some img1 → Reachable w h img1
  | vline {w h : Int} {img img1 : Image} (x y1 y2 t : Int) (c : Color) :
      Reachable w h img → img.VLine x y1 y2 t c = some img1 → Reachable w h img1
  | border {w h : Int} {img img1 : Image} (c : Color) :
      Reachable w h img → img.Border c = some img1 → Reachable w h img1
  | blit {w h sw sh : Int} {img src img1 : Image} (B : Blend) (p : Point) :
      Reachable w h img → Reachable sw sh src → Image.Blit B img src p = some img1 →
      Reachable w h img1
  | blitSelf {w h : Int} {img img1 : Image} (B : Blend) (p : Point) :
      Reachable w h img → Image.BlitSelf B img p = some img1 → Reachable w h img1
  | repaint {w h : Int} {img : Image} (pix : List uint8) :
      Reachable w h img → pix.length = img.Pix.length →
      Reachable w h { img with Pix := pix }

/-! ## Well-formed canvases -/

/-- Every point of the rectangle `c` is a pixel of the `w × h` buffer. -/
def ClipIn (w h : Int) (c : Rectangle) : Prop :=
  ∀ p : Point, c.Contains p = true → 0 ≤ p.X ∧ p.X < w ∧ 0 ≤ p.Y ∧ p.Y < h

/-- The rectangle `c` starts at non-negative coordinates. -/
def ClipPos (c : Rectangle) : Prop := 0 ≤ c.X ∧ 0 ≤ c.Y

/-- Width and height of `c` are non-negative and not smaller than the extent of the
points that `c` contains. -/
def ClipExt (c : Rectangle) : Prop :=
  (0 ≤ c.Width ∧ wrap64 (c.X + c.Width) - c.X ≤ c.Width) ∧
    (0 ≤ c.Height ∧ wrap64 (c.Y + c.Height) - c.Y ≤ c.Height)

/-- A canvas size whose buffer length `4*w*h` is computed without wraparound. -/
def SizeOK (w h : Int) : Prop := 0 < w ∧ 0 < h ∧ 4 * w * h ≤ 9223372036854775807

instance SizeOK.decidable (w h : Int) : Decidable (SizeOK w h) := by
  unfold SizeOK
  infer_instance

/-- The current clip of a frame and every clip saved on its restore stack lie in the
buffer. -/
def FrameWF (w h : Int) (f : subImageState) : Prop :=
  (ClipIn w h f.clip ∧ ClipPos f.clip ∧ ClipExt f.clip) ∧
    ∀ c ∈ f.clippingStack, ClipIn w h c ∧ ClipPos c ∧ ClipExt c

/-- The part of the invariant that holds for canvases of every size: the view-state stack
is not empty, its bottom frame is the root frame, and every clip starts at non-negative
coordinates. -/
def StackWF (w h : Int) (img : Image) : Prop :=
  img.stateStack ≠ [] ∧
    (img.stateStack.map (fun f => (f.origin, f.bounds))).head? =
      some (⟨0, 0⟩, ⟨0, 0, w, h⟩) ∧
    ∀ f ∈ img.stateStack, ClipPos f.clip ∧ ∀ c ∈ f.clippingStack, ClipPos c

/-- The invariant of the canvases built by `NewImage(w, h)` for a size `SizeOK w h`. -/
def WF (w h : Int) (img : Image) : Prop :=
  img.Stride = 4 * w ∧ (img.Pix.length : Int) = 4 * w * h ∧ img.Rect = ⟨0, 0, w, h⟩ ∧
    img.stateStack ≠ [] ∧
    (img.stateStack.map (fun f => (f.origin, f.bounds))).head? =
      some (⟨0, 0⟩, ⟨0, 0, w, h⟩) ∧
    ∀ f ∈ img.stateStack, FrameWF w h f

/-- Two canvases with the same view-state stack, geometry and buffer length. -/
def SameView (a b : Image) : Prop :=
  b.stateStack = a.stateStack ∧ b.Stride = a.Stride ∧ b.Rect = a.Rect ∧
    b.Pix.length = a.Pix.length

/-! ## Sequences of clip pushes and pops, and sample canvases -/

/-- The calls `PushClip(r1); ...; PushClip(rn)` for the list `[r1, ..., rn]`. -/
def pushClips (img : Image) : List Rectangle → Option Image
  | [] => some img
  | r :: rs => (img.PushClip r).bind (fun i => pushClips i rs)

/-- The call `PopClip()` repeated `k` times. -/
def popClips (img : Image) : Nat → Option Image
  | 0 => some img
  | k + 1 => img.PopClip.bind (fun i => popClips i k)

/-- The canvas `NewImage(2, 2)`. -/
def canvas2 : Image :=
  { Pix := List.replicate 16 0
    Stride := 8
    Rect := ⟨0, 0, 2, 2⟩
    stateStack :=
      [{ origin := ⟨0, 0⟩, bounds := ⟨0, 0, 2, 2⟩, clip := ⟨0, 0, 2, 2⟩,
         clippingStack := [] }] }

/-! ## Runs of view-stack operations with a record of the pushed clips -/

/-- The four view-stack operations. -/
inductive StackOp where
  | pushSubImage (r : Rectangle)
  | popSubImage
  | pushClip (r : Rectangle)
  | popClip
deriving DecidableEq, Repr

/-- The effect of a view-stack operation on the canvas. -/
def StackOp.apply (img : Image) : StackOp → Option Image
  | .pushSubImage r => img.PushSubImage r
  | .popSubImage => some img.PopSubImage
  | .pushClip r => img.PushClip r
  | .popClip => img.PopClip

/-- A record kept beside the canvas: for each frame of the view-state stack, in the
same order, the absolute rectangles `r.Add(curr.origin)` of the clips pushed in that
frame by `PushClip` and not yet popped, oldest first. The canvas itself stores only the
clips to restore, not these rectangles. -/
abbrev Pushed := List (List Rectangle)

/-- The effect of a view-stack operation on the record of pushed clips: `PushSubImage`
opens an empty entry, `PopSubImage` drops the last entry unless it is the only one,
`PushClip(r)` adds the absolute rectangle of `r` to the last entry and `PopClip` removes
the newest rectangle of the last entry. -/
def StackOp.track (img : Image) (g : Pushed) : StackOp → Pushed
  | .pushSubImage _ => g ++ [[]]
  | .popSubImage => if g.length > 1 then g.dropLast else g
  | .pushClip r =>
    match img.currentState, g.getLast? with
    | some curr, some top => g.dropLast ++ [top ++ [r.Add curr.origin]]
    | _, _ => g
  | .popClip =>
    match g.getLast? with
    | some top => g.dropLast ++ [top.dropLast]
    | none => g

/-- A run of view-stack operations, on the canvas and on the record of pushed clips. -/
def runOps : List StackOp → Image × Pushed → Option (Image × Pushed)
  | [], s => some s
  | op :: ops, s => (op.apply s.1).bind (fun img1 => runOps ops (img1, op.track s.1 s.2))

/-- Membership of `p` in the intersection of the canvas extent `(0,0,w,h)`, the absolute
rectangle (`bounds`) of every frame on the view stack, and the absolute rectangle of
every clip pushed and not yet popped in the top frame only. -/
def topFrameIntersection (w h : Int) (img : Image) (g : Pushed) (p : Point) : Bool :=
  Rectangle.Contains ⟨0, 0, w, h⟩ p &&
    img.stateStack.all (fun f => f.bounds.Contains p) &&
    (g.getLast?.getD []).all (fun c => c.Contains p)

/-- Membership of `p` in the intersection of the canvas extent `(0,0,w,h)`, the absolute
rectangle (`bounds`) of every frame on the view stack, and the absolute rectangle of
every clip pushed and not yet popped in any frame on the view stack. -/
def allFramesIntersection (w h : Int) (img : Image) (g : Pushed) (p : Point) : Bool :=
  Rectangle.Contains ⟨0, 0, w, h⟩ p &&
    img.stateStack.all (fun f => f.bounds.Contains p) &&
    g.all (fun cl => cl.all (fun c => c.Contains p))

/-- The clips of one frame, newest first: `saved` are the clips to restore, `c` the
current clip and `pushed` the recorded rectangles. Each clip is the one below it cut by
the rectangle pushed at that level, and the oldest one is `base`. -/
def chainInv (base : Point → Prop) : List Rectangle → Rectangle → List Rectangle → Prop
  | [], c, [] => ∀ p, c.Contains p = true ↔ base p
  | s :: saved, c, r :: pushed =>
    (∀ p, c.Contains p = true ↔ (s.Contains p = true ∧ r.Contains p = true)) ∧
      chainInv base saved s pushed
  | _, _, _ => False

/-- The clip a frame `f` starts from: the canvas extent cut by its bounds for the root
frame, the clip of the frame below cut by its bounds otherwise. -/
def baseOf (w h : Int) (below : List subImageState) (f : subImageState) (p : Point) : Prop :=
  match below with
  | [] => Rectangle.Contains ⟨0, 0, w, h⟩ p = true ∧ f.bounds.Contains p = true
  | b :: _ => b.clip.Contains p = true ∧ f.bounds.Contains p = true

/-- The invariant relating the view-state stack (top frame first) to the record of
pushed clips (top entry first). -/
def stackInv (w h : Int) : List subImageState → Pushed → Prop
  | [], [] => True
  | f :: below, cl :: g =>
    chainInv (baseOf w h below f) f.clippingStack.reverse f.clip cl.reverse ∧
      stackInv w h below g
  | _, _ => False

/-- A pixel value: the four bytes R, G, B, A stored for one pixel. -/
abbrev Px := uint8 × uint8 × uint8 × uint8

/-- The four bytes `c.R()`, `c.G()`, `c.B()`, `c.A()` that the drawing code stores for `c`. -/
def Color.px (c : Color) : Px := (c.R, c.G, c.B, c.A)

/-- The pixel of the buffer at the absolute position `(x, y)`: the four bytes at offset
`y*Stride + x*4`. -/
def Image.pixel (img : Image) (x y : Int) : Option Px :=
  pixGet4 img.Pix (y * img.Stride + x * 4)

/-- None of the additions made for the rectangle `r` drawn in a frame of origin `o`
wraps around: the edges `r.x + r.width` and `r.y + r.height` of `r`, the translation
`r.Add(o)`, and the edges of the translated rectangle. -/
def Rectangle.Exact (r : Rectangle) (o : Point) : Prop :=
  (I64 r.X ∧ I64 (r.X + r.Width) ∧ I64 (r.X + o.X) ∧ I64 (r.X + o.X + r.Width)) ∧
    (I64 r.Y ∧ I64 (r.Y + r.Height) ∧ I64 (r.Y + o.Y) ∧ I64 (r.Y + o.Y + r.Height))

instance Rectangle.Exact.decidable (r : Rectangle) (o : Point) : Decidable (r.Exact o) := by
  unfold Rectangle.Exact
  infer_instance

/-- The frame records its own extent: the origin is a pair of `int` values, the bounds
start at the origin, and the current clip and every clip to restore lie inside the
bounds. -/
def FrameBounds (f : subImageState) : Prop :=
  (I64 f.origin.X ∧ I64 f.origin.Y) ∧ f.bounds.X = f.origin.X ∧ f.bounds.Y = f.origin.Y ∧
    (∀ p, f.clip.Contains p = true → f.bounds.Contains p = true) ∧
    ∀ c ∈ f.clippingStack, ∀ p, c.Contains p = true → f.bounds.Contains p = true

/-- The compositing rule of `Blit` for one pixel with source bytes `s` and destination
bytes `bg`: a source alpha of `0` keeps the destination, a source alpha of `255` stores the
source bytes, any other alpha stores the blended bytes. -/
def composePx (B : Blend) (s bg : Px) : Px :=
  if s.2.2.2 = 0 then bg
  else if s.2.2.2 = 255 then s
  else (B.chan s.1 bg.1 s.2.2.2, B.chan s.2.1 bg.2.1 s.2.2.2, B.chan s.2.2.1 bg.2.2.1 s.2.2.2,
    B.alpha s.2.2.2 bg.2.2.2)

/-- The new value of a destination pixel with old value `v` composited with the source
pixel `s`, when both are inside their buffers. -/
def composeOpt (B : Blend) (s v : Option Px) : Option Px :=
  match s, v with
  | some s, some bg => some (composePx B s bg)
  | _, _ => v

/-- The load `m.Pix[off]` through the pointer `m`, in a store of canvases where a canvas
is named by its index as a Go pointer names an object. -/
def storeLoad (st : List Image) (m : Nat) (off : Int) : Option uint8 := do
  let c ← st[m]?
  pixGet c.Pix off

/-- The store `m.Pix[off] = v` through the pointer `m`. -/
def storeStore (st : List Image) (m : Nat) (off : Int) (v : uint8) : Option (List Image) := do
  let c ← st[m]?
  let pix ← pixSet c.Pix off v
  pure (st.set m { c with Pix := pix })

/-- The field read `m.Stride` through the pointer `m`. -/
def storeStride (st : List Image) (m : Nat) : Option Int := do
  let c ← st[m]?
  pure c.Stride

/-- The body of the inner loop of `Blit` for the destination pixel `(x, y)`, on a store
of canvases: every load `src.Pix[...]` goes through the pointer `src` and every load or
store `img.Pix[...]` through the pointer `img`, which may be the same pointer. -/
def storeBlitPixel (B : Blend) (img src : Nat) (srcCurr : subImageState)
    (absDstRect : Rectangle) (y srcAbsY : Int) (st : List Image) (x : Int) :
    Option (List Image) :=
  let relX := wrap64 (x - absDstRect.X)
  let srcAbsX := wrap64 (srcCurr.origin.X + relX)
  if srcAbsX < srcCurr.clip.X ∨
      srcAbsX ≥ wrap64 (srcCurr.clip.X + srcCurr.clip.Width) then
    pure st
  else do
    let srcStride ← storeStride st src
    let srcOffset := wrap64 (wrap64 (srcAbsY * srcStride) + wrap64 (srcAbsX * 4))
    let sr ← storeLoad st src srcOffset
    let sg ← storeLoad st src (wrap64 (srcOffset + 1))
    let sb ← storeLoad st src (wrap64 (srcOffset + 2))
    let sa ← storeLoad st src (wrap64 (srcOffset + 3))
    if sa = 0 then pure st
    else do
      let dstStride ← storeStride st img
      let dstOffset := wrap64 (wrap64 (y * dstStride) + wrap64 (x * 4))
      if sa = 255 then do
        let st ← storeStore st img dstOffset sr
        let st ← storeStore st img (wrap64 (dstOffset + 1)) sg
        let st ← storeStore st img (wrap64 (dstOffset + 2)) sb
        storeStore st img (wrap64 (dstOffset + 3)) sa
      else do
        let bgR ← storeLoad st img dstOffset
        let bgG ← storeLoad st img (wrap64 (dstOffset + 1))
        let bgB ← storeLoad st img (wrap64 (dstOffset + 2))
        let bgA ← storeLoad st img (wrap64 (dstOffset + 3))
        let outR := B.chan sr bgR sa
        let outG := B.chan sg bgG sa
        let outB := B.chan sb bgB sa
        let outA := B.alpha sa bgA
        let st ← storeStore st img dstOffset outR
        let st ← storeStore st img (wrap64 (dstOffset + 1)) outG
        let st ← storeStore st img (wrap64 (dstOffset + 2)) outB
        storeStore st img (wrap64 (dstOffset + 3)) outA

/-- Go `func (img *Image) Blit(src *Image, p Point)` on a store of canvases, with the
receiver and the source given as pointers: the whole store after the call. -/
def storeBlit (B : Blend) (st : List Image) (img src : Nat) (p : Point) :
    Option (List Image) := do
  let d ← st[img]?
  let s ← st[src]?
  let dstCurr ← d.currentState
  let srcCurr ← s.currentState
  let w := srcCurr.bounds.Width
  let h := srcCurr.bounds.Height
  let dstRect : Rectangle := ⟨p.X, p.Y, w, h⟩
  let absDstRect := dstRect.Add dstCurr.origin
  let drawRect := dstCurr.clip.Overlap absDstRect
  if drawRect.Width ≤ 0 ∨ drawRect.Height ≤ 0 then pure st
  else
    (intRange drawRect.Y (wrap64 (drawRect.Y + drawRect.Height))).foldlM
      (fun st y =>
        let relY := wrap64 (y - absDstRect.Y)
        let srcAbsY := wrap64 (srcCurr.origin.Y + relY)
        if srcAbsY < srcCurr.clip.Y ∨
            srcAbsY ≥ wrap64 (srcCurr.clip.Y + srcCurr.clip.Height) then
          pure st
        else
          (intRange drawRect.X (wrap64 (drawRect.X + drawRect.Width))).foldlM
            (fun st x => storeBlitPixel B img src srcCurr absDstRect y srcAbsY st x)
            st)
      st

/-- A `1 × 1` canvas holding one opaque pixel: `NewImage(1, 1)` after
`Set((0,0), (7,8,9,255))`. -/
def opaque1 : Image :=
  { Pix := [7, 8, 9, 255]
    Stride := 4
    Rect := ⟨0, 0, 1, 1⟩
    stateStack :=
      [{ origin := ⟨0, 0⟩, bounds := ⟨0, 0, 1, 1⟩, clip := ⟨0, 0, 1, 1⟩,
         clippingStack := [] }] }

/-! ## The Go standard library types used by `DrawImageScaled` and `Text` -/

/-- Modelled from the Go standard library: `image.Point`. -/
structure image.Point where
  X : Int
  Y : Int
deriving DecidableEq, Repr

/-- Modelled from the Go standard library: `image.Rectangle`, the points with
`Min.X <= X < Max.X` and `Min.Y <= Y < Max.Y`. -/
structure image.Rectangle where
  Min : image.Point
  Max : image.Point
deriving DecidableEq, Repr

/-- Go `func (r Rectangle) Dx() int` of package `image`. -/
def image.Rectangle.Dx (r : image.Rectangle) : Int := wrap64 (r.Max.X - r.Min.X)

/-- Go `func (r Rectangle) Dy() int` of package `image`. -/
def image.Rectangle.Dy (r : image.Rectangle) : Int := wrap64 (r.Max.Y - r.Min.Y)

/-- Go `func (p Point) In(r Rectangle) bool` of package `image`. -/
def image.Point.In (p : image.Point) (r : image.Rectangle) : Bool :=
  decide (r.Min.X ≤ p.X) && decide (p.X < r.Max.X) &&
    decide (r.Min.Y ≤ p.Y) && decide (p.Y < r.Max.Y)

/-- Modelled from the Go standard library: `color.RGBA`. -/
structure color.RGBA where
  R : uint8
  G : uint8
  B : uint8
  A : uint8
deriving DecidableEq, Repr

/-- Go `func (c RGBA) RGBA() (r, g, b, a uint32)` of package `color`:
`r = uint32(c.R); r |= r << 8`, and the same for the other channels. -/
def color.RGBA.RGBA (c : color.RGBA) : Nat × Nat × Nat × Nat :=
  (c.R.val ||| (c.R.val <<< 8), c.G.val ||| (c.G.val <<< 8), c.B.val ||| (c.B.val <<< 8),
    c.A.val ||| (c.A.val <<< 8))

/-- Modelled from the Go standard library: `image.RGBA`. "The pixel at `(x, y)` starts at
`Pix[(y-Rect.Min.Y)*Stride + (x-Rect.Min.X)*4]`." -/
structure image.RGBA where
  Pix : List uint8
  Stride : Int
  Rect : image.Rectangle
deriving DecidableEq, Repr

/-- Go `func (p *RGBA) PixOffset(x, y int) int` of package `image`. -/
def image.RGBA.PixOffset (p : image.RGBA) (x y : Int) : Int :=
  wrap64 (wrap64 (wrap64 (y - p.Rect.Min.Y) * p.Stride) + wrap64 (wrap64 (x - p.Rect.Min.X) * 4))

/-- Go `func (p *RGBA) RGBAAt(x, y int) color.RGBA` of package `image`, which is what
`At` returns: the zero colour outside `Rect`, else the four bytes at `PixOffset(x, y)`. -/
def image.RGBA.RGBAAt (p : image.RGBA) (x y : Int) : Option color.RGBA :=
  if !(image.Point.In ⟨x, y⟩ p.Rect) then some ⟨0, 0, 0, 0⟩
  else do
    let i := p.PixOffset x y
    let (r, g, b, a) ← pixGet4 p.Pix i
    pure ⟨r, g, b, a⟩

/-- Go `func (p *RGBA) SubImage(r Rectangle) Image` of package `image`, for a rectangle `r`
inside `p.Rect`: the same buffer from the offset of `r.Min` on, the same stride, and the
bounds `r`. -/
def image.RGBA.SubImage (p : image.RGBA) (r : image.Rectangle) : image.RGBA :=
  { Pix := p.Pix.drop (p.PixOffset r.Min.X r.Min.Y).toNat, Stride := p.Stride, Rect := r }

/-- A value of the Go interface `image.Image`: either a `*image.RGBA`, for which the type
assertion `src.(*image.RGBA)` succeeds, or any other implementation, given by its
`Bounds()` and by the four 32-bit results of `At(x, y).RGBA()`. -/
inductive image.Image where
  | rgba (m : image.RGBA)
  | other (bounds : image.Rectangle) (colorAt : Int → Int → Nat × Nat × Nat × Nat)

/-- The method `Bounds()` of an `image.Image`. -/
def image.Image.Bounds : image.Image → image.Rectangle
  | .rgba m => m.Rect
  | .other bounds _ => bounds

/-- The call `src.At(x, y).RGBA()` on an `image.Image`. -/
def image.Image.AtRGBA : image.Image → Int → Int → Option (Nat × Nat × Nat × Nat)
  | .rgba m, x, y => (m.RGBAAt x y).map color.RGBA.RGBA
  | .other _ colorAt, x, y => some (colorAt x y)

/-- The Go conversion `uint8(v)` of an unsigned integer: the low eight bits. -/
def toUint8 (v : Nat) : uint8 := Fin.ofNat v

/-- Go integer division `a / b`: truncated towards zero, a run-time panic when `b` is
zero; the quotient of the most negative `int` by `-1` wraps. -/
def goDiv (a b : Int) : Option Int :=
  if b = 0 then none else some (wrap64 (Int.tdiv a b))

/-! ## image.go: `DrawImageScaled` -/

/-- The "direct access" branch of `DrawImageScaled` for a `*image.RGBA` source: the four
bytes at `(bounds.Min.Y+srcY)*srcRGBA.Stride + (bounds.Min.X+srcX)*4`. -/
def fetchDirect (srcRGBA : image.RGBA) (bounds : image.Rectangle) (srcX srcY : Int) :
    Option Px :=
  let offset := wrap64 (wrap64 (wrap64 (bounds.Min.Y + srcY) * srcRGBA.Stride) +
    wrap64 (wrap64 (bounds.Min.X + srcX) * 4))
  pixGet4 srcRGBA.Pix offset

/-- The "general case" branch of `DrawImageScaled`:
`c := src.At(bounds.Min.X+srcX, bounds.Min.Y+srcY); r16, g16, b16, a16 := c.RGBA()` and
the four conversions `uint8(r16>>8)`. -/
def fetchGeneral (src : image.Image) (bounds : image.Rectangle) (srcX srcY : Int) :
    Option Px := do
  let (r16, g16, b16, a16) ←
    src.AtRGBA (wrap64 (bounds.Min.X + srcX)) (wrap64 (bounds.Min.Y + srcY))
  pure (toUint8 (r16 >>> 8), toUint8 (g16 >>> 8), toUint8 (b16 >>> 8), toUint8 (a16 >>> 8))

/-- The source pixel as `DrawImageScaled` fetches it: `srcRGBA, ok := src.(*image.RGBA)`,
then the direct access when `ok`, the general case otherwise. -/
def fetchPixel (src : image.Image) (bounds : image.Rectangle) (srcX srcY : Int) : Option Px :=
  match src with
  | .rgba srcRGBA => fetchDirect srcRGBA bounds srcX srcY
  | .other _ _ => fetchGeneral src bounds srcX srcY

/-- The body of the inner loop of `DrawImageScaled` for the destination pixel `(x, y)`. -/
def scaledPixel (B : Blend) (src : image.Image) (bounds : image.Rectangle) (srcW : Int)
    (dstStride scale : Int) (absDstRect : Rectangle) (y srcY : Int) (pix : List uint8)
    (x : Int) : Option (List uint8) := do
  let relX := wrap64 (x - absDstRect.X)
  let srcX ← goDiv relX scale
  if srcX < 0 ∨ srcX ≥ srcW then pure pix
  else
    let (r, g, b, a) ← fetchPixel src bounds srcX srcY
    if a = 0 then pure pix
    else
      let dstOffset := wrap64 (wrap64 (y * dstStride) + wrap64 (x * 4))
      if a = 255 then
        pixSet4 pix dstOffset r g b a
      else do
        let (bgR, bgG, bgB, bgA) ← pixGet4 pix dstOffset
        let outR := B.chan r bgR a
        let outG := B.chan g bgG a
        let outB := B.chan b bgB a
        let outA := B.alpha a bgA
        pixSet4 pix dstOffset outR outG outB outA

/-- The body of `DrawImageScaled` after the `currentState()` call: the pixel buffer after
the two nested loops (the buffer as it is when the draw rectangle is empty). -/
def scaledLoop (B : Blend) (img : Image) (src : image.Image) (curr : subImageState)
    (p : Point) (scale : Int) : Option (List uint8) :=
  let bounds := src.Bounds
  let srcW := bounds.Dx
  let srcH := bounds.Dy
  let dstW := wrap64 (srcW * scale)
  let dstH := wrap64 (srcH * scale)
  let dstRect : Rectangle := ⟨p.X, p.Y, dstW, dstH⟩
  let absDstRect := dstRect.Add curr.origin
  let drawRect := curr.clip.Overlap absDstRect
  if drawRect.Width ≤ 0 ∨ drawRect.Height ≤ 0 then pure img.Pix
  else
    (intRange drawRect.Y (wrap64 (drawRect.Y + drawRect.Height))).foldlM
      (fun pix y => do
        let relY := wrap64 (y - absDstRect.Y)
        let srcY ← goDiv relY scale
        if srcY < 0 ∨ srcY ≥ srcH then pure pix
        else
          (intRange drawRect.X (wrap64 (drawRect.X + drawRect.Width))).foldlM
            (fun pix x =>
              scaledPixel B src bounds srcW img.Stride scale absDstRect y srcY pix x)
            pix)
      img.Pix

/-- Go `func (img *Image) DrawImageScaled(src image.Image, p Point, scale int)`. -/
def Image.DrawImageScaled (B : Blend) (img : Image) (src : image.Image) (p : Point)
    (scale : Int) : Option Image := do
  let curr ← img.currentState
  let pix ← scaledLoop B img src curr p scale
  pure { img with Pix := pix }

/-- A `3 x 1` sprite sheet, as `image.NewRGBA(image.Rect(0, 0, 3, 1))` with three opaque
pixels stored. -/
def sheet : image.RGBA :=
  { Pix := [1, 2, 3, 255, 10, 20, 30, 255, 40, 50, 60, 255]
    Stride := 12
    Rect := ⟨⟨0, 0⟩, ⟨3, 1⟩⟩ }

/-- The sprite `sheet.SubImage(image.Rect(1, 0, 2, 1))`: one pixel, `(10, 20, 30, 255)`. -/
def sprite : image.RGBA := sheet.SubImage ⟨⟨1, 0⟩, ⟨2, 1⟩⟩

/-- The sprite behind another implementation of `image.Image`, with the same bounds and
the same colours. -/
def spriteOther : image.Image :=
  .other sprite.Rect (fun x y => ((sprite.RGBAAt x y).getD ⟨0, 0, 0, 0⟩).RGBA)

/-- The blend used in the worked examples; no example reaches the partial-alpha branch. -/
def sampleBlend : Blend := ⟨fun s _ _ => s, fun sa _ => sa⟩

/-! ## image.go: text layout -/

/-- The external capabilities used by `wrapText` and `Text`, taken as parameters:
`splitLines` is `strings.Split(·, "\n")` and `fields` is `strings.Fields` of the Go
standard library; `measure s` is `font.MeasureString(f, s).Ceil()` and `lineHeight` is
`(metrics.Ascent + metrics.Descent).Ceil()` for the font face `f`; `render maxWidth
totalHeight lines c` is the off-screen image `tempImg` as it is after
`image.NewRGBA(image.Rect(0, 0, maxWidth, totalHeight))` and the `DrawString` loop over
`lines` in colour `c`. -/
structure TextEnv where
  splitLines : String → List String
  fields : String → List String
  measure : String → Int
  lineHeight : Int
  render : Int → Int → List String → Color → image.RGBA

/-- The body of the inner loop of `wrapText` for the next `word`, on the pair of the
variables `lines` and `currentLine`. -/
def wrapStep (E : TextEnv) (maxWidth : Int) (st : List String × String) (word : String) :
    List String × String :=
  let width := E.measure (st.2 ++ " " ++ word)
  if width ≤ maxWidth then (st.1, st.2 ++ " " ++ word)
  else (st.1 ++ [st.2], word)

/-- The body of the outer loop of `wrapText` for one `paragraph`: the variable `lines`
after the iteration. -/
def wrapParagraph (E : TextEnv) (maxWidth : Int) (lines : List String) (paragraph : String) :
    List String :=
  let words := E.fields paragraph
  match words with
  | [] => lines ++ [""]
  | w0 :: rest =>
    let st := rest.foldl (wrapStep E maxWidth) (lines, w0)
    st.1 ++ [st.2]

/-- Go `func wrapText(text string, f font.Face, maxWidth int) []string`. -/
def wrapText (E : TextEnv) (text : String) (maxWidth : Int) : List String :=
  (E.splitLines text).foldl (wrapParagraph E maxWidth) []

/-- The line that `wrapText` builds from the words `ws`: the words in order, joined by
single spaces; the empty line for no words. -/
def joinLine : List String → String
  | [] => ""
  | w :: ws => ws.foldl (fun line word => line ++ " " ++ word) w

/-- The words of the lines that the inner loop of `wrapText` builds: `done` are the
words of the lines already appended, `cur` the words of `currentLine`, and the last
argument the words still to come. -/
def packWords (E : TextEnv) (maxWidth : Int) :
    List (List String) → List String → List String → List (List String)
  | done, cur, [] => done ++ [cur]
  | done, cur, w :: ws =>
    if E.measure (joinLine cur ++ " " ++ w) ≤ maxWidth then
      packWords E maxWidth done (cur ++ [w]) ws
    else packWords E maxWidth (done ++ [cur]) [w] ws

/-- The words of the lines of one paragraph with the words `words`: one line without
words when there is no word. -/
def paragraphGroups (E : TextEnv) (maxWidth : Int) (words : List String) :
    List (List String) :=
  match words with
  | [] => [[]]
  | w0 :: rest => packWords E maxWidth [] [w0] rest

/-- The break after the line with the words `g1` was forced: the first word of the next
line `g2` did not fit on it. -/
def ForcedBreak (E : TextEnv) (maxWidth : Int) (g1 g2 : List String) : Prop :=
  ∀ w ∈ g2.head?, maxWidth < E.measure (joinLine g1 ++ " " ++ w)

/-- The body of the inner loop of `Text` for the off-screen pixel `(x, y)`; the blend is
computed for every non-zero source alpha. -/
def textPixel (B : Blend) (curr : subImageState) (tempImg : image.RGBA) (p : Point)
    (y : Int) (img : Image) (x : Int) : Option Image := do
  let offset := tempImg.PixOffset x y
  let sa ← pixGet tempImg.Pix (wrap64 (offset + 3))
  if sa = 0 then pure img
  else
    let targetP := p.Add ⟨x, y⟩
    let absP := curr.origin.Add targetP
    if !curr.clip.Contains absP then pure img
    else
      let sr ← pixGet tempImg.Pix offset
      let sg ← pixGet tempImg.Pix (wrap64 (offset + 1))
      let sb ← pixGet tempImg.Pix (wrap64 (offset + 2))
      let bg ← img.At targetP
      let outR := B.chan sr bg.R sa
      let outG := B.chan sg bg.G sa
      let outB := B.chan sb bg.B sa
      let outA := B.alpha sa bg.A
      img.Set targetP ⟨outR, outG, outB, outA⟩

/-- The part of `Text` after the early return, for the value `maxWidth` computed before
it: the lines, the off-screen image `tempImg` of width `maxWidth`, and the two nested
loops that composite it onto the canvas. -/
def textDraw (E : TextEnv) (B : Blend) (img : Image) (curr : subImageState) (p : Point)
    (c : Color) (wrap : Bool) (msg : String) (maxWidth : Int) : Option Image :=
  let lines := if wrap then wrapText E msg maxWidth else E.splitLines msg
  let lineHeight := E.lineHeight
  let totalHeight := wrap64 ((lines.length : Int) * lineHeight)
  let tempImg := E.render maxWidth totalHeight lines c
  let bounds := tempImg.Rect
  (intRange 0 bounds.Dy).foldlM
    (fun img y =>
      (intRange 0 bounds.Dx).foldlM (fun img x => textPixel B curr tempImg p y img x) img)
    img

/-- Go `func (img *Image) Text(p Point, c Color, f font.Face, wrap bool, s string,
args ...any)`, with `msg` the result of `fmt.Sprintf(s, args...)`:
`relClip := curr.clip.Sub(curr.origin); maxWidth := relClip.X() + relClip.Width() - p.X()`,
the return when `maxWidth <= 0`, and the drawing `textDraw` otherwise. -/
def Image.Text (E : TextEnv) (B : Blend) (img : Image) (p : Point) (c : Color) (wrap : Bool)
    (msg : String) : Option Image := do
  let curr ← img.currentState
  let relClip := curr.clip.Sub curr.origin
  let maxWidth := wrap64 (wrap64 (relClip.X + relClip.Width) - p.X)
  if maxWidth ≤ 0 then pure img
  else textDraw E B img curr p c wrap msg maxWidth

/-- A font face whose rendering of any text is one opaque pixel `(5, 6, 7, 255)`. -/
def inkEnv : TextEnv :=
  { splitLines := fun s => [s]
    fields := fun s => [s]
    measure := fun _ => 1
    lineHeight := 1
    render := fun _ _ _ _ => ⟨[5, 6, 7, 255], 4, ⟨⟨0, 0⟩, ⟨1, 1⟩⟩⟩ }

/-! ## blit.go, image.go: the floating-point blend -/

/-- The integer nearest to `q`, the even one of the two when `q` lies halfway. -/
def roundHalfEven (q : ℚ) : Int :=
  let f := ⌊q⌋
  if 2 * (q - f) < 1 then f
  else if 1 < 2 * (q - f) then f + 1
  else if f % 2 = 0 then f else f + 1

/-- Rounding of a real result to Go `float64` (IEEE-754 binary64, round to nearest, ties
to even): a 53-bit significand scaled by the power of two of the binade of `x`, with the
fixed spacing `2^-1074` below `2^-1022`. A `float64` is modelled by the rational it
denotes; overflow to infinity (beyond `2^1024`) is not modelled. -/
def round64 (x : ℚ) : ℚ :=
  if x = 0 then 0 else
  let e := max (Int.log 2 |x|) (-1022)
  (roundHalfEven (x * (2 : ℚ) ^ (52 - e)) : ℚ) * (2 : ℚ) ^ (e - 52)

/-- The `float64` value of `float64(sa) + float64(bgA)*(1-a)` with
`a := float64(sa) / 255.0`, the argument of the conversion in
`outA := uint8(float64(sa) + float64(bgA)*(1-a))` of `Blit`, `DrawImageScaled` and `Text`;
every operation rounds on its own. The conversions `float64(sa)`, `float64(bgA)` and the
constants are exact. -/
def blendAlphaValue (sa bgA : uint8) : ℚ :=
  let a := round64 ((sa.val : ℚ) / 255)
  round64 ((sa.val : ℚ) + round64 ((bgA.val : ℚ) * round64 (1 - a)))

/-- The same expression when the compiler fuses the multiplication and the addition into
one operation with a single rounding, which the Go specification permits. -/
def blendAlphaFused (sa bgA : uint8) : ℚ :=
  let a := round64 ((sa.val : ℚ) / 255)
  round64 ((sa.val : ℚ) + (bgA.val : ℚ) * round64 (1 - a))

/-- The integer part of `v`: the fraction is discarded (truncation towards zero). -/
def truncInt (v : ℚ) : Int :=
  if 0 ≤ v then ⌊v⌋ else ⌈v⌉

/-- Go conversion `uint8(v)` of a `float64`: the fraction is discarded; when the integer
part is outside `0..255` the result is implementation-dependent and modelled by its low
eight bits. -/
def float64ToUint8 (v : ℚ) : uint8 :=
  toUint8 (Int.toNat (truncInt v % 256))

/-- The conversion `uint8(v)` overflows: the stored byte is not the integer part of `v`. -/
def overflowsUint8 (v : ℚ) : Prop :=
  ((float64ToUint8 v).val : Int) ≠ truncInt v

/-- The blend of the partial-alpha branch as the code computes it:
`uint8(float64(s)*a + float64(bg)*(1-a))` per colour channel and
`uint8(float64(sa) + float64(bgA)*(1-a))` for alpha, with `a := float64(sa) / 255.0`. -/
def float64Blend : Blend where
  chan s bg sa :=
    let a := round64 ((sa.val : ℚ) / 255)
    float64ToUint8 (round64 (round64 ((s.val : ℚ) * a) + round64 ((bg.val : ℚ) * round64 (1 - a))))
  alpha sa bgA := float64ToUint8 (blendAlphaValue sa bgA)

/-! ## Geometry lemmas -/

theorem wrap64_of_I64 (v : Int) (h : I64 v) : wrap64 v = v := by
  unfold I64 at h
  unfold wrap64
  omega

theorem wrap64_I64 (v : Int) : I64 (wrap64 v) := by
  unfold I64 wrap64
  omega

theorem contains_iff (r : Rectangle) (p : Point) :
    r.Contains p = true ↔
      r.X ≤ p.X ∧ p.X < wrap64 (r.X + r.Width) ∧ r.Y ≤ p.Y ∧
        p.Y < wrap64 (r.Y + r.Height) := by
  simp [Rectangle.Contains, and_assoc]

/-- A point of an overlap lies in the two rectangles, when the first one starts at
non-negative coordinates, as every clip of a canvas does. -/
theorem overlap_contains_iff (a b : Rectangle) (p : Point) (hx : 0 ≤ a.X) (hy : 0 ≤ a.Y) :
    (a.Overlap b).Contains p = true ↔ (a.Contains p = true ∧ b.Contains p = true) := by
  simp only [contains_iff, Rectangle.Overlap]
  unfold wrap64
  omega

theorem overlap_width_nonneg (a b : Rectangle) : 0 ≤ (a.Overlap b).Width := by
  simp [Rectangle.Overlap]

theorem overlap_height_nonneg (a b : Rectangle) : 0 ≤ (a.Overlap b).Height := by
  simp [Rectangle.Overlap]


/-! ## List and buffer lemmas -/

theorem stack_cases {α : Type} (l : List α) (h : l ≠ []) : ∃ L b, l = L ++ [b] := by
  rcases List.eq_nil_or_concat l with h0 | ⟨L, b, hb⟩
  · exact absurd h0 h
  · exact ⟨L, b, by simpa using hb⟩

theorem set_last {α : Type} (L : List α) (b s : α) :
    (L ++ [b]).set ((L ++ [b]).length - 1) s = L ++ [s] := by
  rw [List.set_append_right]
  · simp
  · simp

theorem currentState_concat (img : Image) (L : List subImageState) (b : subImageState)
    (h : img.stateStack = L ++ [b]) : img.currentState = some b := by
  simp [Image.currentState, h]

theorem setCurrentState_concat (img : Image) (L : List subImageState) (b s : subImageState)
    (h : img.stateStack = L ++ [b]) :
    (img.setCurrentState s).stateStack = L ++ [s] := by
  simp only [Image.setCurrentState, h]
  exact set_last L b s

theorem mem_intRange (lo hi v : Int) : v ∈ intRange lo hi ↔ lo ≤ v ∧ v < hi := by
  simp only [intRange, List.mem_map, List.mem_range]
  constructor
  · rintro ⟨i, hi1, rfl⟩
    omega
  · intro hv
    exact ⟨(v - lo).toNat, by omega, by omega⟩

theorem foldlM_inv {α β : Type} (P : β → Prop) (f : β → α → Option β) (l : List α)
    (h : ∀ b, P b → ∀ a ∈ l, ∃ b1, f b a = some b1 ∧ P b1) :
    ∀ b, P b → ∃ b1, l.foldlM f b = some b1 ∧ P b1 := by
  induction l with
  | nil =>
    intro b hb
    exact ⟨b, rfl, hb⟩
  | cons a l ih =>
    intro b hb
    obtain ⟨b1, hf, hb1⟩ := h b hb a (List.mem_cons_self a l)
    have ih1 := ih (fun b hb a ha => h b hb a (List.mem_cons_of_mem _ ha)) b1 hb1
    obtain ⟨b2, hf2, hb2⟩ := ih1
    exact ⟨b2, by simp [List.foldlM_cons, hf, hf2], hb2⟩

theorem pixSet_ok (pix : List uint8) (off : Int) (v : uint8) (h0 : 0 ≤ off)
    (h1 : off < pix.length) : pixSet pix off v = some (pix.set off.toNat v) := by
  simp [pixSet, h0, h1]

theorem pixGet_ok (pix : List uint8) (off : Int) (h0 : 0 ≤ off) (h1 : off < pix.length) :
    ∃ v, pixGet pix off = some v ∧ pix[off.toNat]? = some v := by
  have hlt : off.toNat < pix.length := by omega
  refine ⟨pix[off.toNat], ?_, ?_⟩
  · simp [pixGet, h0, h1, List.getElem?_eq_getElem hlt]
  · exact List.getElem?_eq_getElem hlt

theorem pixSet4_ok (pix : List uint8) (off : Int) (r g b a : uint8) (h0 : 0 ≤ off)
    (h1 : off + 3 < pix.length) (hM : off + 3 ≤ 9223372036854775807) :
    pixSet4 pix off r g b a =
      some ((((pix.set off.toNat r).set (off.toNat + 1) g).set (off.toNat + 2) b).set
        (off.toNat + 3) a) := by
  have e1 : (off + 1).toNat = off.toNat + 1 := by omega
  have e2 : (off + 2).toNat = off.toNat + 2 := by omega
  have e3 : (off + 3).toNat = off.toNat + 3 := by omega
  have w1 : wrap64 (off + 1) = off + 1 := by unfold wrap64; omega
  have w2 : wrap64 (off + 2) = off + 2 := by unfold wrap64; omega
  have w3 : wrap64 (off + 3) = off + 3 := by unfold wrap64; omega
  unfold pixSet4
  rw [w1, w2, w3]
  rw [pixSet_ok pix off r h0 (by omega)]
  simp only [Option.bind_eq_bind, Option.some_bind]
  rw [pixSet_ok _ (off + 1) g (by omega) (by simp; omega)]
  simp only [Option.some_bind]
  rw [pixSet_ok _ (off + 2) b (by omega) (by simp; omega)]
  simp only [Option.some_bind]
  rw [pixSet_ok _ (off + 3) a (by omega) (by simp; omega), e1, e2, e3]

theorem pixSet4_length (pix : List uint8) (off : Int) (r g b a : uint8) (h0 : 0 ≤ off)
    (h1 : off + 3 < pix.length) (hM : off + 3 ≤ 9223372036854775807) :
    ∃ pix1, pixSet4 pix off r g b a = some pix1 ∧ pix1.length = pix.length := by
  refine ⟨_, pixSet4_ok pix off r g b a h0 h1 hM, ?_⟩
  simp

theorem pixGet4_ok (pix : List uint8) (off : Int) (h0 : 0 ≤ off)
    (h1 : off + 3 < pix.length) (hM : off + 3 ≤ 9223372036854775807) :
    ∃ v, pixGet4 pix off = some v := by
  have w1 : wrap64 (off + 1) = off + 1 := by unfold wrap64; omega
  have w2 : wrap64 (off + 2) = off + 2 := by unfold wrap64; omega
  have w3 : wrap64 (off + 3) = off + 3 := by unfold wrap64; omega
  obtain ⟨r, hr, _⟩ := pixGet_ok pix off h0 (by omega)
  obtain ⟨g, hg, _⟩ := pixGet_ok pix (off + 1) (by omega) (by omega)
  obtain ⟨b, hb, _⟩ := pixGet_ok pix (off + 2) (by omega) (by omega)
  obtain ⟨a, ha, _⟩ := pixGet_ok pix (off + 3) (by omega) (by omega)
  exact ⟨(r, g, b, a), by simp [pixGet4, w1, w2, w3, hr, hg, hb, ha]⟩

theorem pixGet4_pixSet4 (pix pix1 : List uint8) (off : Int) (r g b a : uint8)
    (hM : off + 3 ≤ 9223372036854775807)
    (h : pixSet4 pix off r g b a = some pix1) : pixGet4 pix1 off = some (r, g, b, a) := by
  have w1 : 0 ≤ off → wrap64 (off + 1) = off + 1 := by intro _; unfold wrap64; omega
  have w2 : 0 ≤ off → wrap64 (off + 2) = off + 2 := by intro _; unfold wrap64; omega
  have w3 : 0 ≤ off → wrap64 (off + 3) = off + 3 := by intro _; unfold wrap64; omega
  by_cases hr : 0 ≤ off ∧ off + 3 < pix.length
  · obtain ⟨h0, h1⟩ := hr
    rw [pixSet4_ok pix off r g b a h0 h1 hM] at h
    have hl : pix1.length = pix.length := by
      rw [← Option.some.inj h]; simp
    have e1 : (off + 1).toNat = off.toNat + 1 := by omega
    have e2 : (off + 2).toNat = off.toNat + 2 := by omega
    have e3 : (off + 3).toNat = off.toNat + 3 := by omega
    have hn : off.toNat + 3 < pix.length := by omega
    have g0 : pixGet pix1 off = some r := by
      simp only [pixGet, hl]
      rw [if_pos (by omega), ← Option.some.inj h]
      simp [List.getElem?_set]
      omega
    have g1 : pixGet pix1 (off + 1) = some g := by
      simp only [pixGet, hl]
      rw [if_pos (by omega), ← Option.some.inj h, e1]
      simp [List.getElem?_set]
      omega
    have g2 : pixGet pix1 (off + 2) = some b := by
      simp only [pixGet, hl]
      rw [if_pos (by omega), ← Option.some.inj h, e2]
      simp [List.getElem?_set]
      omega
    have g3 : pixGet pix1 (off + 3) = some a := by
      simp only [pixGet, hl]
      rw [if_pos (by omega), ← Option.some.inj h, e3]
      simp [List.getElem?_set]
      omega
    simp [pixGet4, w1 h0, w2 h0, w3 h0, g0, g1, g2, g3]
  · exfalso
    unfold pixSet4 at h
    simp only [pixSet, Option.bind_eq_bind] at h
    by_cases c0 : 0 ≤ off ∧ off < pix.length
    · rw [w1 c0.1, w2 c0.1, w3 c0.1] at h
      rw [if_pos c0] at h
      simp only [Option.some_bind, List.length_set] at h
      by_cases c1 : 0 ≤ off + 1 ∧ off + 1 < pix.length
      · rw [if_pos c1] at h
        simp only [Option.some_bind, List.length_set] at h
        by_cases c2 : 0 ≤ off + 2 ∧ off + 2 < pix.length
        · rw [if_pos c2] at h
          simp only [Option.some_bind, List.length_set] at h
          by_cases c3 : 0 ≤ off + 3 ∧ off + 3 < pix.length
          · omega
          · rw [if_neg c3] at h
            exact Option.noConfusion h
        · rw [if_neg c2] at h
          exact Option.noConfusion h
      · rw [if_neg c1] at h
        exact Option.noConfusion h
    · rw [if_neg c0] at h
      exact Option.noConfusion h


/-! ## The view-stack operations on a stack `L ++ [b]` -/

theorem pushSubImage_concat (img : Image) (L : List subImageState) (b : subImageState)
    (r : Rectangle) (h : img.stateStack = L ++ [b]) :
    img.PushSubImage r = some { img with
      stateStack := L ++ [b] ++
        [{ origin := b.origin.Add ⟨r.X, r.Y⟩
           bounds := ⟨(b.origin.Add ⟨r.X, r.Y⟩).X, (b.origin.Add ⟨r.X, r.Y⟩).Y, r.Width,
             r.Height⟩
           clip := b.clip.Overlap
             ⟨(b.origin.Add ⟨r.X, r.Y⟩).X, (b.origin.Add ⟨r.X, r.Y⟩).Y, r.Width, r.Height⟩
           clippingStack := [] }] } := by
  simp [Image.PushSubImage, currentState_concat img L b h, h]

theorem popSubImage_concat (img : Image) (L : List subImageState) (b : subImageState)
    (h : img.stateStack = L ++ [b]) :
    img.PopSubImage = if L = [] then img else { img with stateStack := L } := by
  unfold Image.PopSubImage
  cases L with
  | nil => simp [h]
  | cons a L =>
    have hd : img.stateStack.dropLast = a :: L := by
      rw [h]
      exact List.dropLast_concat
    have hlen : img.stateStack.length > 1 := by
      rw [h]
      simp
    rw [if_pos hlen, if_neg (by simp), hd]

theorem pushClip_concat (img : Image) (L : List subImageState) (b : subImageState)
    (r : Rectangle) (h : img.stateStack = L ++ [b]) :
    img.PushClip r = some { img with
      stateStack := L ++
        [{ b with clippingStack := b.clippingStack ++ [b.clip],
                  clip := b.clip.Overlap (r.Add b.origin) }] } := by
  simp only [Image.PushClip, currentState_concat img L b h, Option.bind_eq_bind,
    Option.some_bind, Option.pure_def, Option.some.injEq]
  simp only [Image.setCurrentState, h]
  rw [set_last]

theorem popClip_concat_nil (img : Image) (L : List subImageState) (b : subImageState)
    (h : img.stateStack = L ++ [b]) (hc : b.clippingStack = []) :
    img.PopClip = some img := by
  simp [Image.PopClip, currentState_concat img L b h, hc]

theorem popClip_concat_push (img : Image) (L : List subImageState) (b : subImageState)
    (S : List Rectangle) (c : Rectangle)
    (h : img.stateStack = L ++ [b]) (hc : b.clippingStack = S ++ [c]) :
    img.PopClip = some { img with
      stateStack := L ++ [{ b with clip := c, clippingStack := S }] } := by
  simp only [Image.PopClip, currentState_concat img L b h, Option.bind_eq_bind,
    Option.some_bind, Option.pure_def, hc]
  simp only [List.length_append, List.length_singleton, gt_iff_lt, Nat.lt_add_left_iff_pos,
    Nat.lt_one_iff, pos_of_gt, ↓reduceIte, List.getLast?_concat, List.dropLast_concat,
    Option.some_bind, Option.some.injEq, Nat.zero_lt_succ, Nat.lt_add_one]
  simp only [Image.setCurrentState, h]
  rw [set_last]

/-! ## Preservation of the invariant -/

theorem offset_ok (w h x y : Int) (hx : 0 ≤ x) (hxw : x < w) (hy : 0 ≤ y) (hyh : y < h) :
    0 ≤ y * (4 * w) + x * 4 ∧ y * (4 * w) + x * 4 + 3 < 4 * w * h := by
  have h1 : 0 ≤ y * w := mul_nonneg hy (by omega)
  have h2 : y * w ≤ (h - 1) * w := mul_le_mul_of_nonneg_right (by omega) (by omega)
  have e1 : y * (4 * w) = 4 * (y * w) := by ring
  have e2 : 4 * w * h = 4 * ((h - 1) * w) + 4 * w := by ring
  rw [e1, e2]
  constructor <;> linarith

/-- For a pixel of a canvas whose size does not wrap, the offset `y*Stride + x*4` is
computed without wraparound. -/
theorem offset_wrap (w h x y : Int) (hs : SizeOK w h) (hx : 0 ≤ x) (hxw : x < w)
    (hy : 0 ≤ y) (hyh : y < h) :
    wrap64 (wrap64 (y * (4 * w)) + wrap64 (x * 4)) = y * (4 * w) + x * 4 := by
  obtain ⟨h0, h1⟩ := offset_ok w h x y hx hxw hy hyh
  obtain ⟨hw0, hh0, hM⟩ := hs
  have hyw : 0 ≤ y * (4 * w) := mul_nonneg hy (by omega)
  have e1 : wrap64 (y * (4 * w)) = y * (4 * w) := by
    apply wrap64_of_I64
    unfold I64
    omega
  have e2 : wrap64 (x * 4) = x * 4 := by
    apply wrap64_of_I64
    unfold I64
    omega
  rw [e1, e2]
  apply wrap64_of_I64
  unfold I64
  omega

theorem sizeOK_stride (w h : Int) (hs : SizeOK w h) : wrap64 (4 * w) = 4 * w := by
  obtain ⟨hw0, hh0, hM⟩ := hs
  have : 4 * w * 1 ≤ 4 * w * h := mul_le_mul_of_nonneg_left (by omega) (by omega)
  apply wrap64_of_I64
  unfold I64
  omega

theorem sizeOK_length (w h : Int) (hs : SizeOK w h) :
    wrap64 (wrap64 (4 * w) * h) = 4 * w * h := by
  rw [sizeOK_stride w h hs]
  obtain ⟨hw0, hh0, hM⟩ := hs
  have : 0 ≤ 4 * w * h := mul_nonneg (by omega) (by omega)
  apply wrap64_of_I64
  unfold I64
  omega

theorem clipIn_root (w h : Int) (hs : SizeOK w h) : ClipIn w h ⟨0, 0, w, h⟩ := by
  obtain ⟨hw0, hh0, hM⟩ := hs
  have h1 : 4 * w * 1 ≤ 4 * w * h := mul_le_mul_of_nonneg_left (by omega) (by omega)
  have h2 : 4 * 1 * h ≤ 4 * w * h :=
    mul_le_mul_of_nonneg_right (mul_le_mul_of_nonneg_left (by omega) (by omega)) (by omega)
  intro p hp
  rw [contains_iff] at hp
  dsimp only at hp
  unfold wrap64 at hp
  omega

theorem clipExt_root (w h : Int) (hs : SizeOK w h) : ClipExt ⟨0, 0, w, h⟩ := by
  obtain ⟨hw0, hh0, hM⟩ := hs
  have h1 : 4 * w * 1 ≤ 4 * w * h := mul_le_mul_of_nonneg_left (by omega) (by omega)
  have h2 : 4 * 1 * h ≤ 4 * w * h :=
    mul_le_mul_of_nonneg_right (mul_le_mul_of_nonneg_left (by omega) (by omega)) (by omega)
  unfold ClipExt wrap64
  dsimp only
  omega

theorem clipIn_overlap (w h : Int) (c s : Rectangle) (hc : ClipIn w h c) (hp : ClipPos c) :
    ClipIn w h (c.Overlap s) := by
  intro p hp1
  exact hc p ((overlap_contains_iff c s p hp.1 hp.2).1 hp1).1

theorem clipPos_overlap (c s : Rectangle) (hp : ClipPos c) : ClipPos (c.Overlap s) := by
  unfold ClipPos at hp ⊢
  simp only [Rectangle.Overlap]
  omega

theorem clipExt_overlap (c s : Rectangle) (hp : ClipPos c) : ClipExt (c.Overlap s) := by
  unfold ClipPos at hp
  unfold ClipExt
  simp only [Rectangle.Overlap]
  unfold wrap64
  omega

theorem newImage_eq (w h : Int) (img : Image) (hn : NewImage w h = some img) :
    ¬ wrap64 (wrap64 (4 * w) * h) < 0 ∧ img =
      { Pix := List.replicate (wrap64 (wrap64 (4 * w) * h)).toNat 0
        Stride := wrap64 (4 * w)
        Rect := ⟨0, 0, w, h⟩
        stateStack :=
          [{ origin := ⟨0, 0⟩, bounds := ⟨0, 0, w, h⟩, clip := ⟨0, 0, w, h⟩,
             clippingStack := [] }] } := by
  unfold NewImage at hn
  dsimp only at hn
  by_cases hneg : wrap64 (wrap64 (4 * w) * h) < 0
  · rw [if_pos hneg] at hn
    exact Option.noConfusion hn
  · rw [if_neg hneg] at hn
    exact ⟨hneg, (Option.some.inj hn).symm⟩

theorem newImage_wf (w h : Int) (img : Image) (hs : SizeOK w h)
    (hn : NewImage w h = some img) : WF w h img := by
  obtain ⟨hneg, rfl⟩ := newImage_eq w h img hn
  refine ⟨sizeOK_stride w h hs, ?_, rfl, by simp, by simp, ?_⟩
  · simp only [List.length_replicate]
    rw [sizeOK_length w h hs] at hneg ⊢
    omega
  · intro f hf
    simp only [List.mem_singleton] at hf
    subst hf
    exact ⟨⟨clipIn_root w h hs, ⟨le_refl _, le_refl _⟩, clipExt_root w h hs⟩, by simp⟩

theorem newImage_stackWF (w h : Int) (img : Image) (hn : NewImage w h = some img) :
    StackWF w h img := by
  obtain ⟨_, rfl⟩ := newImage_eq w h img hn
  refine ⟨by simp, by simp, ?_⟩
  intro f hf
  simp only [List.mem_singleton] at hf
  subst hf
  exact ⟨⟨le_refl _, le_refl _⟩, by simp⟩

theorem sameView_wf (w h : Int) (a b : Image) (ha : WF w h a) (hab : SameView a b) :
    WF w h b := by
  obtain ⟨h1, h2, h3, h4, h5, h6⟩ := ha
  obtain ⟨e1, e2, e3, e4⟩ := hab
  refine ⟨by rw [e2, h1], by rw [e4, h2], by rw [e3, h3], by rw [e1]; exact h4,
    by rw [e1]; exact h5, by rw [e1]; exact h6⟩

theorem sameView_stackWF (w h : Int) (a b : Image) (ha : StackWF w h a)
    (hab : SameView a b) : StackWF w h b := by
  obtain ⟨h4, h5, h6⟩ := ha
  obtain ⟨e1, _, _, _⟩ := hab
  exact ⟨by rw [e1]; exact h4, by rw [e1]; exact h5, by rw [e1]; exact h6⟩

theorem pushSubImage_eq (img : Image) (r : Rectangle) (curr : subImageState)
    (hc : img.currentState = some curr) :
    img.PushSubImage r = some { img with
      stateStack := img.stateStack ++
        [{ origin := curr.origin.Add ⟨r.X, r.Y⟩
           bounds := Rectangle.Add ⟨r.X, r.Y, r.Width, r.Height⟩ curr.origin
           clip := curr.clip.Overlap (Rectangle.Add ⟨r.X, r.Y, r.Width, r.Height⟩ curr.origin)
           clippingStack := [] }] } := by
  have e1 : wrap64 (r.X + curr.origin.X) = wrap64 (curr.origin.X + r.X) := by
    rw [add_comm]
  have e2 : wrap64 (r.Y + curr.origin.Y) = wrap64 (curr.origin.Y + r.Y) := by
    rw [add_comm]
  simp [Image.PushSubImage, hc, Point.Add, Rectangle.Add, e1, e2]

theorem pushSubImage_wf (w h : Int) (img : Image) (r : Rectangle) (hw : WF w h img) :
    ∃ img1, img.PushSubImage r = some img1 ∧ WF w h img1 := by
  obtain ⟨h1, h2, h3, h4, h5, h6⟩ := hw
  obtain ⟨L, b, hL⟩ := stack_cases img.stateStack h4
  refine ⟨_, pushSubImage_concat img L b r hL, h1, h2, h3, by simp, ?_, ?_⟩
  · rw [hL] at h5
    simp only [List.map_append] at h5 ⊢
    rw [List.head?_append_of_ne_nil _ (by simp)]
    exact h5
  · intro f hf
    simp only [List.mem_append, List.mem_singleton] at hf
    rcases hf with hf | hf
    · exact h6 f (by rw [hL]; simpa using hf)
    · subst hf
      have hb := h6 b (by rw [hL]; simp)
      exact ⟨⟨clipIn_overlap w h _ _ hb.1.1 hb.1.2.1, clipPos_overlap _ _ hb.1.2.1,
        clipExt_overlap _ _ hb.1.2.1⟩, by simp⟩

theorem pushSubImage_stackWF (w h : Int) (img : Image) (r : Rectangle)
    (hw : StackWF w h img) :
    ∃ img1, img.PushSubImage r = some img1 ∧ StackWF w h img1 := by
  obtain ⟨h4, h5, h6⟩ := hw
  obtain ⟨L, b, hL⟩ := stack_cases img.stateStack h4
  refine ⟨_, pushSubImage_concat img L b r hL, by simp, ?_, ?_⟩
  · rw [hL] at h5
    simp only [List.map_append] at h5 ⊢
    rw [List.head?_append_of_ne_nil _ (by simp)]
    exact h5
  · intro f hf
    simp only [List.mem_append, List.mem_singleton] at hf
    rcases hf with hf | hf
    · exact h6 f (by rw [hL]; simpa using hf)
    · subst hf
      have hb := h6 b (by rw [hL]; simp)
      exact ⟨clipPos_overlap _ _ hb.1, by simp⟩

theorem popSubImage_wf (w h : Int) (img : Image) (hw : WF w h img) :
    WF w h img.PopSubImage := by
  have hw0 := hw
  obtain ⟨h1, h2, h3, h4, h5, h6⟩ := hw
  obtain ⟨L, b, hL⟩ := stack_cases img.stateStack h4
  rw [popSubImage_concat img L b hL]
  by_cases hn : L = []
  · rw [if_pos hn]
    exact hw0
  · rw [if_neg hn]
    refine ⟨h1, h2, h3, hn, ?_, ?_⟩
    · rw [hL] at h5
      simp only [List.map_append] at h5
      rw [List.head?_append_of_ne_nil _ (by simpa using hn)] at h5
      exact h5
    · intro f hf
      exact h6 f (by rw [hL]; exact List.mem_append_left _ hf)

theorem popSubImage_stackWF (w h : Int) (img : Image) (hw : StackWF w h img) :
    StackWF w h img.PopSubImage := by
  have hw0 := hw
  obtain ⟨h4, h5, h6⟩ := hw
  obtain ⟨L, b, hL⟩ := stack_cases img.stateStack h4
  rw [popSubImage_concat img L b hL]
  by_cases hn : L = []
  · rw [if_pos hn]
    exact hw0
  · rw [if_neg hn]
    refine ⟨hn, ?_, ?_⟩
    · rw [hL] at h5
      simp only [List.map_append] at h5
      rw [List.head?_append_of_ne_nil _ (by simpa using hn)] at h5
      exact h5
    · intro f hf
      exact h6 f (by rw [hL]; exact List.mem_append_left _ hf)

theorem head_key_concat (L : List subImageState) (b b1 : subImageState)
    (ho : b1.origin = b.origin) (hb : b1.bounds = b.bounds) :
    ((L ++ [b1]).map (fun f => (f.origin, f.bounds))).head? =
      ((L ++ [b]).map (fun f => (f.origin, f.bounds))).head? := by
  simp [List.map_append, ho, hb]

theorem pushClip_wf (w h : Int) (img : Image) (r : Rectangle) (hw : WF w h img) :
    ∃ img1, img.PushClip r = some img1 ∧ WF w h img1 := by
  obtain ⟨h1, h2, h3, h4, h5, h6⟩ := hw
  obtain ⟨L, b, hL⟩ := stack_cases img.stateStack h4
  refine ⟨_, pushClip_concat img L b r hL, h1, h2, h3, by simp, ?_, ?_⟩
  · rw [hL] at h5
    rw [← h5]
    exact head_key_concat L b _ rfl rfl
  · intro f hf
    simp only [List.mem_append, List.mem_singleton] at hf
    have hb := h6 b (by rw [hL]; simp)
    rcases hf with hf | hf
    · exact h6 f (by rw [hL]; exact List.mem_append_left _ hf)
    · subst hf
      refine ⟨⟨clipIn_overlap w h _ _ hb.1.1 hb.1.2.1, clipPos_overlap _ _ hb.1.2.1,
        clipExt_overlap _ _ hb.1.2.1⟩, ?_⟩
      intro c hc
      simp only [List.mem_append, List.mem_singleton] at hc
      rcases hc with hc | hc
      · exact hb.2 c hc
      · subst hc
        exact hb.1

theorem pushClip_stackWF (w h : Int) (img : Image) (r : Rectangle) (hw : StackWF w h img) :
    ∃ img1, img.PushClip r = some img1 ∧ StackWF w h img1 := by
  obtain ⟨h4, h5, h6⟩ := hw
  obtain ⟨L, b, hL⟩ := stack_cases img.stateStack h4
  refine ⟨_, pushClip_concat img L b r hL, by simp, ?_, ?_⟩
  · rw [hL] at h5
    rw [← h5]
    exact head_key_concat L b _ rfl rfl
  · intro f hf
    simp only [List.mem_append, List.mem_singleton] at hf
    have hb := h6 b (by rw [hL]; simp)
    rcases hf with hf | hf
    · exact h6 f (by rw [hL]; exact List.mem_append_left _ hf)
    · subst hf
      refine ⟨clipPos_overlap _ _ hb.1, ?_⟩
      intro c hc
      simp only [List.mem_append, List.mem_singleton] at hc
      rcases hc with hc | hc
      · exact hb.2 c hc
      · subst hc
        exact hb.1

theorem popClip_wf (w h : Int) (img : Image) (hw : WF w h img) :
    ∃ img1, img.PopClip = some img1 ∧ WF w h img1 := by
  have hw0 := hw
  obtain ⟨h1, h2, h3, h4, h5, h6⟩ := hw
  obtain ⟨L, b, hL⟩ := stack_cases img.stateStack h4
  rcases List.eq_nil_or_concat b.clippingStack with hc | ⟨S, c, hc⟩
  · exact ⟨img, popClip_concat_nil img L b hL hc, hw0⟩
  · have hc1 : b.clippingStack = S ++ [c] := by simpa using hc
    refine ⟨_, popClip_concat_push img L b S c hL hc1, h1, h2, h3, by simp, ?_, ?_⟩
    · rw [hL] at h5
      rw [← h5]
      exact head_key_concat L b _ rfl rfl
    · intro f hf
      simp only [List.mem_append, List.mem_singleton] at hf
      have hb := h6 b (by rw [hL]; simp)
      rcases hf with hf | hf
      · exact h6 f (by rw [hL]; exact List.mem_append_left _ hf)
      · subst hf
        refine ⟨hb.2 c (by rw [hc1]; simp), ?_⟩
        intro c1 hc1m
        exact hb.2 c1 (by rw [hc1]; exact List.mem_append_left _ hc1m)

theorem popClip_stackWF (w h : Int) (img : Image) (hw : StackWF w h img) :
    ∃ img1, img.PopClip = some img1 ∧ StackWF w h img1 := by
  have hw0 := hw
  obtain ⟨h4, h5, h6⟩ := hw
  obtain ⟨L, b, hL⟩ := stack_cases img.stateStack h4
  rcases List.eq_nil_or_concat b.clippingStack with hc | ⟨S, c, hc⟩
  · exact ⟨img, popClip_concat_nil img L b hL hc, hw0⟩
  · have hc1 : b.clippingStack = S ++ [c] := by simpa using hc
    refine ⟨_, popClip_concat_push img L b S c hL hc1, by simp, ?_, ?_⟩
    · rw [hL] at h5
      rw [← h5]
      exact head_key_concat L b _ rfl rfl
    · intro f hf
      simp only [List.mem_append, List.mem_singleton] at hf
      have hb := h6 b (by rw [hL]; simp)
      rcases hf with hf | hf
      · exact h6 f (by rw [hL]; exact List.mem_append_left _ hf)
      · subst hf
        refine ⟨hb.2 c (by rw [hc1]; simp), ?_⟩
        intro c1 hc1m
        exact hb.2 c1 (by rw [hc1]; exact List.mem_append_left _ hc1m)


/-! ## The drawing operations never index outside the buffer -/

theorem sameView_refl (a : Image) : SameView a a := ⟨rfl, rfl, rfl, rfl⟩

theorem sameView_trans (a b c : Image) (hab : SameView a b) (hbc : SameView b c) :
    SameView a c := by
  obtain ⟨e1, e2, e3, e4⟩ := hab
  obtain ⟨f1, f2, f3, f4⟩ := hbc
  exact ⟨by rw [f1, e1], by rw [f2, e2], by rw [f3, e3], by rw [f4, e4]⟩

theorem wf_current (w h : Int) (img : Image) (hw : WF w h img) :
    ∃ curr, img.currentState = some curr ∧ FrameWF w h curr := by
  obtain ⟨_, _, _, h4, _, h6⟩ := hw
  obtain ⟨L, b, hL⟩ := stack_cases img.stateStack h4
  exact ⟨b, currentState_concat img L b hL, h6 b (by rw [hL]; simp)⟩

theorem pixel_offset_ok (w h : Int) (pix : List uint8) (stride : Int) (r : Rectangle)
    (x y : Int) (hs : stride = 4 * w) (hl : (pix.length : Int) = 4 * w * h)
    (hz : SizeOK w h) (hr : ClipIn w h r) (hc : r.Contains ⟨x, y⟩ = true) :
    wrap64 (wrap64 (y * stride) + wrap64 (x * 4)) = y * stride + x * 4 ∧
      0 ≤ y * stride + x * 4 ∧ y * stride + x * 4 + 3 < pix.length ∧
      y * stride + x * 4 + 3 ≤ 9223372036854775807 := by
  have hp := hr ⟨x, y⟩ hc
  dsimp only at hp
  rw [hs, hl]
  have ho := offset_ok w h x y hp.1 hp.2.1 hp.2.2.1 hp.2.2.2
  refine ⟨offset_wrap w h x y hz hp.1 hp.2.1 hp.2.2.1 hp.2.2.2, ho.1, ho.2, ?_⟩
  have := hz.2.2
  omega

/-- A successful store keeps the length of the buffer. -/
theorem pixSet_some_length (pix pix1 : List uint8) (off : Int) (v : uint8)
    (h : pixSet pix off v = some pix1) : pix1.length = pix.length := by
  unfold pixSet at h
  split at h
  · rw [← Option.some.inj h]
    simp
  · exact Option.noConfusion h

theorem pixSet4_some_length (pix pix1 : List uint8) (off : Int) (r g b a : uint8)
    (h : pixSet4 pix off r g b a = some pix1) : pix1.length = pix.length := by
  unfold pixSet4 at h
  simp only [Option.bind_eq_bind] at h
  cases h1 : pixSet pix off r with
  | none => rw [h1] at h; exact Option.noConfusion h
  | some q1 =>
    rw [h1] at h
    simp only [Option.some_bind] at h
    cases h2 : pixSet q1 (wrap64 (off + 1)) g with
    | none => rw [h2] at h; exact Option.noConfusion h
    | some q2 =>
      rw [h2] at h
      simp only [Option.some_bind] at h
      cases h3 : pixSet q2 (wrap64 (off + 2)) b with
      | none => rw [h3] at h; exact Option.noConfusion h
      | some q3 =>
        rw [h3] at h
        simp only [Option.some_bind] at h
        rw [pixSet_some_length _ _ _ _ h, pixSet_some_length _ _ _ _ h3,
          pixSet_some_length _ _ _ _ h2, pixSet_some_length _ _ _ _ h1]

/-- A property kept by every successful step of a loop holds after a successful run. -/
theorem foldlM_some_inv {α β : Type} (P : β → Prop) (f : β → α → Option β) (l : List α)
    (h : ∀ b a b1, P b → a ∈ l → f b a = some b1 → P b1) :
    ∀ b b1, P b → l.foldlM f b = some b1 → P b1 := by
  induction l with
  | nil =>
    intro b b1 hb he
    simp only [List.foldlM_nil, Option.pure_def, Option.some.injEq] at he
    exact he ▸ hb
  | cons a l ih =>
    intro b b1 hb he
    simp only [List.foldlM_cons, Option.bind_eq_bind] at he
    cases hf : f b a with
    | none => rw [hf] at he; exact Option.noConfusion he
    | some b2 =>
      rw [hf] at he
      simp only [Option.some_bind] at he
      exact ih (fun b a1 b1 hb ha => h b a1 b1 hb (List.mem_cons_of_mem _ ha)) b2 b1
        (h b a b2 hb (List.mem_cons_self a l) hf) he

theorem fillLoop_some_length (pix pix1 : List uint8) (stride : Int) (r : Rectangle)
    (c : Color) (h : fillLoop pix stride r c = some pix1) : pix1.length = pix.length := by
  unfold fillLoop at h
  refine foldlM_some_inv (fun q => q.length = pix.length) _ _ ?_ pix pix1 rfl h
  intro q y q1 hq _ hy
  refine foldlM_some_inv (fun q => q.length = pix.length) _ _ ?_ q q1 hq hy
  intro q2 x q3 hq2 _ hx
  rw [pixSet4_some_length _ _ _ _ _ _ _ hx]
  exact hq2

theorem set_sameView (img img1 : Image) (p : Point) (c : Color)
    (h : img.Set p c = some img1) : SameView img img1 := by
  unfold Image.Set at h
  cases hc : img.currentState with
  | none => rw [hc] at h; exact Option.noConfusion h
  | some curr =>
    rw [hc] at h
    simp only [Option.bind_eq_bind, Option.some_bind, Option.pure_def] at h
    split at h
    · rw [← Option.some.inj h]
      exact sameView_refl img
    · cases hq : pixSet4 img.Pix
          (wrap64 (wrap64 ((curr.origin.Add p).Y * img.Stride) +
            wrap64 ((curr.origin.Add p).X * 4))) c.R c.G c.B c.A with
      | none => rw [hq] at h; exact Option.noConfusion h
      | some q =>
        rw [hq] at h
        rw [← Option.some.inj h]
        exact ⟨rfl, rfl, rfl, pixSet4_some_length _ _ _ _ _ _ _ hq⟩

theorem fill_sameView (img img1 : Image) (c : Color) (h : img.Fill c = some img1) :
    SameView img img1 := by
  unfold Image.Fill at h
  cases hc : img.currentState with
  | none => rw [hc] at h; exact Option.noConfusion h
  | some curr =>
    rw [hc] at h
    simp only [Option.bind_eq_bind, Option.some_bind, Option.pure_def] at h
    cases hq : fillLoop img.Pix img.Stride curr.clip c with
    | none => rw [hq] at h; exact Option.noConfusion h
    | some q =>
      rw [hq] at h
      rw [← Option.some.inj h]
      exact ⟨rfl, rfl, rfl, fillLoop_some_length _ _ _ _ _ hq⟩

theorem fillAbsRect_sameView (img img1 : Image) (r : Rectangle) (c : Color)
    (h : img.fillAbsRect r c = some img1) : SameView img img1 := by
  unfold Image.fillAbsRect at h
  cases hc : img.currentState with
  | none => rw [hc] at h; exact Option.noConfusion h
  | some curr =>
    rw [hc] at h
    simp only [Option.bind_eq_bind, Option.some_bind, Option.pure_def] at h
    split at h
    · rw [← Option.some.inj h]
      exact sameView_refl img
    · cases hq : fillLoop img.Pix img.Stride (curr.clip.Overlap (r.Add curr.origin)) c with
      | none => rw [hq] at h; exact Option.noConfusion h
      | some q =>
        rw [hq] at h
        rw [← Option.some.inj h]
        exact ⟨rfl, rfl, rfl, fillLoop_some_length _ _ _ _ _ hq⟩

theorem hline_sameView (img img1 : Image) (y x1 x2 t : Int) (c : Color)
    (h : img.HLine y x1 x2 t c = some img1) : SameView img img1 := by
  unfold Image.HLine at h
  exact fillAbsRect_sameView img img1 _ c h

theorem vline_sameView (img img1 : Image) (x y1 y2 t : Int) (c : Color)
    (h : img.VLine x y1 y2 t c = some img1) : SameView img img1 := by
  unfold Image.VLine at h
  exact fillAbsRect_sameView img img1 _ c h

theorem border_sameView (img img1 : Image) (c : Color) (h : img.Border c = some img1) :
    SameView img img1 := by
  unfold Image.Border at h
  cases hc : img.currentState with
  | none => rw [hc] at h; exact Option.noConfusion h
  | some curr =>
    rw [hc] at h
    simp only [Option.bind_eq_bind, Option.some_bind] at h
    cases h1 : img.HLine 0 0 curr.bounds.Width 1 c with
    | none => rw [h1] at h; exact Option.noConfusion h
    | some i1 =>
      rw [h1] at h
      simp only [Option.some_bind] at h
      cases h2 : i1.HLine (wrap64 (curr.bounds.Height - 1)) 0 curr.bounds.Width 1 c with
      | none => rw [h2] at h; exact Option.noConfusion h
      | some i2 =>
        rw [h2] at h
        simp only [Option.some_bind] at h
        cases h3 : i2.VLine 0 0 curr.bounds.Height 1 c with
        | none => rw [h3] at h; exact Option.noConfusion h
        | some i3 =>
          rw [h3] at h
          simp only [Option.some_bind] at h
          exact sameView_trans _ _ _ (sameView_trans _ _ _ (sameView_trans _ _ _
            (hline_sameView _ _ _ _ _ _ _ h1) (hline_sameView _ _ _ _ _ _ _ h2))
            (vline_sameView _ _ _ _ _ _ _ h3)) (vline_sameView _ _ _ _ _ _ _ h)

theorem blitPixel_some_length (B : Blend) (srcPix : List uint8) (srcStride dstStride : Int)
    (srcCurr : subImageState) (absDstRect : Rectangle) (y srcAbsY : Int)
    (pix pix1 : List uint8) (x : Int)
    (h : blitPixel B srcPix srcStride dstStride srcCurr absDstRect y srcAbsY pix x =
      some pix1) : pix1.length = pix.length := by
  unfold blitPixel at h
  dsimp only at h
  split at h
  · rw [← Option.some.inj h]
  · simp only [Option.bind_eq_bind, Option.pure_def] at h
    cases hv : pixGet4 srcPix (wrap64 (wrap64 (srcAbsY * srcStride) +
        wrap64 (wrap64 (srcCurr.origin.X + wrap64 (x - absDstRect.X)) * 4))) with
    | none => rw [hv] at h; exact Option.noConfusion h
    | some v =>
      obtain ⟨sr, sg, sb, sa⟩ := v
      rw [hv] at h
      simp only [Option.some_bind] at h
      split at h
      · rw [← Option.some.inj h]
      · split at h
        · exact pixSet4_some_length _ _ _ _ _ _ _ h
        · cases hbg : pixGet4 pix (wrap64 (wrap64 (y * dstStride) + wrap64 (x * 4))) with
          | none => rw [hbg] at h; exact Option.noConfusion h
          | some bg =>
            obtain ⟨bgR, bgG, bgB, bgA⟩ := bg
            rw [hbg] at h
            simp only [Option.some_bind] at h
            exact pixSet4_some_length _ _ _ _ _ _ _ h

theorem blitLoop_some_length (B : Blend) (same : Bool) (img src : Image)
    (dstCurr srcCurr : subImageState) (p : Point) (pix1 : List uint8)
    (h : blitLoop B same img src dstCurr srcCurr p = some pix1) :
    pix1.length = img.Pix.length := by
  unfold blitLoop at h
  dsimp only at h
  split at h
  · rw [← Option.some.inj h]
  · refine foldlM_some_inv (fun q => q.length = img.Pix.length) _ _ ?_ img.Pix pix1 rfl h
    intro q y q1 hq _ hy
    split at hy
    · rw [← Option.some.inj hy]
      exact hq
    · refine foldlM_some_inv (fun q => q.length = img.Pix.length) _ _ ?_ q q1 hq hy
      intro q2 x q3 hq2 _ hx
      rw [blitPixel_some_length _ _ _ _ _ _ _ _ _ _ _ hx]
      exact hq2

theorem blit_sameView (B : Blend) (img src img1 : Image) (p : Point)
    (h : Image.Blit B img src p = some img1) : SameView img img1 := by
  unfold Image.Blit at h
  cases hd : img.currentState with
  | none => rw [hd] at h; exact Option.noConfusion h
  | some dstCurr =>
    cases hs : src.currentState with
    | none => rw [hd, hs] at h; exact Option.noConfusion h
    | some srcCurr =>
      rw [hd, hs] at h
      simp only [Option.bind_eq_bind, Option.some_bind, Option.pure_def] at h
      cases hq : blitLoop B false img src dstCurr srcCurr p with
      | none => rw [hq] at h; exact Option.noConfusion h
      | some q =>
        rw [hq] at h
        rw [← Option.some.inj h]
        exact ⟨rfl, rfl, rfl, blitLoop_some_length _ _ _ _ _ _ _ _ hq⟩

theorem blitSelf_sameView (B : Blend) (img img1 : Image) (p : Point)
    (h : Image.BlitSelf B img p = some img1) : SameView img img1 := by
  unfold Image.BlitSelf at h
  cases hd : img.currentState with
  | none => rw [hd] at h; exact Option.noConfusion h
  | some dstCurr =>
    rw [hd] at h
    simp only [Option.bind_eq_bind, Option.some_bind, Option.pure_def] at h
    cases hq : blitLoop B true img img dstCurr dstCurr p with
    | none => rw [hq] at h; exact Option.noConfusion h
    | some q =>
      rw [hq] at h
      rw [← Option.some.inj h]
      exact ⟨rfl, rfl, rfl, blitLoop_some_length _ _ _ _ _ _ _ _ hq⟩

theorem fillLoop_ok (w h : Int) (pix : List uint8) (stride : Int) (r : Rectangle)
    (c : Color) (hs : stride = 4 * w) (hl : (pix.length : Int) = 4 * w * h)
    (hz : SizeOK w h) (hr : ClipIn w h r) :
    ∃ pix1, fillLoop pix stride r c = some pix1 ∧ pix1.length = pix.length := by
  unfold fillLoop
  refine foldlM_inv (fun q => q.length = pix.length) _ _ ?_ pix rfl
  intro q hq y hy
  refine foldlM_inv (fun q => q.length = pix.length) _ _ ?_ q hq
  intro q1 hq1 x hx
  rw [mem_intRange] at hx hy
  have hc : r.Contains ⟨x, y⟩ = true := by
    rw [contains_iff]
    dsimp only
    omega
  have hoff := pixel_offset_ok w h q1 stride r x y hs (by rw [hq1]; exact hl) hz hr hc
  rw [hoff.1]
  obtain ⟨q2, hq2, hlen⟩ := pixSet4_length q1 _ c.R c.G c.B c.A hoff.2.1 hoff.2.2.1 hoff.2.2.2
  exact ⟨q2, hq2, hlen.trans hq1⟩

theorem set_ok (w h : Int) (img : Image) (p : Point) (c : Color) (hz : SizeOK w h)
    (hw : WF w h img) :
    ∃ img1, img.Set p c = some img1 ∧ SameView img img1 := by
  obtain ⟨curr, hcur, hf⟩ := wf_current w h img hw
  obtain ⟨h1, h2, _, _, _, _⟩ := hw
  unfold Image.Set
  simp only [hcur, Option.bind_eq_bind, Option.some_bind, Option.pure_def]
  by_cases hc : curr.clip.Contains (curr.origin.Add p) = true
  · simp only [hc, Bool.not_true, Bool.false_eq_true, ↓reduceIte]
    have hoff := pixel_offset_ok w h img.Pix img.Stride curr.clip (curr.origin.Add p).X
      (curr.origin.Add p).Y h1 h2 hz hf.1.1 hc
    rw [hoff.1]
    obtain ⟨q, hq, hlen⟩ := pixSet4_length img.Pix _ c.R c.G c.B c.A hoff.2.1 hoff.2.2.1
      hoff.2.2.2
    rw [hq]
    exact ⟨_, rfl, rfl, rfl, rfl, hlen⟩
  · simp only [hc, Bool.not_false, ↓reduceIte]
    exact ⟨img, rfl, sameView_refl img⟩

theorem at_ok (w h : Int) (img : Image) (p : Point) (hz : SizeOK w h) (hw : WF w h img) :
    ∃ col, img.At p = some col := by
  obtain ⟨curr, hcur, hf⟩ := wf_current w h img hw
  obtain ⟨h1, h2, _, _, _, _⟩ := hw
  unfold Image.At
  simp only [hcur, Option.bind_eq_bind, Option.some_bind, Option.pure_def]
  by_cases hc : curr.clip.Contains (curr.origin.Add p) = true
  · simp only [hc, Bool.not_true, Bool.false_eq_true, ↓reduceIte]
    have hoff := pixel_offset_ok w h img.Pix img.Stride curr.clip (curr.origin.Add p).X
      (curr.origin.Add p).Y h1 h2 hz hf.1.1 hc
    rw [hoff.1]
    obtain ⟨v, hv⟩ := pixGet4_ok img.Pix _ hoff.2.1 hoff.2.2.1 hoff.2.2.2
    rw [hv]
    exact ⟨_, rfl⟩
  · simp only [hc, Bool.not_false, ↓reduceIte]
    exact ⟨_, rfl⟩

theorem fill_ok (w h : Int) (img : Image) (c : Color) (hz : SizeOK w h) (hw : WF w h img) :
    ∃ img1, img.Fill c = some img1 ∧ SameView img img1 := by
  obtain ⟨curr, hcur, hf⟩ := wf_current w h img hw
  obtain ⟨h1, h2, _, _, _, _⟩ := hw
  obtain ⟨q, hq, hlen⟩ := fillLoop_ok w h img.Pix img.Stride curr.clip c h1 h2 hz hf.1.1
  unfold Image.Fill
  simp only [hcur, Option.bind_eq_bind, Option.some_bind, Option.pure_def, hq]
  exact ⟨_, rfl, rfl, rfl, rfl, hlen⟩

theorem fillAbsRect_ok (w h : Int) (img : Image) (r : Rectangle) (c : Color)
    (hz : SizeOK w h) (hw : WF w h img) :
    ∃ img1, img.fillAbsRect r c = some img1 ∧ SameView img img1 := by
  obtain ⟨curr, hcur, hf⟩ := wf_current w h img hw
  obtain ⟨h1, h2, _, _, _, _⟩ := hw
  unfold Image.fillAbsRect
  simp only [hcur, Option.bind_eq_bind, Option.some_bind, Option.pure_def]
  split
  · exact ⟨img, rfl, sameView_refl img⟩
  · obtain ⟨q, hq, hlen⟩ := fillLoop_ok w h img.Pix img.Stride
      (curr.clip.Overlap (r.Add curr.origin)) c h1 h2 hz
      (clipIn_overlap w h _ _ hf.1.1 hf.1.2.1)
    rw [hq]
    exact ⟨_, rfl, rfl, rfl, rfl, hlen⟩

theorem hline_ok (w h : Int) (img : Image) (y x1 x2 t : Int) (c : Color)
    (hz : SizeOK w h) (hw : WF w h img) :
    ∃ img1, img.HLine y x1 x2 t c = some img1 ∧ SameView img img1 := by
  unfold Image.HLine
  exact fillAbsRect_ok w h img _ c hz hw

theorem vline_ok (w h : Int) (img : Image) (x y1 y2 t : Int) (c : Color)
    (hz : SizeOK w h) (hw : WF w h img) :
    ∃ img1, img.VLine x y1 y2 t c = some img1 ∧ SameView img img1 := by
  unfold Image.VLine
  exact fillAbsRect_ok w h img _ c hz hw

theorem border_ok (w h : Int) (img : Image) (c : Color) (hz : SizeOK w h)
    (hw : WF w h img) :
    ∃ img1, img.Border c = some img1 ∧ SameView img img1 := by
  obtain ⟨curr, hcur, _⟩ := wf_current w h img hw
  obtain ⟨i1, e1, s1⟩ := hline_ok w h img 0 0 curr.bounds.Width 1 c hz hw
  have w1 := sameView_wf w h img i1 hw s1
  obtain ⟨i2, e2, s2⟩ :=
    hline_ok w h i1 (wrap64 (curr.bounds.Height - 1)) 0 curr.bounds.Width 1 c hz w1
  have w2 := sameView_wf w h i1 i2 w1 s2
  obtain ⟨i3, e3, s3⟩ := vline_ok w h i2 0 0 curr.bounds.Height 1 c hz w2
  have w3 := sameView_wf w h i2 i3 w2 s3
  obtain ⟨i4, e4, s4⟩ :=
    vline_ok w h i3 (wrap64 (curr.bounds.Width - 1)) 0 curr.bounds.Height 1 c hz w3
  refine ⟨i4, ?_, sameView_trans _ _ _ (sameView_trans _ _ _ (sameView_trans _ _ _ s1 s2) s3) s4⟩
  unfold Image.Border
  simp only [hcur, Option.bind_eq_bind, Option.some_bind, e1, e2, e3, e4]

theorem blitPixel_ok (B : Blend) (sw sh w h : Int) (srcPix : List uint8)
    (srcStride dstStride : Int) (srcCurr : subImageState) (absDstRect : Rectangle)
    (y srcAbsY : Int) (pix : List uint8) (x : Int)
    (hss : srcStride = 4 * sw) (hsl : (srcPix.length : Int) = 4 * sw * sh)
    (hsz : SizeOK sw sh) (hsc : ClipIn sw sh srcCurr.clip)
    (hsy : ¬ (srcAbsY < srcCurr.clip.Y ∨
      srcAbsY ≥ wrap64 (srcCurr.clip.Y + srcCurr.clip.Height)))
    (hds : dstStride = 4 * w) (hdl : (pix.length : Int) = 4 * w * h) (hz : SizeOK w h)
    (hx : 0 ≤ x ∧ x < w) (hy : 0 ≤ y ∧ y < h) :
    ∃ pix1, blitPixel B srcPix srcStride dstStride srcCurr absDstRect y srcAbsY pix x =
      some pix1 ∧ pix1.length = pix.length := by
  unfold blitPixel
  dsimp only
  split
  · exact ⟨pix, rfl, rfl⟩
  · rename_i hsx
    have hc : srcCurr.clip.Contains
        ⟨wrap64 (srcCurr.origin.X + wrap64 (x - absDstRect.X)), srcAbsY⟩ = true := by
      rw [contains_iff]
      dsimp only
      omega
    have hoff := pixel_offset_ok sw sh srcPix srcStride srcCurr.clip _ _ hss hsl hsz hsc hc
    rw [hoff.1]
    obtain ⟨⟨sr, sg, sb, sa⟩, hv⟩ := pixGet4_ok srcPix _ hoff.2.1 hoff.2.2.1 hoff.2.2.2
    have hd0 := offset_ok w h x y hx.1 hx.2 hy.1 hy.2
    have hdw := offset_wrap w h x y hz hx.1 hx.2 hy.1 hy.2
    have hzM := hz.2.2
    have hd : wrap64 (wrap64 (y * dstStride) + wrap64 (x * 4)) = y * dstStride + x * 4 ∧
        0 ≤ y * dstStride + x * 4 ∧ y * dstStride + x * 4 + 3 < pix.length ∧
        y * dstStride + x * 4 + 3 ≤ 9223372036854775807 := by
      rw [hds, hdl]
      exact ⟨hdw, hd0.1, hd0.2, by omega⟩
    rw [hd.1]
    simp only [hv, Option.bind_eq_bind, Option.some_bind, Option.pure_def]
    split
    · exact ⟨pix, rfl, rfl⟩
    · split
      · exact pixSet4_length pix _ _ _ _ _ hd.2.1 hd.2.2.1 hd.2.2.2
      · obtain ⟨⟨bgR, bgG, bgB, bgA⟩, hbg⟩ := pixGet4_ok pix _ hd.2.1 hd.2.2.1 hd.2.2.2
        simp only [hbg, Option.some_bind]
        exact pixSet4_length pix _ _ _ _ _ hd.2.1 hd.2.2.1 hd.2.2.2

theorem blitLoop_ok (B : Blend) (same : Bool) (sw sh w h : Int) (img src : Image)
    (dstCurr srcCurr : subImageState) (p : Point)
    (hss : src.Stride = 4 * sw)
    (hsl : ∀ q : List uint8, q.length = img.Pix.length →
      (((if same then q else src.Pix).length : Nat) : Int) = 4 * sw * sh)
    (hsz : SizeOK sw sh) (hsc : ClipIn sw sh srcCurr.clip)
    (hds : img.Stride = 4 * w) (hdl : (img.Pix.length : Int) = 4 * w * h) (hz : SizeOK w h)
    (hdc : ClipIn w h dstCurr.clip) (hdp : ClipPos dstCurr.clip) :
    ∃ pix1, blitLoop B same img src dstCurr srcCurr p = some pix1 ∧
      pix1.length = img.Pix.length := by
  unfold blitLoop
  dsimp only
  split
  · exact ⟨img.Pix, rfl, rfl⟩
  · refine foldlM_inv (fun q => q.length = img.Pix.length) _ _ ?_ img.Pix rfl
    intro q hq y hy
    dsimp only
    split
    · exact ⟨q, rfl, hq⟩
    · rename_i hsy
      refine foldlM_inv (fun q => q.length = img.Pix.length) _ _ ?_ q hq
      intro q1 hq1 x hx
      rw [mem_intRange] at hx hy
      have hc : (dstCurr.clip.Overlap
          (Rectangle.Add ⟨p.X, p.Y, srcCurr.bounds.Width, srcCurr.bounds.Height⟩
            dstCurr.origin)).Contains ⟨x, y⟩ = true := by
        rw [contains_iff]
        dsimp only
        omega
      have hin := hdc ⟨x, y⟩ ((overlap_contains_iff _ _ _ hdp.1 hdp.2).1 hc).1
      dsimp only at hin
      obtain ⟨q2, hq2, hlen⟩ := blitPixel_ok B sw sh w h (if same then q1 else src.Pix)
        src.Stride img.Stride srcCurr
        (Rectangle.Add ⟨p.X, p.Y, srcCurr.bounds.Width, srcCurr.bounds.Height⟩ dstCurr.origin)
        y (wrap64 (srcCurr.origin.Y + wrap64 (y - (Rectangle.Add ⟨p.X, p.Y,
          srcCurr.bounds.Width, srcCurr.bounds.Height⟩ dstCurr.origin).Y))) q1 x hss
        (hsl q1 hq1) hsz hsc hsy hds
        (by rw [hq1]; exact hdl) hz ⟨hin.1, hin.2.1⟩ ⟨hin.2.2.1, hin.2.2.2⟩
      exact ⟨q2, hq2, hlen.trans hq1⟩

theorem blit_ok (B : Blend) (sw sh w h : Int) (img src : Image) (p : Point)
    (hz : SizeOK w h) (hsz : SizeOK sw sh) (hw : WF w h img) (hsrc : WF sw sh src) :
    ∃ img1, Image.Blit B img src p = some img1 ∧ SameView img img1 := by
  obtain ⟨dstCurr, hdcur, hdf⟩ := wf_current w h img hw
  obtain ⟨srcCurr, hscur, hsf⟩ := wf_current sw sh src hsrc
  obtain ⟨h1, h2, _, _, _, _⟩ := hw
  obtain ⟨s1, s2, _, _, _, _⟩ := hsrc
  obtain ⟨q, hq, hlen⟩ := blitLoop_ok B false sw sh w h img src dstCurr srcCurr p s1
    (by intro q _; simpa using s2) hsz hsf.1.1 h1 h2 hz hdf.1.1 hdf.1.2.1
  unfold Image.Blit
  simp only [hdcur, hscur, Option.bind_eq_bind, Option.some_bind, Option.pure_def, hq]
  exact ⟨_, rfl, rfl, rfl, rfl, hlen⟩

theorem blitSelf_ok (B : Blend) (w h : Int) (img : Image) (p : Point) (hz : SizeOK w h)
    (hw : WF w h img) :
    ∃ img1, Image.BlitSelf B img p = some img1 ∧ SameView img img1 := by
  obtain ⟨curr, hcur, hf⟩ := wf_current w h img hw
  obtain ⟨h1, h2, _, _, _, _⟩ := hw
  obtain ⟨q, hq, hlen⟩ := blitLoop_ok B true w h w h img img curr curr p h1
    (by intro q hq; simp only [↓reduceIte]; rw [hq]; exact h2) hz hf.1.1 h1 h2 hz hf.1.1
    hf.1.2.1
  unfold Image.BlitSelf
  simp only [hcur, Option.bind_eq_bind, Option.some_bind, Option.pure_def, hq]
  exact ⟨_, rfl, rfl, rfl, rfl, hlen⟩

/-- The canvases reachable from `NewImage(w, h)`, for a size that does not wrap, keep the
invariant `WF`. -/
theorem reachable_wf (w h : Int) (img : Image) (hz : SizeOK w h) (hr : Reachable w h img) :
    WF w h img := by
  induction hr with
  | newImage hn => exact newImage_wf _ _ _ hz hn
  | pushSubImage r _ he ih =>
    obtain ⟨i1, e1, w1⟩ := pushSubImage_wf _ _ _ r (ih hz)
    rw [e1] at he
    exact Option.some.inj he ▸ w1
  | popSubImage _ ih => exact popSubImage_wf _ _ _ (ih hz)
  | pushClip r _ he ih =>
    obtain ⟨i1, e1, w1⟩ := pushClip_wf _ _ _ r (ih hz)
    rw [e1] at he
    exact Option.some.inj he ▸ w1
  | popClip _ he ih =>
    obtain ⟨i1, e1, w1⟩ := popClip_wf _ _ _ (ih hz)
    rw [e1] at he
    exact Option.some.inj he ▸ w1
  | set p c _ he ih => exact sameView_wf _ _ _ _ (ih hz) (set_sameView _ _ _ _ he)
  | fill c _ he ih => exact sameView_wf _ _ _ _ (ih hz) (fill_sameView _ _ _ he)
  | hline y x1 x2 t c _ he ih =>
    exact sameView_wf _ _ _ _ (ih hz) (hline_sameView _ _ _ _ _ _ _ he)
  | vline x y1 y2 t c _ he ih =>
    exact sameView_wf _ _ _ _ (ih hz) (vline_sameView _ _ _ _ _ _ _ he)
  | border c _ he ih => exact sameView_wf _ _ _ _ (ih hz) (border_sameView _ _ _ he)
  | blit B p _ _ he ih _ => exact sameView_wf _ _ _ _ (ih hz) (blit_sameView B _ _ _ _ he)
  | blitSelf B p _ he ih => exact sameView_wf _ _ _ _ (ih hz) (blitSelf_sameView B _ _ _ he)
  | repaint pix _ hlen ih => exact sameView_wf _ _ _ _ (ih hz) ⟨rfl, rfl, rfl, hlen⟩

/-- The canvases reachable from `NewImage(w, h)`, for every `w` and `h`, keep the
invariant `StackWF`. -/
theorem reachable_stackWF (w h : Int) (img : Image) (hr : Reachable w h img) :
    StackWF w h img := by
  induction hr with
  | newImage hn => exact newImage_stackWF _ _ _ hn
  | pushSubImage r _ he ih =>
    obtain ⟨i1, e1, w1⟩ := pushSubImage_stackWF _ _ _ r ih
    rw [e1] at he
    exact Option.some.inj he ▸ w1
  | popSubImage _ ih => exact popSubImage_stackWF _ _ _ ih
  | pushClip r _ he ih =>
    obtain ⟨i1, e1, w1⟩ := pushClip_stackWF _ _ _ r ih
    rw [e1] at he
    exact Option.some.inj he ▸ w1
  | popClip _ he ih =>
    obtain ⟨i1, e1, w1⟩ := popClip_stackWF _ _ _ ih
    rw [e1] at he
    exact Option.some.inj he ▸ w1
  | set p c _ he ih => exact sameView_stackWF _ _ _ _ ih (set_sameView _ _ _ _ he)
  | fill c _ he ih => exact sameView_stackWF _ _ _ _ ih (fill_sameView _ _ _ he)
  | hline y x1 x2 t c _ he ih =>
    exact sameView_stackWF _ _ _ _ ih (hline_sameView _ _ _ _ _ _ _ he)
  | vline x y1 y2 t c _ he ih =>
    exact sameView_stackWF _ _ _ _ ih (vline_sameView _ _ _ _ _ _ _ he)
  | border c _ he ih => exact sameView_stackWF _ _ _ _ ih (border_sameView _ _ _ he)
  | blit B p _ _ he ih _ => exact sameView_stackWF _ _ _ _ ih (blit_sameView B _ _ _ _ he)
  | blitSelf B p _ he ih => exact sameView_stackWF _ _ _ _ ih (blitSelf_sameView B _ _ _ he)
  | repaint pix _ hlen ih => exact sameView_stackWF _ _ _ _ ih ⟨rfl, rfl, rfl, hlen⟩


/-! ## `Set` and `At` on a stack `L ++ [b]` -/

theorem set_concat (img : Image) (L : List subImageState) (b : subImageState) (p : Point)
    (c : Color) (h : img.stateStack = L ++ [b]) :
    img.Set p c =
      if b.clip.Contains (b.origin.Add p) = true then
        (pixSet4 img.Pix
          (wrap64 (wrap64 ((b.origin.Add p).Y * img.Stride) + wrap64 ((b.origin.Add p).X * 4)))
          c.R c.G c.B c.A).map (fun q => { img with Pix := q })
      else some img := by
  unfold Image.Set
  simp only [currentState_concat img L b h, Option.bind_eq_bind, Option.some_bind,
    Option.pure_def]
  by_cases hc : b.clip.Contains (b.origin.Add p) = true
  · simp only [hc, Bool.not_true, Bool.false_eq_true, ↓reduceIte]
    cases pixSet4 img.Pix
      (wrap64 (wrap64 ((b.origin.Add p).Y * img.Stride) + wrap64 ((b.origin.Add p).X * 4)))
      c.R c.G c.B c.A <;> rfl
  · simp [hc]

theorem at_concat (img : Image) (L : List subImageState) (b : subImageState) (p : Point)
    (h : img.stateStack = L ++ [b]) :
    img.At p =
      if b.clip.Contains (b.origin.Add p) = true then
        (pixGet4 img.Pix
          (wrap64 (wrap64 ((b.origin.Add p).Y * img.Stride) +
            wrap64 ((b.origin.Add p).X * 4)))).map
          (fun v => ⟨v.1, v.2.1, v.2.2.1, v.2.2.2⟩)
      else some Color.zero := by
  unfold Image.At
  simp only [currentState_concat img L b h, Option.bind_eq_bind, Option.some_bind,
    Option.pure_def]
  by_cases hc : b.clip.Contains (b.origin.Add p) = true
  · simp only [hc, Bool.not_true, Bool.false_eq_true, ↓reduceIte]
    cases pixGet4 img.Pix
      (wrap64 (wrap64 ((b.origin.Add p).Y * img.Stride) + wrap64 ((b.origin.Add p).X * 4))) <;>
      rfl
  · simp [hc]

theorem overlap_area_le (c s : Rectangle) (he : ClipExt c) (hx : c.OverlapExact s) :
    (c.Overlap s).Width * (c.Overlap s).Height ≤ c.Width * c.Height := by
  have hw0 := overlap_width_nonneg c s
  have hh0 := overlap_height_nonneg c s
  unfold ClipExt at he
  unfold Rectangle.OverlapExact I64 at hx
  have hw1 : (c.Overlap s).Width ≤ c.Width := by
    simp only [Rectangle.Overlap]
    rw [wrap64_of_I64 _ hx.1]
    omega
  have hh1 : (c.Overlap s).Height ≤ c.Height := by
    simp only [Rectangle.Overlap]
    rw [wrap64_of_I64 _ hx.2]
    omega
  exact mul_le_mul hw1 hh1 hh0 he.1.1

theorem canvas2_reachable : Reachable 2 2 canvas2 :=
  Reachable.newImage (by decide)

theorem pushClips_concat (img : Image) (rs : List Rectangle) (r : Rectangle) :
    pushClips img (rs ++ [r]) = (pushClips img rs).bind (fun i => i.PushClip r) := by
  induction rs generalizing img with
  | nil =>
    simp only [List.nil_append, pushClips, Option.some_bind]
    cases img.PushClip r <;> rfl
  | cons a rs ih =>
    simp only [List.cons_append, pushClips]
    cases img.PushClip a with
    | none => rfl
    | some i =>
      show pushClips i (rs ++ [r]) = _
      exact ih i

theorem pushClip_ne_nil (img img1 : Image) (r : Rectangle) (h : img.stateStack ≠ [])
    (he : img.PushClip r = some img1) : img1.stateStack ≠ [] := by
  obtain ⟨L, b, hL⟩ := stack_cases img.stateStack h
  rw [pushClip_concat img L b r hL] at he
  rw [← Option.some.inj he]
  simp

theorem pushClips_some (img : Image) (rs : List Rectangle) (h : img.stateStack ≠ []) :
    ∃ img1, pushClips img rs = some img1 ∧ img1.stateStack ≠ [] := by
  induction rs generalizing img with
  | nil => exact ⟨img, rfl, h⟩
  | cons a rs ih =>
    obtain ⟨L, b, hL⟩ := stack_cases img.stateStack h
    have he := pushClip_concat img L b a hL
    obtain ⟨i2, h2, hn⟩ := ih _ (pushClip_ne_nil img _ a h he)
    exact ⟨i2, by simp only [pushClips, he, Option.some_bind, h2], hn⟩

theorem pushClip_popClip (img img1 : Image) (r : Rectangle) (h : img.stateStack ≠ [])
    (he : img.PushClip r = some img1) : img1.PopClip = some img := by
  obtain ⟨L, b, hL⟩ := stack_cases img.stateStack h
  rw [pushClip_concat img L b r hL] at he
  have he1 := Option.some.inj he
  subst he1
  rw [popClip_concat_push _ L _ b.clippingStack b.clip rfl rfl]
  simp only [Option.some.injEq]
  cases img
  simp only at hL
  simp [hL]

theorem push_pop_clips (img : Image) (h : img.stateStack ≠ []) (k : Nat) :
    ∀ rs : List Rectangle, k ≤ rs.length →
      ∃ img1 img2, pushClips img rs = some img1 ∧ popClips img1 k = some img2 ∧
        pushClips img (rs.take (rs.length - k)) = some img2 := by
  induction k with
  | zero =>
    intro rs _
    obtain ⟨i1, h1, _⟩ := pushClips_some img rs h
    exact ⟨i1, i1, h1, rfl, by simpa using h1⟩
  | succ k ih =>
    intro rs hk
    rcases List.eq_nil_or_concat rs with h0 | ⟨rs1, r, hrs⟩
    · subst h0
      simp at hk
    · have hrs1 : rs = rs1 ++ [r] := by simpa using hrs
      subst hrs1
      simp only [List.length_append, List.length_singleton, add_le_add_iff_right] at hk
      obtain ⟨j1, j2, e1, e2, e3⟩ := ih rs1 hk
      obtain ⟨i1, hi1, _⟩ := pushClips_some img (rs1 ++ [r]) h
      obtain ⟨m1, hm1, hm1n⟩ := pushClips_some img rs1 h
      have hj : j1 = m1 := Option.some.inj (e1.symm.trans hm1)
      subst hj
      have hpush : j1.PushClip r = some i1 := by
        rw [pushClips_concat, hm1] at hi1
        simpa using hi1
      have hpop := pushClip_popClip j1 i1 r hm1n hpush
      refine ⟨i1, j2, hi1, ?_, ?_⟩
      · simp only [popClips, hpop, Option.some_bind, e2]
      · have ht : (rs1 ++ [r]).length - (k + 1) = rs1.length - k := by
          simp
        rw [ht, List.take_append_of_le_length (by omega)]
        exact e3


/-! ## The clip as an intersection -/

theorem chain_contains (base : Point → Prop) (saved : List Rectangle) :
    ∀ (c : Rectangle) (pushed : List Rectangle), chainInv base saved c pushed →
      ∀ p, c.Contains p = true ↔ (base p ∧ ∀ r ∈ pushed, r.Contains p = true) := by
  induction saved with
  | nil =>
    intro c pushed hc p
    cases pushed with
    | nil =>
      simp only [chainInv] at hc
      simp [hc p]
    | cons r pushed => simp [chainInv] at hc
  | cons s saved ih =>
    intro c pushed hc p
    cases pushed with
    | nil => simp [chainInv] at hc
    | cons r pushed =>
      simp only [chainInv] at hc
      rw [hc.1 p, ih s pushed hc.2 p]
      simp only [List.mem_cons, forall_eq_or_imp]
      tauto

theorem stack_contains (w h : Int) (below : List subImageState) :
    ∀ (f : subImageState) (cl : List Rectangle) (g : Pushed),
      stackInv w h (f :: below) (cl :: g) →
      ∀ p, f.clip.Contains p = true ↔
        (Rectangle.Contains ⟨0, 0, w, h⟩ p = true ∧
          (∀ f1 ∈ f :: below, f1.bounds.Contains p = true) ∧
          (∀ cl1 ∈ cl :: g, ∀ c ∈ cl1, c.Contains p = true)) := by
  induction below with
  | nil =>
    intro f cl g hs p
    cases g with
    | cons cl2 g => simp [stackInv] at hs
    | nil =>
      simp only [stackInv, and_true] at hs
      rw [chain_contains _ _ _ _ hs p]
      simp [baseOf, and_assoc]
  | cons b below ih =>
    intro f cl g hs p
    cases g with
    | nil => simp [stackInv] at hs
    | cons cl2 g =>
      simp only [stackInv] at hs
      have hb := ih b cl2 g (by simpa only [stackInv] using hs.2) p
      rw [chain_contains _ _ _ _ hs.1 p]
      simp only [baseOf, hb, List.mem_cons, forall_eq_or_imp, List.mem_reverse]
      tauto

theorem baseOf_congr (w h : Int) (below : List subImageState) (f f1 : subImageState)
    (hb : f1.bounds = f.bounds) : baseOf w h below f1 = baseOf w h below f := by
  funext p
  cases below <;> simp [baseOf, hb]

theorem apply_stackWF (w h : Int) (img : Image) (op : StackOp) (hsw : StackWF w h img) :
    ∃ img1, op.apply img = some img1 ∧ StackWF w h img1 := by
  cases op with
  | pushSubImage r => exact pushSubImage_stackWF w h img r hsw
  | popSubImage => exact ⟨_, rfl, popSubImage_stackWF w h img hsw⟩
  | pushClip r => exact pushClip_stackWF w h img r hsw
  | popClip => exact popClip_stackWF w h img hsw

theorem step_inv (w h : Int) (img : Image) (g : Pushed) (op : StackOp)
    (hsw : StackWF w h img)
    (hinv : stackInv w h img.stateStack.reverse g.reverse) :
    ∃ img1, op.apply img = some img1 ∧ StackWF w h img1 ∧
      stackInv w h img1.stateStack.reverse (op.track img g).reverse := by
  obtain ⟨ia, ea, hswa⟩ := apply_stackWF w h img op hsw
  suffices hmain : ∃ img1, op.apply img = some img1 ∧ img1.stateStack ≠ [] ∧
      stackInv w h img1.stateStack.reverse (op.track img g).reverse by
    obtain ⟨i1, e1, _, v1⟩ := hmain
    have hi : ia = i1 := Option.some.inj (ea.symm.trans e1)
    exact ⟨i1, e1, hi ▸ hswa, v1⟩
  have hne := hsw.1
  obtain ⟨L, b, hL⟩ := stack_cases img.stateStack hne
  have hbp : ClipPos b.clip := (hsw.2.2 b (by rw [hL]; simp)).1
  rw [hL, List.reverse_concat] at hinv
  cases hg : g.reverse with
  | nil =>
    rw [hg] at hinv
    simp [stackInv] at hinv
  | cons cl gr =>
    rw [hg] at hinv
    have hg1 : g = gr.reverse ++ [cl] := List.reverse_eq_cons_iff.1 hg
    subst hg1
    simp only [stackInv] at hinv
    obtain ⟨hchain, hbelow⟩ := hinv
    cases op with
    | pushSubImage r =>
      refine ⟨_, pushSubImage_concat img L b r hL, by simp, ?_⟩
      simp only [StackOp.track, List.reverse_append, List.reverse_cons, List.reverse_nil,
        List.nil_append, List.singleton_append, List.reverse_reverse, List.cons_append]
      simp only [stackInv, chainInv, baseOf]
      refine ⟨?_, hchain, hbelow⟩
      intro p
      rw [overlap_contains_iff _ _ _ hbp.1 hbp.2]
    | popSubImage =>
      refine ⟨_, rfl, ?_, ?_⟩
      · rw [popSubImage_concat img L b hL]
        by_cases hn : L = []
        · rw [if_pos hn]
          exact hne
        · rw [if_neg hn]
          exact hn
      · rw [popSubImage_concat img L b hL]
        by_cases hn : L = []
        · subst hn
          rw [if_pos rfl]
          cases gr with
          | cons cl2 gr => simp [stackInv] at hbelow
          | nil =>
            simp only [StackOp.track, List.reverse_nil, List.nil_append, List.length_singleton,
              gt_iff_lt, lt_self_iff_false, ↓reduceIte, hL, List.reverse_cons, stackInv]
            exact ⟨hchain, trivial⟩
        · rw [if_neg hn]
          obtain ⟨L1, b1, hL1⟩ := stack_cases L hn
          subst hL1
          rw [List.reverse_concat] at hbelow
          cases gr with
          | nil => simp [stackInv] at hbelow
          | cons cl2 gr =>
            have hlen : (List.reverse (cl2 :: gr) ++ [cl]).length > 1 := by simp
            simp only [StackOp.track, if_pos hlen, List.dropLast_concat, List.reverse_reverse,
              List.reverse_concat]
            exact hbelow
    | pushClip r =>
      refine ⟨_, pushClip_concat img L b r hL, by simp, ?_⟩
      simp only [StackOp.track, currentState_concat img L b hL, List.getLast?_concat,
        List.dropLast_concat, List.reverse_concat, List.reverse_reverse, stackInv, chainInv]
      refine ⟨⟨?_, ?_⟩, hbelow⟩
      · intro p
        rw [overlap_contains_iff _ _ _ hbp.1 hbp.2]
      · have hbase := baseOf_congr w h L.reverse b
          ⟨b.origin, b.bounds, b.clip.Overlap (r.Add b.origin), b.clippingStack ++ [b.clip]⟩
          rfl
        rw [hbase]
        exact hchain
    | popClip =>
      rcases List.eq_nil_or_concat b.clippingStack with hc | ⟨S, c, hc⟩
      · refine ⟨img, popClip_concat_nil img L b hL hc, hne, ?_⟩
        rw [hc] at hchain
        cases hcl : cl.reverse with
        | cons r clr =>
          rw [hcl] at hchain
          simp [chainInv] at hchain
        | nil =>
          have hcl0 : cl = [] := List.reverse_eq_nil_iff.1 hcl
          subst hcl0
          simp only [StackOp.track, List.getLast?_concat, List.dropLast_concat,
            List.dropLast_nil, List.reverse_concat, List.reverse_reverse, hL, stackInv]
          rw [hc]
          exact ⟨hchain, hbelow⟩
      · have hc1 : b.clippingStack = S ++ [c] := by simpa using hc
        refine ⟨_, popClip_concat_push img L b S c hL hc1, by simp, ?_⟩
        rw [hc1, List.reverse_concat] at hchain
        cases hcl : cl.reverse with
        | nil =>
          rw [hcl] at hchain
          simp [chainInv] at hchain
        | cons r clr =>
          rw [hcl] at hchain
          have hcl1 : cl = clr.reverse ++ [r] := List.reverse_eq_cons_iff.1 hcl
          subst hcl1
          simp only [chainInv] at hchain
          simp only [StackOp.track, List.getLast?_concat, List.dropLast_concat,
            List.reverse_concat, List.reverse_reverse, stackInv]
          refine ⟨?_, hbelow⟩
          have hbase := baseOf_congr w h L.reverse b ⟨b.origin, b.bounds, c, S⟩ rfl
          rw [hbase]
          exact hchain.2

theorem run_inv (w h : Int) (ops : List StackOp) :
    ∀ (img : Image) (g : Pushed), StackWF w h img →
      stackInv w h img.stateStack.reverse g.reverse →
      ∃ img1 g1, runOps ops (img, g) = some (img1, g1) ∧ StackWF w h img1 ∧
        stackInv w h img1.stateStack.reverse g1.reverse := by
  induction ops with
  | nil =>
    intro img g hne hinv
    exact ⟨img, g, rfl, hne, hinv⟩
  | cons op ops ih =>
    intro img g hne hinv
    obtain ⟨i1, e1, n1, v1⟩ := step_inv w h img g op hne hinv
    obtain ⟨i2, g2, e2, n2, v2⟩ := ih i1 (op.track img g) n1 v1
    exact ⟨i2, g2, by simp only [runOps, e1, Option.some_bind, e2], n2, v2⟩

theorem newImage_stackInv (w h : Int) (img : Image) (hn : NewImage w h = some img) :
    StackWF w h img ∧
      stackInv w h img.stateStack.reverse (List.reverse ([[]] : Pushed)) := by
  refine ⟨newImage_stackWF w h img hn, ?_⟩
  obtain ⟨_, rfl⟩ := newImage_eq w h img hn
  simp [stackInv, chainInv, baseOf]

/-! ## Pixels of the buffer -/

theorem pixSet_some_range (pix pix1 : List uint8) (off : Int) (v : uint8)
    (h : pixSet pix off v = some pix1) :
    (0 ≤ off ∧ off < pix.length) ∧ pix1 = pix.set off.toNat v := by
  unfold pixSet at h
  by_cases c0 : 0 ≤ off ∧ off < pix.length
  · rw [if_pos c0] at h
    exact ⟨c0, (Option.some.inj h).symm⟩
  · rw [if_neg c0] at h
    exact Option.noConfusion h

theorem pixSet4_some_range (pix pix1 : List uint8) (off : Int) (r g b a : uint8)
    (hM : off + 3 ≤ 9223372036854775807)
    (h : pixSet4 pix off r g b a = some pix1) : 0 ≤ off ∧ off + 3 < pix.length := by
  unfold pixSet4 at h
  simp only [Option.bind_eq_bind, Option.bind_eq_some] at h
  obtain ⟨q1, h1, q2, h2, q3, h3, h4⟩ := h
  obtain ⟨r1, e1⟩ := pixSet_some_range _ _ _ _ h1
  obtain ⟨r2, e2⟩ := pixSet_some_range _ _ _ _ h2
  obtain ⟨r3, e3⟩ := pixSet_some_range _ _ _ _ h3
  obtain ⟨r4, _⟩ := pixSet_some_range _ _ _ _ h4
  subst e1 e2 e3
  simp only [List.length_set] at r4
  unfold wrap64 at r4
  omega

theorem pixGet_set_far (pix : List uint8) (n : Nat) (v : uint8) (off : Int)
    (h : off < 0 ∨ off.toNat ≠ n) : pixGet (pix.set n v) off = pixGet pix off := by
  unfold pixGet
  simp only [List.length_set]
  by_cases hr : 0 ≤ off ∧ off < pix.length
  · rw [if_pos hr, if_pos hr, List.getElem?_set_ne]
    omega
  · rw [if_neg hr, if_neg hr]

theorem pixGet_pixSet4_far (pix pix1 : List uint8) (off off1 : Int) (r g b a : uint8)
    (hM : off + 3 ≤ 9223372036854775807)
    (h : pixSet4 pix off r g b a = some pix1) (hfar : off1 < off ∨ off + 3 < off1) :
    pixGet pix1 off1 = pixGet pix off1 := by
  have hr := pixSet4_some_range pix pix1 off r g b a hM h
  rw [pixSet4_ok pix off r g b a hr.1 hr.2 hM] at h
  rw [← Option.some.inj h]
  rw [pixGet_set_far _ _ _ _ (by omega), pixGet_set_far _ _ _ _ (by omega),
    pixGet_set_far _ _ _ _ (by omega), pixGet_set_far _ _ _ _ (by omega)]

theorem pixGet4_pixSet4_far (pix pix1 : List uint8) (off off1 : Int) (r g b a : uint8)
    (hM : off + 3 ≤ 9223372036854775807)
    (h1 : 0 ≤ off1 ∧ off1 + 3 ≤ 9223372036854775807)
    (h : pixSet4 pix off r g b a = some pix1) (hfar : off1 + 3 < off ∨ off + 3 < off1) :
    pixGet4 pix1 off1 = pixGet4 pix off1 := by
  have w1 : wrap64 (off1 + 1) = off1 + 1 := by unfold wrap64; omega
  have w2 : wrap64 (off1 + 2) = off1 + 2 := by unfold wrap64; omega
  have w3 : wrap64 (off1 + 3) = off1 + 3 := by unfold wrap64; omega
  unfold pixGet4
  rw [w1, w2, w3]
  rw [pixGet_pixSet4_far pix pix1 off off1 r g b a hM h (by omega),
    pixGet_pixSet4_far pix pix1 off (off1 + 1) r g b a hM h (by omega),
    pixGet_pixSet4_far pix pix1 off (off1 + 2) r g b a hM h (by omega),
    pixGet_pixSet4_far pix pix1 off (off1 + 3) r g b a hM h (by omega)]

theorem offset_far (w x y x1 y1 : Int) (hx : 0 ≤ x ∧ x < w) (hx1 : 0 ≤ x1 ∧ x1 < w)
    (hne : ¬ (x = x1 ∧ y = y1)) :
    y1 * (4 * w) + x1 * 4 + 3 < y * (4 * w) + x * 4 ∨
      y * (4 * w) + x * 4 + 3 < y1 * (4 * w) + x1 * 4 := by
  have e1 : y * (4 * w) = 4 * (y * w) := by ring
  have e2 : y1 * (4 * w) = 4 * (y1 * w) := by ring
  rw [e1, e2]
  rcases lt_trichotomy y y1 with hlt | heq | hgt
  · right
    have h2 : (y + 1) * w ≤ y1 * w := mul_le_mul_of_nonneg_right (by omega) (by omega)
    have e3 : (y + 1) * w = y * w + w := by ring
    rw [e3] at h2
    omega
  · subst heq
    have : x ≠ x1 := fun h => hne ⟨h, rfl⟩
    omega
  · left
    have h2 : (y1 + 1) * w ≤ y * w := mul_le_mul_of_nonneg_right (by omega) (by omega)
    have e3 : (y1 + 1) * w = y1 * w + w := by ring
    rw [e3] at h2
    omega

/-- A loop whose iterations change pairwise disjoint sets of cells: after the loop a cell
touched by some iteration holds `G` of its old value and every other cell is unchanged. -/
theorem foldlM_cells {α σ K V : Type} (Inv : σ → Prop) (obs : σ → K → V) (dom : K → Prop)
    (T : α → K → Prop) (G : K → V → V) (body : σ → α → Option σ) (l : List α)
    (hdisj : l.Pairwise (fun a b => ∀ k, T a k → ¬ T b k))
    (hbody : ∀ q, Inv q → ∀ a ∈ l, ∃ q1, body q a = some q1 ∧ Inv q1 ∧
      (∀ k, dom k → T a k → obs q1 k = G k (obs q k)) ∧
      (∀ k, dom k → ¬ T a k → obs q1 k = obs q k)) :
    ∀ q, Inv q → ∃ q1, l.foldlM body q = some q1 ∧ Inv q1 ∧
      (∀ k, dom k → (∃ a ∈ l, T a k) → obs q1 k = G k (obs q k)) ∧
      (∀ k, dom k → (¬ ∃ a ∈ l, T a k) → obs q1 k = obs q k) := by
  induction l with
  | nil =>
    intro q hq
    refine ⟨q, rfl, hq, ?_, ?_⟩
    · rintro k _ ⟨a, ha, _⟩
      simp at ha
    · intro k _ _
      rfl
  | cons a l ih =>
    intro q hq
    rw [List.pairwise_cons] at hdisj
    obtain ⟨q1, hb, hq1, ht, hn⟩ := hbody q hq a (List.mem_cons_self a l)
    obtain ⟨q2, hf, hq2, ht2, hn2⟩ :=
      ih hdisj.2 (fun q hq b hb => hbody q hq b (List.mem_cons_of_mem _ hb)) q1 hq1
    refine ⟨q2, by simp [List.foldlM_cons, hb, hf], hq2, ?_, ?_⟩
    · rintro k hk ⟨b, hbm, hTb⟩
      rcases List.mem_cons.1 hbm with rfl | hbl
      · have hnot : ¬ ∃ c ∈ l, T c k := by
          rintro ⟨c, hc, hTc⟩
          exact hdisj.1 c hc k hTb hTc
        rw [hn2 k hk hnot, ht k hk hTb]
      · have hna : ¬ T a k := fun hTa => hdisj.1 b hbl k hTa hTb
        rw [ht2 k hk ⟨b, hbl, hTb⟩, hn k hk hna]
    · intro k hk hnone
      have hna : ¬ T a k := fun hTa => hnone ⟨a, List.mem_cons_self a l, hTa⟩
      have hnl : ¬ ∃ c ∈ l, T c k := by
        rintro ⟨c, hc, hTc⟩
        exact hnone ⟨c, List.mem_cons_of_mem _ hc, hTc⟩
      rw [hn2 k hk hnl, hn k hk hna]

theorem intRange_nodup (lo hi : Int) : (intRange lo hi).Nodup := by
  unfold intRange
  refine List.Nodup.map ?_ (List.nodup_range _)
  intro a b hab
  simp only at hab
  omega

theorem intRange_pairwise (lo hi : Int) (T : Int → (Int × Int) → Prop)
    (h : ∀ a b, a ≠ b → ∀ k, T a k → ¬ T b k) :
    (intRange lo hi).Pairwise (fun a b => ∀ k, T a k → ¬ T b k) :=
  List.Pairwise.imp (fun {a b} hab => h a b hab) (intRange_nodup lo hi)

theorem pixel_write (w h : Int) (q : List uint8) (stride x y : Int) (v : Px)
    (hs : stride = 4 * w) (hl : (q.length : Int) = 4 * w * h) (hz : SizeOK w h)
    (hx : 0 ≤ x ∧ x < w) (hy : 0 ≤ y ∧ y < h) :
    ∃ q1, pixSet4 q (wrap64 (wrap64 (y * stride) + wrap64 (x * 4)))
        v.1 v.2.1 v.2.2.1 v.2.2.2 = some q1 ∧
      q1.length = q.length ∧ pixGet4 q1 (y * stride + x * 4) = some v ∧
      ∀ x1 y1, 0 ≤ x1 → x1 < w → 0 ≤ y1 → y1 < h → ¬ (x1 = x ∧ y1 = y) →
        pixGet4 q1 (y1 * stride + x1 * 4) = pixGet4 q (y1 * stride + x1 * 4) := by
  have hzM := hz.2.2
  have ho := offset_ok w h x y hx.1 hx.2 hy.1 hy.2
  have hwr : wrap64 (wrap64 (y * stride) + wrap64 (x * 4)) = y * stride + x * 4 := by
    rw [hs]
    exact offset_wrap w h x y hz hx.1 hx.2 hy.1 hy.2
  have hoff : 0 ≤ y * stride + x * 4 ∧ y * stride + x * 4 + 3 < q.length := by
    rw [hs, hl]
    exact ho
  have hM : y * stride + x * 4 + 3 ≤ 9223372036854775807 := by
    rw [hs]
    omega
  rw [hwr]
  obtain ⟨q1, hq1, hlen⟩ := pixSet4_length q _ v.1 v.2.1 v.2.2.1 v.2.2.2 hoff.1 hoff.2 hM
  refine ⟨q1, hq1, hlen, pixGet4_pixSet4 q q1 _ _ _ _ _ hM hq1, ?_⟩
  intro x1 y1 h0 h1 h2 h3 hne
  have ho1 := offset_ok w h x1 y1 h0 h1 h2 h3
  apply pixGet4_pixSet4_far q q1 _ _ _ _ _ _ hM ?_ hq1
  · rw [hs]
    exact offset_far w x y x1 y1 hx ⟨h0, h1⟩ (fun hh => hne ⟨hh.1.symm, hh.2.symm⟩)
  · rw [hs]
    omega

theorem fillLoop_spec (w h : Int) (pix : List uint8) (stride : Int) (r : Rectangle)
    (c : Color) (hs : stride = 4 * w) (hl : (pix.length : Int) = 4 * w * h)
    (hz : SizeOK w h) (hr : ClipIn w h r) :
    ∃ pix1, fillLoop pix stride r c = some pix1 ∧ pix1.length = pix.length ∧
      (∀ x y, r.Contains ⟨x, y⟩ = true →
        pixGet4 pix1 (y * stride + x * 4) = some c.px) ∧
      (∀ x y, 0 ≤ x → x < w → 0 ≤ y → y < h → r.Contains ⟨x, y⟩ = false →
        pixGet4 pix1 (y * stride + x * 4) = pixGet4 pix (y * stride + x * 4)) := by
  unfold fillLoop
  have houter := foldlM_cells (fun q : List uint8 => q.length = pix.length)
    (fun q (k : Int × Int) => pixGet4 q (k.2 * stride + k.1 * 4))
    (fun k => (0 ≤ k.1 ∧ k.1 < w) ∧ (0 ≤ k.2 ∧ k.2 < h))
    (fun y k => k.2 = y ∧ r.X ≤ k.1 ∧ k.1 < wrap64 (r.X + r.Width))
    (fun _ _ => some c.px)
    (fun pix y => (intRange r.X (wrap64 (r.X + r.Width))).foldlM
      (fun pix x =>
        pixSet4 pix (wrap64 (wrap64 (y * stride) + wrap64 (x * 4))) c.R c.G c.B c.A) pix)
    (intRange r.Y (wrap64 (r.Y + r.Height)))
    (intRange_pairwise _ _ _ (by
      intro a b hab k hk hk1
      exact hab (hk.1.symm.trans hk1.1)))
    (by
      intro q hq y hy
      have hinner := foldlM_cells (fun q : List uint8 => q.length = pix.length)
        (fun q (k : Int × Int) => pixGet4 q (k.2 * stride + k.1 * 4))
        (fun k => (0 ≤ k.1 ∧ k.1 < w) ∧ (0 ≤ k.2 ∧ k.2 < h))
        (fun x k => k.1 = x ∧ k.2 = y)
        (fun _ _ => some c.px)
        (fun pix x =>
          pixSet4 pix (wrap64 (wrap64 (y * stride) + wrap64 (x * 4))) c.R c.G c.B c.A)
        (intRange r.X (wrap64 (r.X + r.Width)))
        (intRange_pairwise _ _ _ (by
          intro a b hab k hk hk1
          exact hab (hk.1.symm.trans hk1.1)))
        (by
          intro q1 hq1 x hx
          rw [mem_intRange] at hx hy
          have hc : r.Contains ⟨x, y⟩ = true := by
            rw [contains_iff]
            dsimp only
            omega
          have hp := hr ⟨x, y⟩ hc
          dsimp only at hp
          obtain ⟨q2, e2, l2, g2, f2⟩ := pixel_write w h q1 stride x y c.px hs
            (by rw [hq1]; exact hl) hz ⟨hp.1, hp.2.1⟩ ⟨hp.2.2.1, hp.2.2.2⟩
          refine ⟨q2, e2, l2.trans hq1, ?_, ?_⟩
          · rintro ⟨k1, k2⟩ _ ⟨rfl, rfl⟩
            exact g2
          · rintro ⟨k1, k2⟩ hk hne
            exact f2 k1 k2 hk.1.1 hk.1.2 hk.2.1 hk.2.2 hne)
        q hq
      obtain ⟨q1, e1, l1, g1, f1⟩ := hinner
      refine ⟨q1, e1, l1, ?_, ?_⟩
      · rintro ⟨k1, k2⟩ hk ⟨hk2, hlo, hhi⟩
        exact g1 (k1, k2) hk ⟨k1, (mem_intRange _ _ _).2 ⟨hlo, hhi⟩, rfl, hk2⟩
      · rintro ⟨k1, k2⟩ hk hne
        apply f1 (k1, k2) hk
        rintro ⟨a, ha, h1, h2⟩
        rw [mem_intRange] at ha
        dsimp only at h1 h2
        exact hne ⟨h2, by omega, by omega⟩)
    pix rfl
  obtain ⟨pix1, e1, l1, g1, f1⟩ := houter
  refine ⟨pix1, e1, l1, ?_, ?_⟩
  · intro x y hc
    have hp := hr ⟨x, y⟩ hc
    rw [contains_iff] at hc
    dsimp only at hc hp
    exact g1 (x, y) ⟨⟨hp.1, hp.2.1⟩, hp.2.2.1, hp.2.2.2⟩
      ⟨y, (mem_intRange _ _ _).2 ⟨hc.2.2.1, hc.2.2.2⟩, rfl, hc.1, hc.2.1⟩
  · intro x y h0 h1 h2 h3 hc
    apply f1 (x, y) ⟨⟨h0, h1⟩, h2, h3⟩
    rintro ⟨a, ha, h2, h3, h4⟩
    rw [mem_intRange] at ha
    dsimp only at h2 h3 h4
    have : r.Contains ⟨x, y⟩ = true := by
      rw [contains_iff]
      dsimp only
      omega
    rw [hc] at this
    exact absurd this (by decide)

theorem intRange_empty (lo hi : Int) (h : hi ≤ lo) : intRange lo hi = [] := by
  unfold intRange
  have : (hi - lo).toNat = 0 := by omega
  rw [this]
  rfl

/-- The fill loop over a rectangle that contains no point stores nothing. -/
theorem fillLoop_noop (pix : List uint8) (stride : Int) (r : Rectangle) (c : Color)
    (he : ∀ x y, r.Contains ⟨x, y⟩ = false) : fillLoop pix stride r c = some pix := by
  unfold fillLoop
  obtain ⟨q, hq, hp⟩ := foldlM_inv (fun q => q = pix)
    (fun pix y => (intRange r.X (wrap64 (r.X + r.Width))).foldlM
      (fun pix x =>
        pixSet4 pix (wrap64 (wrap64 (y * stride) + wrap64 (x * 4))) c.R c.G c.B c.A) pix)
    (intRange r.Y (wrap64 (r.Y + r.Height)))
    (by
      intro q hq y hy
      rw [mem_intRange] at hy
      have hx : wrap64 (r.X + r.Width) ≤ r.X := by
        by_contra hlt
        have hc : r.Contains ⟨r.X, y⟩ = true := by
          rw [contains_iff]
          dsimp only
          omega
        rw [he] at hc
        exact absurd hc (by decide)
      rw [intRange_empty _ _ hx]
      exact ⟨q, rfl, hq⟩)
    pix rfl
  rw [hq, hp]

theorem fillLoop_empty (pix : List uint8) (stride : Int) (r : Rectangle) (c : Color)
    (hx : ClipExt r) (he : r.isEmpty = true) : fillLoop pix stride r c = some pix := by
  apply fillLoop_noop
  intro x y
  simp only [Rectangle.isEmpty, Bool.or_eq_true, decide_eq_true_eq] at he
  unfold ClipExt at hx
  cases hc : r.Contains ⟨x, y⟩ with
  | false => rfl
  | true =>
    rw [contains_iff] at hc
    dsimp only at hc
    omega

theorem overlap_not_contains_of_empty (a b : Rectangle) (hx : 0 ≤ a.X) (hy : 0 ≤ a.Y)
    (he : (a.Overlap b).isEmpty = true)
    (p : Point) : ¬ (a.Contains p = true ∧ b.Contains p = true) := by
  intro hp
  have hc := (overlap_contains_iff a b p hx hy).2 hp
  rw [contains_iff] at hc
  simp only [Rectangle.isEmpty, Bool.or_eq_true, decide_eq_true_eq] at he
  simp only [Rectangle.Overlap] at hc he
  unfold wrap64 at hc he
  omega

theorem fillAbsRect_eq (img : Image) (curr : subImageState) (r : Rectangle) (c : Color)
    (hcur : img.currentState = some curr) :
    img.fillAbsRect r c =
      if (curr.clip.Overlap (r.Add curr.origin)).Width ≤ 0 ∨
          (curr.clip.Overlap (r.Add curr.origin)).Height ≤ 0 then some img
      else (fillLoop img.Pix img.Stride (curr.clip.Overlap (r.Add curr.origin)) c).map
        (fun pix => { img with Pix := pix }) := by
  unfold Image.fillAbsRect
  simp only [hcur, Option.bind_eq_bind, Option.some_bind, Option.pure_def]
  split
  · rfl
  · cases fillLoop img.Pix img.Stride (curr.clip.Overlap (r.Add curr.origin)) c <;> rfl

/-- The pixels after `fillAbsRect(r, c)`, by absolute position: the pixels of the current
clip that lie in the translated rectangle `r.Add(origin)` hold `c`, every other pixel of
the canvas is unchanged. -/
theorem fillAbsRect_spec (w h : Int) (img : Image) (r : Rectangle) (c : Color)
    (hz : SizeOK w h) (hw : WF w h img) :
    ∃ curr img1, img.currentState = some curr ∧ img.fillAbsRect r c = some img1 ∧
      SameView img img1 ∧
      (∀ x y, curr.clip.Contains ⟨x, y⟩ = true → (r.Add curr.origin).Contains ⟨x, y⟩ = true →
        img1.pixel x y = some c.px) ∧
      (∀ x y, 0 ≤ x → x < w → 0 ≤ y → y < h →
        ¬ (curr.clip.Contains ⟨x, y⟩ = true ∧ (r.Add curr.origin).Contains ⟨x, y⟩ = true) →
        img1.pixel x y = img.pixel x y) ∧
      ((∀ x y, ¬ (curr.clip.Contains ⟨x, y⟩ = true ∧
          (r.Add curr.origin).Contains ⟨x, y⟩ = true)) → img1 = img) := by
  obtain ⟨curr, hcur, hf⟩ := wf_current w h img hw
  obtain ⟨h1, h2, _, _, _, _⟩ := hw
  have hpos := hf.1.2.1
  have heq := fillAbsRect_eq img curr r c hcur
  by_cases he : (curr.clip.Overlap (r.Add curr.origin)).Width ≤ 0 ∨
      (curr.clip.Overlap (r.Add curr.origin)).Height ≤ 0
  · rw [if_pos he] at heq
    have hemp : (curr.clip.Overlap (r.Add curr.origin)).isEmpty = true := by
      simpa [Rectangle.isEmpty] using he
    refine ⟨curr, img, hcur, heq, sameView_refl img, ?_, ?_, fun _ => rfl⟩
    · intro x y hc hr
      exact absurd ⟨hc, hr⟩ (overlap_not_contains_of_empty _ _ hpos.1 hpos.2 hemp ⟨x, y⟩)
    · intro x y _ _ _ _ _
      rfl
  · rw [if_neg he] at heq
    obtain ⟨q, hq, hlen, hg, hu⟩ := fillLoop_spec w h img.Pix img.Stride
      (curr.clip.Overlap (r.Add curr.origin)) c h1 h2 hz (clipIn_overlap w h _ _ hf.1.1 hpos)
    rw [hq] at heq
    refine ⟨curr, _, hcur, heq, ⟨rfl, rfl, rfl, hlen⟩, ?_, ?_, ?_⟩
    · intro x y hc hr
      exact hg x y ((overlap_contains_iff _ _ _ hpos.1 hpos.2).2 ⟨hc, hr⟩)
    · intro x y h0 hlt h3 h4 hn
      apply hu x y h0 hlt h3 h4
      cases hcc : (curr.clip.Overlap (r.Add curr.origin)).Contains ⟨x, y⟩ with
      | false => rfl
      | true => exact absurd ((overlap_contains_iff _ _ _ hpos.1 hpos.2).1 hcc) hn
    · intro hnone
      have hno : fillLoop img.Pix img.Stride (curr.clip.Overlap (r.Add curr.origin)) c =
          some img.Pix := by
        apply fillLoop_noop
        intro x y
        cases hcc : (curr.clip.Overlap (r.Add curr.origin)).Contains ⟨x, y⟩ with
        | false => rfl
        | true => exact absurd ((overlap_contains_iff _ _ _ hpos.1 hpos.2).1 hcc) (hnone x y)
      rw [hno] at hq
      rw [← Option.some.inj hq]

/-- A local point `p` of a frame of origin `o` lies in `r` exactly when its absolute
position lies in the translated rectangle, when no addition wraps. -/
theorem add_contains (r : Rectangle) (o p : Point) (hex : r.Exact o)
    (hp : I64 p.X ∧ I64 p.Y) :
    (r.Add o).Contains (o.Add p) = r.Contains p := by
  rw [Bool.eq_iff_iff, contains_iff, contains_iff]
  simp only [Rectangle.Add, Point.Add]
  unfold Rectangle.Exact I64 at hex
  unfold I64 at hp
  unfold wrap64
  constructor <;> intro hh <;> omega

/-- The test `r.Contains(p)` is the half-open test on exact sums, when the edges of `r`
are computed without wraparound. -/
theorem contains_exact (r : Rectangle) (o p : Point) (hex : r.Exact o) :
    r.Contains p = true ↔
      (r.X ≤ p.X ∧ p.X < r.X + r.Width ∧ r.Y ≤ p.Y ∧ p.Y < r.Y + r.Height) := by
  rw [contains_iff]
  unfold Rectangle.Exact I64 at hex
  unfold wrap64
  omega

/-- The pixels after `fillAbsRect(r, c)`, by local coordinates, when no addition made for
`r` wraps. -/
theorem fillAbsRect_local (w h : Int) (img : Image) (curr : subImageState) (r : Rectangle)
    (c : Color) (hz : SizeOK w h) (hw : WF w h img) (hcur : img.currentState = some curr)
    (hex : r.Exact curr.origin) :
    ∃ img1, img.fillAbsRect r c = some img1 ∧
      SameView img img1 ∧
      (∀ x y, I64 x → I64 y → r.Contains ⟨x, y⟩ = true →
        curr.clip.Contains (curr.origin.Add ⟨x, y⟩) = true →
        img1.pixel (curr.origin.Add ⟨x, y⟩).X (curr.origin.Add ⟨x, y⟩).Y = some c.px) ∧
      (∀ x y, I64 x → I64 y →
        0 ≤ (curr.origin.Add ⟨x, y⟩).X → (curr.origin.Add ⟨x, y⟩).X < w →
        0 ≤ (curr.origin.Add ⟨x, y⟩).Y → (curr.origin.Add ⟨x, y⟩).Y < h →
        ¬ (r.Contains ⟨x, y⟩ = true ∧ curr.clip.Contains (curr.origin.Add ⟨x, y⟩) = true) →
        img1.pixel (curr.origin.Add ⟨x, y⟩).X (curr.origin.Add ⟨x, y⟩).Y =
          img.pixel (curr.origin.Add ⟨x, y⟩).X (curr.origin.Add ⟨x, y⟩).Y) ∧
      ((r.Width ≤ 0 ∨ r.Height ≤ 0) → img1 = img) := by
  obtain ⟨curr1, img1, hcur1, he, hsv, hg, hu, hemp⟩ := fillAbsRect_spec w h img r c hz hw
  have hcc : curr1 = curr := Option.some.inj (hcur1.symm.trans hcur)
  subst hcc
  refine ⟨img1, he, hsv, ?_, ?_, ?_⟩
  · intro x y hx hy hr hc
    apply hg _ _ hc
    have := add_contains r curr1.origin ⟨x, y⟩ hex ⟨hx, hy⟩
    rw [hr] at this
    exact this
  · intro x y hx hy h0 h1 h2 h3 hn
    apply hu _ _ h0 h1 h2 h3
    rintro ⟨hc, hr⟩
    apply hn
    have := add_contains r curr1.origin ⟨x, y⟩ hex ⟨hx, hy⟩
    refine ⟨?_, hc⟩
    rw [← this]
    exact hr
  · intro hre
    apply hemp
    rintro x y ⟨_, hc⟩
    rw [contains_iff] at hc
    simp only [Rectangle.Add] at hc
    unfold Rectangle.Exact I64 at hex
    unfold wrap64 at hc
    omega

theorem hline_eq (img : Image) (y x1 x2 t : Int) (c : Color) :
    img.HLine y x1 x2 t c =
      img.fillAbsRect ⟨min x1 x2, y, wrap64 (max x1 x2 - min x1 x2), t⟩ c := by
  unfold Image.HLine
  by_cases hgt : x1 > x2
  · rw [if_pos hgt, min_eq_right (le_of_lt hgt), max_eq_left (le_of_lt hgt)]
  · rw [if_neg hgt, min_eq_left (not_lt.1 hgt), max_eq_right (not_lt.1 hgt)]

theorem vline_eq (img : Image) (x y1 y2 t : Int) (c : Color) :
    img.VLine x y1 y2 t c =
      img.fillAbsRect ⟨x, min y1 y2, t, wrap64 (max y1 y2 - min y1 y2)⟩ c := by
  unfold Image.VLine
  by_cases hgt : y1 > y2
  · rw [if_pos hgt, min_eq_right (le_of_lt hgt), max_eq_left (le_of_lt hgt)]
  · rw [if_neg hgt, min_eq_left (not_lt.1 hgt), max_eq_right (not_lt.1 hgt)]

theorem reachable_frameBounds (w h : Int) (img : Image) (hr : Reachable w h img) :
    ∀ f ∈ img.stateStack, FrameBounds f := by
  induction hr with
  | newImage hn =>
    obtain ⟨_, rfl⟩ := newImage_eq _ _ _ hn
    intro f hf
    simp only [List.mem_singleton] at hf
    subst hf
    have hz0 : I64 0 := ⟨by decide, by decide⟩
    exact ⟨⟨hz0, hz0⟩, rfl, rfl, fun p hp => hp, by simp⟩
  | @pushSubImage w h img img1 r hprev he ih =>
    have hw := reachable_stackWF _ _ _ hprev
    obtain ⟨L, b, hL⟩ := stack_cases img.stateStack hw.1
    have hbp := (hw.2.2 b (by rw [hL]; simp)).1
    rw [pushSubImage_concat img L b r hL] at he
    rw [← Option.some.inj he]
    intro f hf
    simp only [List.mem_append, List.mem_singleton] at hf
    rcases hf with hf | hf
    · exact ih f (by rw [hL]; simpa using hf)
    · subst hf
      refine ⟨⟨wrap64_I64 _, wrap64_I64 _⟩, rfl, rfl, ?_, by simp⟩
      intro p hp
      exact ((overlap_contains_iff _ _ p hbp.1 hbp.2).1 hp).2
  | @popSubImage w h img hprev ih =>
    have hw := reachable_stackWF _ _ _ hprev
    obtain ⟨L, b, hL⟩ := stack_cases img.stateStack hw.1
    rw [popSubImage_concat img L b hL]
    by_cases hn : L = []
    · rw [if_pos hn]
      exact ih
    · rw [if_neg hn]
      intro f hf
      exact ih f (by rw [hL]; exact List.mem_append_left _ hf)
  | @pushClip w h img img1 r hprev he ih =>
    have hw := reachable_stackWF _ _ _ hprev
    obtain ⟨L, b, hL⟩ := stack_cases img.stateStack hw.1
    have hbp := (hw.2.2 b (by rw [hL]; simp)).1
    rw [pushClip_concat img L b r hL] at he
    rw [← Option.some.inj he]
    have hb := ih b (by rw [hL]; simp)
    intro f hf
    simp only [List.mem_append, List.mem_singleton] at hf
    rcases hf with hf | hf
    · exact ih f (by rw [hL]; exact List.mem_append_left _ hf)
    · subst hf
      refine ⟨hb.1, hb.2.1, hb.2.2.1, ?_, ?_⟩
      · intro p hp
        exact hb.2.2.2.1 p ((overlap_contains_iff _ _ p hbp.1 hbp.2).1 hp).1
      · intro c hc
        simp only [List.mem_append, List.mem_singleton] at hc
        rcases hc with hc | hc
        · exact hb.2.2.2.2 c hc
        · subst hc
          exact hb.2.2.2.1
  | @popClip w h img img1 hprev he ih =>
    have hw := reachable_stackWF _ _ _ hprev
    obtain ⟨L, b, hL⟩ := stack_cases img.stateStack hw.1
    have hb := ih b (by rw [hL]; simp)
    rcases List.eq_nil_or_concat b.clippingStack with hc | ⟨S, c, hc⟩
    · rw [popClip_concat_nil img L b hL hc] at he
      rw [← Option.some.inj he]
      exact ih
    · have hc1 : b.clippingStack = S ++ [c] := by simpa using hc
      rw [popClip_concat_push img L b S c hL hc1] at he
      rw [← Option.some.inj he]
      intro f hf
      simp only [List.mem_append, List.mem_singleton] at hf
      rcases hf with hf | hf
      · exact ih f (by rw [hL]; exact List.mem_append_left _ hf)
      · subst hf
        refine ⟨hb.1, hb.2.1, hb.2.2.1, hb.2.2.2.2 c (by rw [hc1]; simp), ?_⟩
        intro c1 hc1m
        exact hb.2.2.2.2 c1 (by rw [hc1]; exact List.mem_append_left _ hc1m)
  | set p c hprev he ih =>
    rw [(set_sameView _ _ _ _ he).1]
    exact ih
  | fill c hprev he ih =>
    rw [(fill_sameView _ _ _ he).1]
    exact ih
  | hline y x1 x2 t c hprev he ih =>
    rw [(hline_sameView _ _ _ _ _ _ _ he).1]
    exact ih
  | vline x y1 y2 t c hprev he ih =>
    rw [(vline_sameView _ _ _ _ _ _ _ he).1]
    exact ih
  | border c hprev he ih =>
    rw [(border_sameView _ _ _ he).1]
    exact ih
  | blit B p hprev hsrc he ih _ =>
    rw [(blit_sameView B _ _ _ _ he).1]
    exact ih
  | blitSelf B p hprev he ih =>
    rw [(blitSelf_sameView B _ _ _ he).1]
    exact ih
  | repaint pix _ _ ih => exact ih

theorem currentState_sameView (a b : Image) (h : SameView a b) :
    b.currentState = a.currentState := by
  unfold Image.currentState
  rw [h.1]

/-! ## The pixels after `Blit` -/

theorem blitPixel_spec (B : Blend) (sw sh w h : Int) (srcPix : List uint8)
    (srcStride dstStride : Int) (srcCurr : subImageState) (absDstRect : Rectangle)
    (y srcAbsY : Int) (pix : List uint8) (x : Int)
    (hss : srcStride = 4 * sw) (hsl : (srcPix.length : Int) = 4 * sw * sh)
    (hsz : SizeOK sw sh) (hsc : ClipIn sw sh srcCurr.clip)
    (hsy : ¬ (srcAbsY < srcCurr.clip.Y ∨
      srcAbsY ≥ wrap64 (srcCurr.clip.Y + srcCurr.clip.Height)))
    (hds : dstStride = 4 * w) (hdl : (pix.length : Int) = 4 * w * h) (hz : SizeOK w h)
    (hx : 0 ≤ x ∧ x < w) (hy : 0 ≤ y ∧ y < h) :
    ∃ pix1, blitPixel B srcPix srcStride dstStride srcCurr absDstRect y srcAbsY pix x =
        some pix1 ∧ pix1.length = pix.length ∧
      ((¬ (wrap64 (srcCurr.origin.X + wrap64 (x - absDstRect.X)) < srcCurr.clip.X ∨
            wrap64 (srcCurr.origin.X + wrap64 (x - absDstRect.X)) ≥
              wrap64 (srcCurr.clip.X + srcCurr.clip.Width))) →
        pixGet4 pix1 (y * dstStride + x * 4) =
          composeOpt B
            (pixGet4 srcPix (srcAbsY * srcStride +
              wrap64 (srcCurr.origin.X + wrap64 (x - absDstRect.X)) * 4))
            (pixGet4 pix (y * dstStride + x * 4))) ∧
      ((wrap64 (srcCurr.origin.X + wrap64 (x - absDstRect.X)) < srcCurr.clip.X ∨
            wrap64 (srcCurr.origin.X + wrap64 (x - absDstRect.X)) ≥
              wrap64 (srcCurr.clip.X + srcCurr.clip.Width)) →
        pix1 = pix) ∧
      (∀ x1 y1, 0 ≤ x1 → x1 < w → 0 ≤ y1 → y1 < h → ¬ (x1 = x ∧ y1 = y) →
        pixGet4 pix1 (y1 * dstStride + x1 * 4) = pixGet4 pix (y1 * dstStride + x1 * 4)) := by
  unfold blitPixel
  dsimp only
  by_cases hsx : wrap64 (srcCurr.origin.X + wrap64 (x - absDstRect.X)) < srcCurr.clip.X ∨
      wrap64 (srcCurr.origin.X + wrap64 (x - absDstRect.X)) ≥
        wrap64 (srcCurr.clip.X + srcCurr.clip.Width)
  · rw [if_pos hsx]
    exact ⟨pix, rfl, rfl, fun hn => absurd hsx hn, fun _ => rfl, fun _ _ _ _ _ _ _ => rfl⟩
  · rw [if_neg hsx]
    have hc : srcCurr.clip.Contains
        ⟨wrap64 (srcCurr.origin.X + wrap64 (x - absDstRect.X)), srcAbsY⟩ = true := by
      rw [contains_iff]
      dsimp only
      omega
    have hoff := pixel_offset_ok sw sh srcPix srcStride srcCurr.clip _ _ hss hsl hsz hsc hc
    rw [hoff.1]
    obtain ⟨⟨sr, sg, sb, sa⟩, hv⟩ := pixGet4_ok srcPix _ hoff.2.1 hoff.2.2.1 hoff.2.2.2
    have hd0 := offset_ok w h x y hx.1 hx.2 hy.1 hy.2
    have hdw := offset_wrap w h x y hz hx.1 hx.2 hy.1 hy.2
    have hzM := hz.2.2
    have hd : wrap64 (wrap64 (y * dstStride) + wrap64 (x * 4)) = y * dstStride + x * 4 ∧
        0 ≤ y * dstStride + x * 4 ∧ y * dstStride + x * 4 + 3 < pix.length ∧
        y * dstStride + x * 4 + 3 ≤ 9223372036854775807 := by
      rw [hds, hdl]
      exact ⟨hdw, hd0.1, hd0.2, by omega⟩
    obtain ⟨⟨bgR, bgG, bgB, bgA⟩, hbg⟩ := pixGet4_ok pix _ hd.2.1 hd.2.2.1 hd.2.2.2
    have hbg1 : pixGet4 pix (wrap64 (wrap64 (y * dstStride) + wrap64 (x * 4))) =
        some (bgR, bgG, bgB, bgA) := by
      rw [hd.1]
      exact hbg
    simp only [hv, hbg, hbg1, Option.bind_eq_bind, Option.some_bind, Option.pure_def,
      composeOpt, composePx]
    by_cases h0 : sa = 0
    · rw [if_pos h0, if_pos h0]
      exact ⟨pix, rfl, rfl, fun _ => hbg, fun hh => absurd hh hsx,
        fun _ _ _ _ _ _ _ => rfl⟩
    · rw [if_neg h0, if_neg h0]
      by_cases h255 : sa = 255
      · rw [if_pos h255, if_pos h255]
        obtain ⟨q1, e1, l1, g1, f1⟩ := pixel_write w h pix dstStride x y (sr, sg, sb, sa) hds
          hdl hz hx hy
        exact ⟨q1, e1, l1, fun _ => g1, fun hh => absurd hh hsx, f1⟩
      · rw [if_neg h255, if_neg h255]
        obtain ⟨q1, e1, l1, g1, f1⟩ := pixel_write w h pix dstStride x y
          (B.chan sr bgR sa, B.chan sg bgG sa, B.chan sb bgB sa, B.alpha sa bgA) hds hdl hz
          hx hy
        exact ⟨q1, e1, l1, fun _ => g1, fun hh => absurd hh hsx, f1⟩

theorem blitLoop_spec (B : Blend) (sw sh w h : Int) (img src : Image)
    (dstCurr srcCurr : subImageState) (p : Point) (A : Rectangle)
    (hA : A = Rectangle.Add ⟨p.X, p.Y, srcCurr.bounds.Width, srcCurr.bounds.Height⟩
      dstCurr.origin)
    (hss : src.Stride = 4 * sw) (hsl : (src.Pix.length : Int) = 4 * sw * sh)
    (hsz : SizeOK sw sh) (hsc : ClipIn sw sh srcCurr.clip)
    (hds : img.Stride = 4 * w) (hdl : (img.Pix.length : Int) = 4 * w * h) (hz : SizeOK w h)
    (hdc : ClipIn w h dstCurr.clip) (hdp : ClipPos dstCurr.clip) :
    ∃ pix1, blitLoop B false img src dstCurr srcCurr p = some pix1 ∧
      pix1.length = img.Pix.length ∧
      (∀ x y, dstCurr.clip.Contains ⟨x, y⟩ = true → A.Contains ⟨x, y⟩ = true →
        srcCurr.clip.Contains ⟨wrap64 (srcCurr.origin.X + wrap64 (x - A.X)),
          wrap64 (srcCurr.origin.Y + wrap64 (y - A.Y))⟩ = true →
        pixGet4 pix1 (y * img.Stride + x * 4) =
          composeOpt B
            (pixGet4 src.Pix (wrap64 (srcCurr.origin.Y + wrap64 (y - A.Y)) * src.Stride +
              wrap64 (srcCurr.origin.X + wrap64 (x - A.X)) * 4))
            (pixGet4 img.Pix (y * img.Stride + x * 4))) ∧
      (∀ x y, 0 ≤ x → x < w → 0 ≤ y → y < h →
        ¬ (dstCurr.clip.Contains ⟨x, y⟩ = true ∧ A.Contains ⟨x, y⟩ = true ∧
          srcCurr.clip.Contains ⟨wrap64 (srcCurr.origin.X + wrap64 (x - A.X)),
            wrap64 (srcCurr.origin.Y + wrap64 (y - A.Y))⟩ = true) →
        pixGet4 pix1 (y * img.Stride + x * 4) = pixGet4 img.Pix (y * img.Stride + x * 4)) := by
  unfold blitLoop
  simp only [Bool.false_eq_true, ↓reduceIte]
  rw [← hA]
  clear hA
  by_cases he : (dstCurr.clip.Overlap A).Width ≤ 0 ∨ (dstCurr.clip.Overlap A).Height ≤ 0
  · rw [if_pos he]
    have hemp : (dstCurr.clip.Overlap A).isEmpty = true := by
      simpa [Rectangle.isEmpty] using he
    refine ⟨img.Pix, rfl, rfl, ?_, fun _ _ _ _ _ _ _ => rfl⟩
    intro x y h1 h2 _
    exact absurd ⟨h1, h2⟩ (overlap_not_contains_of_empty _ _ hdp.1 hdp.2 hemp ⟨x, y⟩)
  · rw [if_neg he]
    have houter := foldlM_cells (fun q : List uint8 => q.length = img.Pix.length)
      (fun q (k : Int × Int) => pixGet4 q (k.2 * img.Stride + k.1 * 4))
      (fun k => (0 ≤ k.1 ∧ k.1 < w) ∧ (0 ≤ k.2 ∧ k.2 < h))
      (fun y k => k.2 = y ∧
        ((dstCurr.clip.Overlap A).X ≤ k.1 ∧
          k.1 < wrap64 ((dstCurr.clip.Overlap A).X + (dstCurr.clip.Overlap A).Width)) ∧
        srcCurr.clip.Contains ⟨wrap64 (srcCurr.origin.X + wrap64 (k.1 - A.X)),
          wrap64 (srcCurr.origin.Y + wrap64 (k.2 - A.Y))⟩ = true)
      (fun k v => composeOpt B
        (pixGet4 src.Pix (wrap64 (srcCurr.origin.Y + wrap64 (k.2 - A.Y)) * src.Stride +
          wrap64 (srcCurr.origin.X + wrap64 (k.1 - A.X)) * 4)) v)
      (fun pix y =>
        if wrap64 (srcCurr.origin.Y + wrap64 (y - A.Y)) < srcCurr.clip.Y ∨
            wrap64 (srcCurr.origin.Y + wrap64 (y - A.Y)) ≥
              wrap64 (srcCurr.clip.Y + srcCurr.clip.Height) then
          pure pix
        else
          (intRange (dstCurr.clip.Overlap A).X
            (wrap64 ((dstCurr.clip.Overlap A).X + (dstCurr.clip.Overlap A).Width))).foldlM
            (fun pix x => blitPixel B src.Pix src.Stride img.Stride srcCurr A y
              (wrap64 (srcCurr.origin.Y + wrap64 (y - A.Y))) pix x) pix)
      (intRange (dstCurr.clip.Overlap A).Y
        (wrap64 ((dstCurr.clip.Overlap A).Y + (dstCurr.clip.Overlap A).Height)))
      (intRange_pairwise _ _ _ (by
        intro a b hab k hk hk1
        exact hab (hk.1.symm.trans hk1.1)))
      (by
        intro q hq y hy
        beta_reduce
        by_cases hsy : wrap64 (srcCurr.origin.Y + wrap64 (y - A.Y)) < srcCurr.clip.Y ∨
            wrap64 (srcCurr.origin.Y + wrap64 (y - A.Y)) ≥
              wrap64 (srcCurr.clip.Y + srcCurr.clip.Height)
        · rw [if_pos hsy]
          refine ⟨q, rfl, hq, ?_, fun _ _ _ => rfl⟩
          rintro ⟨k1, k2⟩ _ ⟨hk2, _, hc⟩
          exfalso
          rw [contains_iff] at hc
          dsimp only at hc hk2
          subst hk2
          omega
        · rw [if_neg hsy]
          have hinner := foldlM_cells (fun q : List uint8 => q.length = img.Pix.length)
            (fun q (k : Int × Int) => pixGet4 q (k.2 * img.Stride + k.1 * 4))
            (fun k => (0 ≤ k.1 ∧ k.1 < w) ∧ (0 ≤ k.2 ∧ k.2 < h))
            (fun x k => k.1 = x ∧ k.2 = y ∧
              ¬ (wrap64 (srcCurr.origin.X + wrap64 (x - A.X)) < srcCurr.clip.X ∨
                wrap64 (srcCurr.origin.X + wrap64 (x - A.X)) ≥
                  wrap64 (srcCurr.clip.X + srcCurr.clip.Width)))
            (fun k v => composeOpt B
              (pixGet4 src.Pix (wrap64 (srcCurr.origin.Y + wrap64 (k.2 - A.Y)) * src.Stride +
                wrap64 (srcCurr.origin.X + wrap64 (k.1 - A.X)) * 4)) v)
            (fun pix x => blitPixel B src.Pix src.Stride img.Stride srcCurr A y
              (wrap64 (srcCurr.origin.Y + wrap64 (y - A.Y))) pix x)
            (intRange (dstCurr.clip.Overlap A).X
              (wrap64 ((dstCurr.clip.Overlap A).X + (dstCurr.clip.Overlap A).Width)))
            (intRange_pairwise _ _ _ (by
              intro a b hab k hk hk1
              exact hab (hk.1.symm.trans hk1.1)))
            (by
              intro q1 hq1 x hx
              beta_reduce
              rw [mem_intRange] at hx hy
              have hc : (dstCurr.clip.Overlap A).Contains ⟨x, y⟩ = true := by
                rw [contains_iff]
                dsimp only
                omega
              have hin := hdc ⟨x, y⟩ ((overlap_contains_iff _ _ _ hdp.1 hdp.2).1 hc).1
              dsimp only at hin
              obtain ⟨q2, e2, l2, g2, s2, f2⟩ := blitPixel_spec B sw sh w h src.Pix src.Stride
                img.Stride srcCurr A y (wrap64 (srcCurr.origin.Y + wrap64 (y - A.Y))) q1 x
                hss hsl hsz hsc hsy hds
                (by rw [hq1]; exact hdl) hz ⟨hin.1, hin.2.1⟩ ⟨hin.2.2.1, hin.2.2.2⟩
              refine ⟨q2, e2, l2.trans hq1, ?_, ?_⟩
              · rintro ⟨k1, k2⟩ _ ⟨rfl, rfl, hcol⟩
                exact g2 hcol
              · rintro ⟨k1, k2⟩ hk hne
                by_cases hkk : k1 = x ∧ k2 = y
                · obtain ⟨rfl, rfl⟩ := hkk
                  have hcol : wrap64 (srcCurr.origin.X + wrap64 (k1 - A.X)) < srcCurr.clip.X ∨
                      wrap64 (srcCurr.origin.X + wrap64 (k1 - A.X)) ≥
                        wrap64 (srcCurr.clip.X + srcCurr.clip.Width) := by
                    by_contra hcon
                    exact hne ⟨rfl, rfl, hcon⟩
                  rw [s2 hcol]
                · exact f2 k1 k2 hk.1.1 hk.1.2 hk.2.1 hk.2.2 hkk)
            q hq
          obtain ⟨q1, e1, l1, g1, f1⟩ := hinner
          refine ⟨q1, e1, l1, ?_, ?_⟩
          · rintro ⟨k1, k2⟩ hk ⟨hk2, hrange, hc⟩
            apply g1 (k1, k2) hk
            refine ⟨k1, (mem_intRange _ _ _).2 hrange, rfl, hk2, ?_⟩
            rw [contains_iff] at hc
            dsimp only at hc
            omega
          · rintro ⟨k1, k2⟩ hk hne
            apply f1 (k1, k2) hk
            rintro ⟨a, ha, h1, h2, h3⟩
            rw [mem_intRange] at ha
            dsimp only at h1 h2
            subst h1 h2
            apply hne
            refine ⟨rfl, ha, ?_⟩
            rw [contains_iff]
            dsimp only
            omega)
      img.Pix rfl
    obtain ⟨pix1, e1, l1, g1, f1⟩ := houter
    refine ⟨pix1, e1, l1, ?_, ?_⟩
    · intro x y hc hA1 hs
      have hp := hdc ⟨x, y⟩ hc
      have ho := (overlap_contains_iff dstCurr.clip A ⟨x, y⟩ hdp.1 hdp.2).2 ⟨hc, hA1⟩
      rw [contains_iff] at ho
      dsimp only at ho hp
      exact g1 (x, y) ⟨⟨hp.1, hp.2.1⟩, hp.2.2.1, hp.2.2.2⟩
        ⟨y, (mem_intRange _ _ _).2 ⟨ho.2.2.1, ho.2.2.2⟩, rfl, ⟨ho.1, ho.2.1⟩, hs⟩
    · intro x y h0 h1 h2 h3 hn
      apply f1 (x, y) ⟨⟨h0, h1⟩, h2, h3⟩
      rintro ⟨a, ha, h2, h3, h4⟩
      rw [mem_intRange] at ha
      dsimp only at h2 h3 h4
      subst h2
      apply hn
      have ho : (dstCurr.clip.Overlap A).Contains ⟨x, y⟩ = true := by
        rw [contains_iff]
        dsimp only
        omega
      exact ⟨((overlap_contains_iff _ _ _ hdp.1 hdp.2).1 ho).1,
        ((overlap_contains_iff _ _ _ hdp.1 hdp.2).1 ho).2, h4⟩

theorem blitPixel_transparent (B : Blend) (srcPix : List uint8) (srcStride dstStride : Int)
    (srcCurr : subImageState) (absDstRect : Rectangle) (y srcAbsY : Int) (pix : List uint8)
    (x : Int)
    (h0 : ¬ (wrap64 (srcCurr.origin.X + wrap64 (x - absDstRect.X)) < srcCurr.clip.X ∨
        wrap64 (srcCurr.origin.X + wrap64 (x - absDstRect.X)) ≥
          wrap64 (srcCurr.clip.X + srcCurr.clip.Width)) →
      ∃ r g b, pixGet4 srcPix (wrap64 (wrap64 (srcAbsY * srcStride) +
        wrap64 (wrap64 (srcCurr.origin.X + wrap64 (x - absDstRect.X)) * 4))) =
          some (r, g, b, 0)) :
    blitPixel B srcPix srcStride dstStride srcCurr absDstRect y srcAbsY pix x = some pix := by
  unfold blitPixel
  dsimp only
  split
  · rfl
  · rename_i hsx
    obtain ⟨r, g, b, hv⟩ := h0 hsx
    simp [hv]

theorem foldlM_id {α β : Type} (f : β → α → Option β) (l : List α)
    (h : ∀ b, ∀ a ∈ l, f b a = some b) : ∀ b, l.foldlM f b = some b := by
  induction l with
  | nil =>
    intro b
    rfl
  | cons a l ih =>
    intro b
    rw [List.foldlM_cons, h b a (List.mem_cons_self a l)]
    exact ih (fun b a ha => h b a (List.mem_cons_of_mem _ ha)) b

/-- A source whose loads inside its clip all give alpha 0 leaves the destination buffer
as it was; no assumption is made on the size of either canvas. -/
theorem blitLoop_transparent (B : Blend) (img src : Image) (dstCurr srcCurr : subImageState)
    (p : Point)
    (h0 : ∀ sx sy, srcCurr.clip.Contains ⟨sx, sy⟩ = true →
      ∃ r g b, pixGet4 src.Pix (wrap64 (wrap64 (sy * src.Stride) + wrap64 (sx * 4))) =
        some (r, g, b, 0)) :
    blitLoop B false img src dstCurr srcCurr p = some img.Pix := by
  unfold blitLoop
  dsimp only
  split
  · rfl
  · apply foldlM_id
    intro q y _
    split
    · rfl
    · rename_i hsy
      apply foldlM_id
      intro q1 x _
      simp only [Bool.false_eq_true, ↓reduceIte]
      apply blitPixel_transparent
      intro hsx
      apply h0
      rw [contains_iff]
      dsimp only
      omega

theorem pixGet_replicate (n : Nat) (off : Int) (v : uint8)
    (h : pixGet (List.replicate n 0) off = some v) : v = 0 := by
  unfold pixGet at h
  split at h
  · rw [List.getElem?_replicate] at h
    split at h
    · exact (Option.some.inj h).symm
    · exact Option.noConfusion h
  · exact Option.noConfusion h

theorem pixGet4_replicate (n : Nat) (off : Int) (v : Px)
    (h : pixGet4 (List.replicate n 0) off = some v) : v = (0, 0, 0, 0) := by
  unfold pixGet4 at h
  simp only [Option.bind_eq_bind, Option.bind_eq_some, Option.pure_def, Option.some.injEq] at h
  obtain ⟨r, hr, g, hg, b, hb, a, ha, rfl⟩ := h
  rw [pixGet_replicate _ _ _ hr, pixGet_replicate _ _ _ hg, pixGet_replicate _ _ _ hb,
    pixGet_replicate _ _ _ ha]

theorem pixel_some (w h : Int) (img : Image) (hz : SizeOK w h) (hw : WF w h img) (x y : Int)
    (hx : 0 ≤ x ∧ x < w) (hy : 0 ≤ y ∧ y < h) : ∃ v, img.pixel x y = some v := by
  unfold Image.pixel
  have hoff : 0 ≤ y * img.Stride + x * 4 ∧ y * img.Stride + x * 4 + 3 < img.Pix.length := by
    rw [hw.1, hw.2.1]
    exact offset_ok w h x y hx.1 hx.2 hy.1 hy.2
  have hM : y * img.Stride + x * 4 + 3 ≤ 9223372036854775807 := by
    have := hz.2.2
    have := hw.2.1
    omega
  exact pixGet4_ok img.Pix _ hoff.1 hoff.2 hM

theorem blit_spec (B : Blend) (sw sh w h : Int) (img src : Image) (p : Point)
    (hz : SizeOK w h) (hsz : SizeOK sw sh) (hw : WF w h img) (hsrc : WF sw sh src) :
    ∃ dstCurr srcCurr img1, img.currentState = some dstCurr ∧
      src.currentState = some srcCurr ∧ Image.Blit B img src p = some img1 ∧
      SameView img img1 ∧
      (∀ x y, dstCurr.clip.Contains ⟨x, y⟩ = true →
        (Rectangle.Add ⟨p.X, p.Y, srcCurr.bounds.Width, srcCurr.bounds.Height⟩
          dstCurr.origin).Contains ⟨x, y⟩ = true →
        srcCurr.clip.Contains (srcCurr.origin.Add (Point.Sub ⟨x, y⟩ (p.Add dstCurr.origin))) =
          true →
        img1.pixel x y =
          composeOpt B
            (src.pixel (srcCurr.origin.Add (Point.Sub ⟨x, y⟩ (p.Add dstCurr.origin))).X
              (srcCurr.origin.Add (Point.Sub ⟨x, y⟩ (p.Add dstCurr.origin))).Y)
            (img.pixel x y)) ∧
      (∀ x y, 0 ≤ x → x < w → 0 ≤ y → y < h →
        ¬ (dstCurr.clip.Contains ⟨x, y⟩ = true ∧
          (Rectangle.Add ⟨p.X, p.Y, srcCurr.bounds.Width, srcCurr.bounds.Height⟩
            dstCurr.origin).Contains ⟨x, y⟩ = true ∧
          srcCurr.clip.Contains (srcCurr.origin.Add (Point.Sub ⟨x, y⟩ (p.Add dstCurr.origin))) =
            true) →
        img1.pixel x y = img.pixel x y) ∧
      ((∀ sx sy, srcCurr.clip.Contains ⟨sx, sy⟩ = true →
          ∃ r g b, src.pixel sx sy = some (r, g, b, 0)) → img1 = img) := by
  obtain ⟨dstCurr, hdcur, hdf⟩ := wf_current w h img hw
  obtain ⟨srcCurr, hscur, hsf⟩ := wf_current sw sh src hsrc
  obtain ⟨h1, h2, _, _, _, _⟩ := hw
  obtain ⟨s1, s2, _, _, _, _⟩ := hsrc
  obtain ⟨q, hq, hlen, hg, hu⟩ := blitLoop_spec B sw sh w h img src dstCurr srcCurr p _ rfl
    s1 s2 hsz hsf.1.1 h1 h2 hz hdf.1.1 hdf.1.2.1
  refine ⟨dstCurr, srcCurr, { img with Pix := q }, hdcur, hscur, ?_, ⟨rfl, rfl, rfl, hlen⟩,
    hg, hu, ?_⟩
  · unfold Image.Blit
    simp only [hdcur, hscur, Option.bind_eq_bind, Option.some_bind, Option.pure_def, hq]
  · intro h0
    have := blitLoop_transparent B img src dstCurr srcCurr p (by
      intro sx sy hc
      obtain ⟨r, g, b, hv⟩ := h0 sx sy hc
      have hoff := pixel_offset_ok sw sh src.Pix src.Stride srcCurr.clip sx sy s1 s2 hsz
        hsf.1.1 hc
      rw [hoff.1]
      exact ⟨r, g, b, hv⟩)
    rw [hq] at this
    rw [Option.some.inj this]

theorem opaque1_reachable : Reachable 1 1 opaque1 :=
  @Reachable.set 1 1 ⟨List.replicate 4 0, 4, ⟨0, 0, 1, 1⟩,
    [⟨⟨0, 0⟩, ⟨0, 0, 1, 1⟩, ⟨0, 0, 1, 1⟩, []⟩]⟩ opaque1 ⟨0, 0⟩ ⟨7, 8, 9, 255⟩
    (Reachable.newImage (by decide)) (by decide)

theorem composeOpt_opaque (B : Blend) (r g b : uint8) (bg : Px) :
    composeOpt B (some (r, g, b, 255)) (some bg) = some (r, g, b, 255) := by
  simp [composeOpt, composePx]

theorem composeOpt_transparent (B : Blend) (r g b : uint8) (bg : Px) :
    composeOpt B (some (r, g, b, 0)) (some bg) = some bg := by
  simp [composeOpt, composePx]

/-! ## `DrawImageScaled`: degenerate scales and the two fetch paths -/

set_option maxRecDepth 100000 in

theorem u8_roundtrip : ∀ v : uint8, toUint8 ((v.val ||| (v.val <<< 8)) >>> 8) = v := by
  decide

/-- An overlap with a rectangle that has no row has no row, when the first rectangle
starts at a non-negative `Y`, as every clip of a canvas does. -/
theorem overlap_rows_empty (a b : Rectangle) (hy : 0 ≤ a.Y)
    (hb : wrap64 (b.Y + b.Height) ≤ b.Y) :
    wrap64 ((a.Overlap b).Y + (a.Overlap b).Height) ≤ (a.Overlap b).Y := by
  simp only [Rectangle.Overlap]
  revert hb
  unfold wrap64
  omega

theorem overlap_columns_empty (a b : Rectangle) (hx : 0 ≤ a.X)
    (hb : wrap64 (b.X + b.Width) ≤ b.X) :
    wrap64 ((a.Overlap b).X + (a.Overlap b).Width) ≤ (a.Overlap b).X := by
  simp only [Rectangle.Overlap]
  revert hb
  unfold wrap64
  omega

/-- When the draw rectangle has no row, `DrawImageScaled` evaluates no division and
stores nothing. -/
theorem drawImageScaled_no_rows (B : Blend) (img : Image) (curr : subImageState)
    (src : image.Image) (p : Point) (scale : Int) (hcur : img.currentState = some curr)
    (hp : 0 ≤ curr.clip.Y)
    (he : wrap64 ((p.Add curr.origin).Y + wrap64 (src.Bounds.Dy * scale)) ≤
      (p.Add curr.origin).Y) :
    Image.DrawImageScaled B img src p scale = some img := by
  unfold Image.DrawImageScaled scaledLoop
  simp only [hcur, Option.bind_eq_bind, Option.some_bind, Option.pure_def]
  have hrows := overlap_rows_empty curr.clip (Rectangle.Add ⟨p.X, p.Y,
    wrap64 (src.Bounds.Dx * scale), wrap64 (src.Bounds.Dy * scale)⟩ curr.origin) hp he
  split
  · rfl
  · rw [intRange_empty _ _ hrows]
    rfl

/-- When the draw rectangle has no column, `DrawImageScaled` with a scale other than
zero stores nothing. -/
theorem drawImageScaled_no_columns (B : Blend) (img : Image) (curr : subImageState)
    (src : image.Image) (p : Point) (scale : Int) (hcur : img.currentState = some curr)
    (hp : 0 ≤ curr.clip.X) (hs : scale ≠ 0)
    (he : wrap64 ((p.Add curr.origin).X + wrap64 (src.Bounds.Dx * scale)) ≤
      (p.Add curr.origin).X) :
    Image.DrawImageScaled B img src p scale = some img := by
  unfold Image.DrawImageScaled scaledLoop
  simp only [hcur, Option.bind_eq_bind, Option.some_bind, Option.pure_def]
  have hcols := overlap_columns_empty curr.clip (Rectangle.Add ⟨p.X, p.Y,
    wrap64 (src.Bounds.Dx * scale), wrap64 (src.Bounds.Dy * scale)⟩ curr.origin) hp he
  split
  · rfl
  · rw [intRange_empty _ _ hcols]
    rw [foldlM_id _ _ (by
      intro b a _
      simp only [goDiv, if_neg hs, Option.bind_eq_bind, Option.some_bind, List.foldlM_nil,
        Option.pure_def]
      split <;> rfl)]
    rfl

theorem fetch_paths_agree (m : image.RGBA) (srcX srcY : Int)
    (hmin : m.Rect.Min = ⟨0, 0⟩) (hI : I64 m.Rect.Max.X ∧ I64 m.Rect.Max.Y)
    (hx : 0 ≤ srcX ∧ srcX < m.Rect.Dx) (hy : 0 ≤ srcY ∧ srcY < m.Rect.Dy) :
    fetchDirect m m.Rect srcX srcY = fetchGeneral (.rgba m) m.Rect srcX srcY := by
  have hX : m.Rect.Min.X = 0 := by rw [hmin]
  have hY : m.Rect.Min.Y = 0 := by rw [hmin]
  simp only [image.Rectangle.Dx, image.Rectangle.Dy, hX, hY, sub_zero] at hx hy
  rw [wrap64_of_I64 _ hI.1] at hx
  rw [wrap64_of_I64 _ hI.2] at hy
  have hwx : wrap64 srcX = srcX := by
    apply wrap64_of_I64
    unfold I64 at hI ⊢
    omega
  have hwy : wrap64 srcY = srcY := by
    apply wrap64_of_I64
    unfold I64 at hI ⊢
    omega
  have hin : image.Point.In ⟨srcX, srcY⟩ m.Rect = true := by
    simp only [image.Point.In, Bool.and_eq_true, decide_eq_true_eq]
    omega
  unfold fetchDirect fetchGeneral image.Image.AtRGBA image.RGBA.RGBAAt
  simp only [hX, hY, zero_add, sub_zero, image.RGBA.PixOffset, hin, Bool.not_true,
    Bool.false_eq_true, ↓reduceIte, Option.bind_eq_bind, Option.pure_def, hwx, hwy]
  cases pixGet4 m.Pix (wrap64 (wrap64 (srcY * m.Stride) + wrap64 (srcX * 4))) with
  | none => rfl
  | some v =>
    obtain ⟨r, g, b, a⟩ := v
    simp [color.RGBA.RGBA, u8_roundtrip]

/-! ## The pixels after `DrawImageScaled` -/

theorem goDiv_pos (a b : Int) (ha : 0 ≤ a) (hb : 1 ≤ b) (hM : a ≤ 9223372036854775807) :
    goDiv a b = some (a / b) := by
  unfold goDiv
  rw [if_neg (by omega), Int.tdiv_eq_ediv ha (by omega)]
  have h0 : 0 ≤ a / b := Int.ediv_nonneg ha (by omega)
  have h1 : a / b ≤ a := Int.ediv_le_self b ha
  rw [wrap64_of_I64]
  unfold I64
  omega

theorem div_scale_range (a n scale : Int) (ha : 0 ≤ a) (hlt : a < n * scale)
    (hs : 1 ≤ scale) : 0 ≤ a / scale ∧ a / scale < n :=
  ⟨Int.ediv_nonneg ha (by omega), Int.ediv_lt_of_lt_mul (by omega) hlt⟩

theorem scaledPixel_spec (B : Blend) (src : image.Image) (bounds : image.Rectangle)
    (srcW w h dstStride scale : Int) (A : Rectangle) (y srcY : Int) (pix : List uint8)
    (x : Int) (hscale : 1 ≤ scale) (hrel : 0 ≤ x - A.X ∧ x - A.X < srcW * scale)
    (hM : srcW * scale ≤ 9223372036854775807)
    (hf : ∃ v, fetchPixel src bounds ((x - A.X) / scale) srcY = some v)
    (hds : dstStride = 4 * w) (hdl : (pix.length : Int) = 4 * w * h) (hz : SizeOK w h)
    (hx : 0 ≤ x ∧ x < w) (hy : 0 ≤ y ∧ y < h) :
    ∃ pix1, scaledPixel B src bounds srcW dstStride scale A y srcY pix x = some pix1 ∧
      pix1.length = pix.length ∧
      pixGet4 pix1 (y * dstStride + x * 4) =
        composeOpt B (fetchPixel src bounds ((x - A.X) / scale) srcY)
          (pixGet4 pix (y * dstStride + x * 4)) ∧
      ∀ x1 y1, 0 ≤ x1 → x1 < w → 0 ≤ y1 → y1 < h → ¬ (x1 = x ∧ y1 = y) →
        pixGet4 pix1 (y1 * dstStride + x1 * 4) = pixGet4 pix (y1 * dstStride + x1 * 4) := by
  unfold scaledPixel
  have hr := div_scale_range _ _ _ hrel.1 hrel.2 hscale
  obtain ⟨⟨r, g, b, a⟩, hv⟩ := hf
  have hwr : wrap64 (x - A.X) = x - A.X := by
    apply wrap64_of_I64
    unfold I64
    omega
  have hd0 := offset_ok w h x y hx.1 hx.2 hy.1 hy.2
  have hdw := offset_wrap w h x y hz hx.1 hx.2 hy.1 hy.2
  have hzM := hz.2.2
  have hd : wrap64 (wrap64 (y * dstStride) + wrap64 (x * 4)) = y * dstStride + x * 4 ∧
      0 ≤ y * dstStride + x * 4 ∧ y * dstStride + x * 4 + 3 < pix.length ∧
      y * dstStride + x * 4 + 3 ≤ 9223372036854775807 := by
    rw [hds, hdl]
    exact ⟨hdw, hd0.1, hd0.2, by omega⟩
  obtain ⟨⟨bgR, bgG, bgB, bgA⟩, hbg⟩ := pixGet4_ok pix _ hd.2.1 hd.2.2.1 hd.2.2.2
  have hbg1 : pixGet4 pix (wrap64 (wrap64 (y * dstStride) + wrap64 (x * 4))) =
      some (bgR, bgG, bgB, bgA) := by
    rw [hd.1]
    exact hbg
  simp only [hwr, goDiv_pos _ _ hrel.1 hscale (by omega), Option.bind_eq_bind,
    Option.some_bind, Option.pure_def,
    if_neg (show ¬ ((x - A.X) / scale < 0 ∨ (x - A.X) / scale ≥ srcW) by omega),
    hv, hbg, hbg1, composeOpt, composePx]
  by_cases h0 : a = 0
  · rw [if_pos h0, if_pos h0]
    exact ⟨pix, rfl, rfl, hbg, fun _ _ _ _ _ _ _ => rfl⟩
  · rw [if_neg h0, if_neg h0]
    by_cases h255 : a = 255
    · rw [if_pos h255, if_pos h255]
      exact pixel_write w h pix dstStride x y (r, g, b, a) hds hdl hz hx hy
    · rw [if_neg h255, if_neg h255]
      exact pixel_write w h pix dstStride x y
        (B.chan r bgR a, B.chan g bgG a, B.chan b bgB a, B.alpha a bgA) hds hdl hz hx hy

theorem scaledLoop_spec (B : Blend) (w h : Int) (img : Image) (src : image.Image)
    (curr : subImageState) (p : Point) (scale : Int) (A : Rectangle)
    (hA : A = Rectangle.Add ⟨p.X, p.Y, wrap64 (src.Bounds.Dx * scale),
      wrap64 (src.Bounds.Dy * scale)⟩ curr.origin)
    (hscale : 1 ≤ scale)
    (hAW : I64 (src.Bounds.Dx * scale) ∧ I64 (A.X + src.Bounds.Dx * scale))
    (hAH : I64 (src.Bounds.Dy * scale) ∧ I64 (A.Y + src.Bounds.Dy * scale))
    (hf : ∀ sx sy, 0 ≤ sx → sx < src.Bounds.Dx → 0 ≤ sy → sy < src.Bounds.Dy →
      ∃ v, fetchPixel src src.Bounds sx sy = some v)
    (hds : img.Stride = 4 * w) (hdl : (img.Pix.length : Int) = 4 * w * h) (hz : SizeOK w h)
    (hdc : ClipIn w h curr.clip) (hdp : ClipPos curr.clip) :
    ∃ pix1, scaledLoop B img src curr p scale = some pix1 ∧
      pix1.length = img.Pix.length ∧
      (∀ x y, curr.clip.Contains ⟨x, y⟩ = true → A.Contains ⟨x, y⟩ = true →
        pixGet4 pix1 (y * img.Stride + x * 4) =
          composeOpt B
            (fetchPixel src src.Bounds ((x - A.X) / scale) ((y - A.Y) / scale))
            (pixGet4 img.Pix (y * img.Stride + x * 4))) ∧
      (∀ x y, 0 ≤ x → x < w → 0 ≤ y → y < h →
        ¬ (curr.clip.Contains ⟨x, y⟩ = true ∧ A.Contains ⟨x, y⟩ = true) →
        pixGet4 pix1 (y * img.Stride + x * 4) = pixGet4 img.Pix (y * img.Stride + x * 4)) := by
  unfold scaledLoop
  dsimp only
  have hW : A.Width = src.Bounds.Dx * scale := by
    rw [hA]
    exact wrap64_of_I64 _ hAW.1
  have hH : A.Height = src.Bounds.Dy * scale := by
    rw [hA]
    exact wrap64_of_I64 _ hAH.1
  rw [← hA]
  clear hA
  by_cases he : (curr.clip.Overlap A).Width ≤ 0 ∨ (curr.clip.Overlap A).Height ≤ 0
  · rw [if_pos he]
    have hemp : (curr.clip.Overlap A).isEmpty = true := by
      simpa [Rectangle.isEmpty] using he
    refine ⟨img.Pix, rfl, rfl, ?_, fun _ _ _ _ _ _ _ => rfl⟩
    intro x y h1 h2
    exact absurd ⟨h1, h2⟩ (overlap_not_contains_of_empty _ _ hdp.1 hdp.2 hemp ⟨x, y⟩)
  · rw [if_neg he]
    have hrange : ∀ x y, (curr.clip.Overlap A).Contains ⟨x, y⟩ = true →
        (0 ≤ x - A.X ∧ x - A.X < src.Bounds.Dx * scale) ∧
        (0 ≤ y - A.Y ∧ y - A.Y < src.Bounds.Dy * scale) ∧
        (0 ≤ x ∧ x < w) ∧ (0 ≤ y ∧ y < h) := by
      intro x y hc
      have h2 := (overlap_contains_iff _ _ _ hdp.1 hdp.2).1 hc
      have hp := hdc ⟨x, y⟩ h2.1
      have hA2 := h2.2
      rw [contains_iff] at hA2
      dsimp only at hp hA2
      rw [hW, wrap64_of_I64 _ hAW.2, hH, wrap64_of_I64 _ hAH.2] at hA2
      omega
    have hMW : src.Bounds.Dx * scale ≤ 9223372036854775807 := hAW.1.2
    have hMH : src.Bounds.Dy * scale ≤ 9223372036854775807 := hAH.1.2
    have houter := foldlM_cells (fun q : List uint8 => q.length = img.Pix.length)
      (fun q (k : Int × Int) => pixGet4 q (k.2 * img.Stride + k.1 * 4))
      (fun k => (0 ≤ k.1 ∧ k.1 < w) ∧ (0 ≤ k.2 ∧ k.2 < h))
      (fun y k => k.2 = y ∧
        ((curr.clip.Overlap A).X ≤ k.1 ∧
          k.1 < wrap64 ((curr.clip.Overlap A).X + (curr.clip.Overlap A).Width)))
      (fun k v => composeOpt B
        (fetchPixel src src.Bounds ((k.1 - A.X) / scale) ((k.2 - A.Y) / scale)) v)
      (fun pix y => do
        let srcY ← goDiv (wrap64 (y - A.Y)) scale
        if srcY < 0 ∨ srcY ≥ src.Bounds.Dy then pure pix
        else
          (intRange (curr.clip.Overlap A).X
            (wrap64 ((curr.clip.Overlap A).X + (curr.clip.Overlap A).Width))).foldlM
            (fun pix x =>
              scaledPixel B src src.Bounds src.Bounds.Dx img.Stride scale A y srcY pix x) pix)
      (intRange (curr.clip.Overlap A).Y
        (wrap64 ((curr.clip.Overlap A).Y + (curr.clip.Overlap A).Height)))
      (intRange_pairwise _ _ _ (by
        intro a b hab k hk hk1
        exact hab (hk.1.symm.trans hk1.1)))
      (by
        intro q hq y hy
        beta_reduce
        rw [mem_intRange] at hy
        by_cases hxne : (curr.clip.Overlap A).X <
            wrap64 ((curr.clip.Overlap A).X + (curr.clip.Overlap A).Width)
        · have hfirst := hrange (curr.clip.Overlap A).X y (by
            rw [contains_iff]
            dsimp only
            omega)
          have hry := div_scale_range _ _ _ hfirst.2.1.1 hfirst.2.1.2 hscale
          have hwy : wrap64 (y - A.Y) = y - A.Y := by
            apply wrap64_of_I64
            unfold I64
            omega
          simp only [hwy, goDiv_pos _ _ hfirst.2.1.1 hscale (by omega), Option.bind_eq_bind,
            Option.some_bind,
            if_neg (show ¬ ((y - A.Y) / scale < 0 ∨ (y - A.Y) / scale ≥ src.Bounds.Dy) by
              omega)]
          have hinner := foldlM_cells (fun q : List uint8 => q.length = img.Pix.length)
            (fun q (k : Int × Int) => pixGet4 q (k.2 * img.Stride + k.1 * 4))
            (fun k => (0 ≤ k.1 ∧ k.1 < w) ∧ (0 ≤ k.2 ∧ k.2 < h))
            (fun x k => k.1 = x ∧ k.2 = y)
            (fun k v => composeOpt B
              (fetchPixel src src.Bounds ((k.1 - A.X) / scale) ((k.2 - A.Y) / scale)) v)
            (fun pix x => scaledPixel B src src.Bounds src.Bounds.Dx img.Stride scale A y
              ((y - A.Y) / scale) pix x)
            (intRange (curr.clip.Overlap A).X
              (wrap64 ((curr.clip.Overlap A).X + (curr.clip.Overlap A).Width)))
            (intRange_pairwise _ _ _ (by
              intro a b hab k hk hk1
              exact hab (hk.1.symm.trans hk1.1)))
            (by
              intro q1 hq1 x hx
              beta_reduce
              rw [mem_intRange] at hx
              have hc : (curr.clip.Overlap A).Contains ⟨x, y⟩ = true := by
                rw [contains_iff]
                dsimp only
                omega
              have hxy := hrange x y hc
              have hrx := div_scale_range _ _ _ hxy.1.1 hxy.1.2 hscale
              obtain ⟨q2, e2, l2, g2, f2⟩ := scaledPixel_spec B src src.Bounds src.Bounds.Dx
                w h img.Stride scale A y ((y - A.Y) / scale) q1 x hscale hxy.1 hMW
                (hf _ _ hrx.1 hrx.2 hry.1 hry.2) hds (by rw [hq1]; exact hdl) hz hxy.2.2.1
                hxy.2.2.2
              refine ⟨q2, e2, l2.trans hq1, ?_, ?_⟩
              · rintro ⟨k1, k2⟩ _ ⟨rfl, rfl⟩
                exact g2
              · rintro ⟨k1, k2⟩ hk hne
                exact f2 k1 k2 hk.1.1 hk.1.2 hk.2.1 hk.2.2 hne)
            q hq
          obtain ⟨q1, e1, l1, g1, f1⟩ := hinner
          refine ⟨q1, e1, l1, ?_, ?_⟩
          · rintro ⟨k1, k2⟩ hk ⟨hk2, hlo, hhi⟩
            exact g1 (k1, k2) hk ⟨k1, (mem_intRange _ _ _).2 ⟨hlo, hhi⟩, rfl, hk2⟩
          · rintro ⟨k1, k2⟩ hk hne
            apply f1 (k1, k2) hk
            rintro ⟨a, ha, h1, h2⟩
            rw [mem_intRange] at ha
            dsimp only at h1 h2
            exact hne ⟨h2, by omega, by omega⟩
        · rw [intRange_empty _ _ (by omega)]
          refine ⟨q, ?_, hq, ?_, fun _ _ _ => rfl⟩
          · unfold goDiv
            rw [if_neg (by omega)]
            simp only [Option.bind_eq_bind, Option.some_bind, List.foldlM_nil,
              Option.pure_def]
            split <;> rfl
          · rintro ⟨k1, k2⟩ _ ⟨_, hlo, hhi⟩
            exfalso
            dsimp only at hlo hhi
            omega)
      img.Pix rfl
    obtain ⟨pix1, e1, l1, g1, f1⟩ := houter
    refine ⟨pix1, e1, l1, ?_, ?_⟩
    · intro x y hc hA1
      have hp := hdc ⟨x, y⟩ hc
      have ho := (overlap_contains_iff curr.clip A ⟨x, y⟩ hdp.1 hdp.2).2 ⟨hc, hA1⟩
      rw [contains_iff] at ho
      dsimp only at ho hp
      exact g1 (x, y) ⟨⟨hp.1, hp.2.1⟩, hp.2.2.1, hp.2.2.2⟩
        ⟨y, (mem_intRange _ _ _).2 ⟨ho.2.2.1, ho.2.2.2⟩, rfl, ⟨ho.1, ho.2.1⟩⟩
    · intro x y h0 h1 h2 h3 hn
      apply f1 (x, y) ⟨⟨h0, h1⟩, h2, h3⟩
      rintro ⟨a, ha, h2, h3⟩
      rw [mem_intRange] at ha
      dsimp only at h2 h3
      subst h2
      apply hn
      have ho : (curr.clip.Overlap A).Contains ⟨x, y⟩ = true := by
        rw [contains_iff]
        dsimp only
        omega
      exact (overlap_contains_iff _ _ _ hdp.1 hdp.2).1 ho

/-- What `DrawImageScaled` does for `scale >= 1` and a source whose fetched pixels all
have alpha 255, on a canvas whose size does not wrap and when the destination rectangle
(its size `sw*scale`, `sh*scale` and its corners in absolute coordinates) is computed
without wraparound: each destination pixel at local `p + (i, j)` with
`0 <= i < sw*scale`, `0 <= j < sh*scale` inside the current clip receives the pixel
fetched at `(i / scale, j / scale)`, an index that is always inside the source, and every
other pixel of the canvas is unchanged. The fetched pixel is the source pixel for every
source that is not a `*image.RGBA`, and for a `*image.RGBA` whose bounds start at
`(0, 0)`. -/
theorem drawImageScaled_nearest (B : Blend) (w h : Int) (img : Image) (hz : SizeOK w h)
    (hr : Reachable w h img) (curr : subImageState) (hcur : img.currentState = some curr)
    (src : image.Image) (p : Point) (scale : Int) (hscale : 1 ≤ scale)
    (hX : I64 (src.Bounds.Dx * scale) ∧ I64 (curr.origin.X + p.X) ∧
      I64 (curr.origin.X + p.X + src.Bounds.Dx * scale))
    (hY : I64 (src.Bounds.Dy * scale) ∧ I64 (curr.origin.Y + p.Y) ∧
      I64 (curr.origin.Y + p.Y + src.Bounds.Dy * scale))
    (hop : ∀ sx sy, 0 ≤ sx → sx < src.Bounds.Dx → 0 ≤ sy → sy < src.Bounds.Dy →
      ∃ r g b, fetchPixel src src.Bounds sx sy = some (r, g, b, 255)) :
    ∃ img1, Image.DrawImageScaled B img src p scale = some img1 ∧
      img1.stateStack = img.stateStack ∧
      (∀ i j, 0 ≤ i → i < src.Bounds.Dx * scale → 0 ≤ j → j < src.Bounds.Dy * scale →
        curr.clip.Contains ⟨curr.origin.X + (p.X + i), curr.origin.Y + (p.Y + j)⟩ = true →
        (0 ≤ i / scale ∧ i / scale < src.Bounds.Dx ∧ 0 ≤ j / scale ∧
          j / scale < src.Bounds.Dy) ∧
        img1.pixel (curr.origin.X + (p.X + i)) (curr.origin.Y + (p.Y + j)) =
          fetchPixel src src.Bounds (i / scale) (j / scale)) ∧
      (∀ x y, 0 ≤ x → x < w → 0 ≤ y → y < h →
        ¬ (curr.clip.Contains ⟨x, y⟩ = true ∧
          0 ≤ x - (curr.origin.X + p.X) ∧ x - (curr.origin.X + p.X) < src.Bounds.Dx * scale ∧
          0 ≤ y - (curr.origin.Y + p.Y) ∧ y - (curr.origin.Y + p.Y) < src.Bounds.Dy * scale) →
        img1.pixel x y = img.pixel x y) := by
  have hw := reachable_wf w h img hz hr
  obtain ⟨curr1, hcur1, hfw⟩ := wf_current w h img hw
  rw [hcur] at hcur1
  obtain rfl := Option.some.inj hcur1
  have hAX : (Rectangle.Add ⟨p.X, p.Y, wrap64 (src.Bounds.Dx * scale),
      wrap64 (src.Bounds.Dy * scale)⟩ curr.origin).X = curr.origin.X + p.X := by
    show wrap64 (p.X + curr.origin.X) = _
    rw [add_comm, wrap64_of_I64 _ hX.2.1]
  have hAY : (Rectangle.Add ⟨p.X, p.Y, wrap64 (src.Bounds.Dx * scale),
      wrap64 (src.Bounds.Dy * scale)⟩ curr.origin).Y = curr.origin.Y + p.Y := by
    show wrap64 (p.Y + curr.origin.Y) = _
    rw [add_comm, wrap64_of_I64 _ hY.2.1]
  have hAW : (Rectangle.Add ⟨p.X, p.Y, wrap64 (src.Bounds.Dx * scale),
      wrap64 (src.Bounds.Dy * scale)⟩ curr.origin).Width = src.Bounds.Dx * scale :=
    wrap64_of_I64 _ hX.1
  have hAH : (Rectangle.Add ⟨p.X, p.Y, wrap64 (src.Bounds.Dx * scale),
      wrap64 (src.Bounds.Dy * scale)⟩ curr.origin).Height = src.Bounds.Dy * scale :=
    wrap64_of_I64 _ hY.1
  obtain ⟨q, hq, hlen, hg, hu⟩ := scaledLoop_spec B w h img src curr p scale _ rfl hscale
    ⟨hX.1, by rw [hAX]; exact hX.2.2⟩ ⟨hY.1, by rw [hAY]; exact hY.2.2⟩
    (by
      intro sx sy h1 h2 h3 h4
      obtain ⟨r, g, b, hv⟩ := hop sx sy h1 h2 h3 h4
      exact ⟨_, hv⟩)
    hw.1 hw.2.1 hz hfw.1.1 hfw.1.2.1
  rw [hAX, hAY] at hg
  have hAc : ∀ x y, (Rectangle.Add ⟨p.X, p.Y, wrap64 (src.Bounds.Dx * scale),
      wrap64 (src.Bounds.Dy * scale)⟩ curr.origin).Contains ⟨x, y⟩ = true ↔
      (0 ≤ x - (curr.origin.X + p.X) ∧ x - (curr.origin.X + p.X) < src.Bounds.Dx * scale ∧
        0 ≤ y - (curr.origin.Y + p.Y) ∧
        y - (curr.origin.Y + p.Y) < src.Bounds.Dy * scale) := by
    intro x y
    rw [contains_iff, hAX, hAY, hAW, hAH, wrap64_of_I64 _ hX.2.2, wrap64_of_I64 _ hY.2.2]
    dsimp only
    omega
  refine ⟨{ img with Pix := q }, ?_, rfl, ?_, ?_⟩
  · unfold Image.DrawImageScaled
    simp only [hcur, Option.bind_eq_bind, Option.some_bind, Option.pure_def, hq]
  · intro i j hi0 hi1 hj0 hj1 hc
    have hri := div_scale_range i _ scale hi0 hi1 hscale
    have hrj := div_scale_range j _ scale hj0 hj1 hscale
    refine ⟨⟨hri.1, hri.2, hrj.1, hrj.2⟩, ?_⟩
    have hpix := hg _ _ hc ((hAc _ _).2 (by omega))
    have ei : curr.origin.X + (p.X + i) - (curr.origin.X + p.X) = i := by omega
    have ej : curr.origin.Y + (p.Y + j) - (curr.origin.Y + p.Y) = j := by omega
    rw [ei, ej] at hpix
    obtain ⟨r, g, b, hrgb⟩ := hop _ _ hri.1 hri.2 hrj.1 hrj.2
    have hcv := hfw.1.1 _ hc
    dsimp only at hcv
    obtain ⟨bg, hbg⟩ := pixel_some w h img hz hw _ _ ⟨hcv.1, hcv.2.1⟩ ⟨hcv.2.2.1, hcv.2.2.2⟩
    show pixGet4 q _ = _
    unfold Image.pixel at hbg
    rw [hpix, hrgb, hbg]
    exact composeOpt_opaque B r g b bg
  · intro x y h0 h1 h2 h3 hn
    apply hu x y h0 h1 h2 h3
    rintro ⟨hc, hA⟩
    exact hn ⟨hc, (hAc x y).1 hA⟩

/-! ## Word wrap -/

theorem joinLine_concat (cur : List String) (w : String) (h : cur ≠ []) :
    joinLine (cur ++ [w]) = joinLine cur ++ " " ++ w := by
  cases cur with
  | nil => exact absurd rfl h
  | cons a cur => simp [joinLine, List.foldl_append]

theorem wrapStep_fold (E : TextEnv) (maxWidth : Int) (ws : List String) :
    ∀ (lines : List String) (done : List (List String)) (cur : List String), cur ≠ [] →
      (ws.foldl (wrapStep E maxWidth) (lines ++ done.map joinLine, joinLine cur)).1 ++
        [(ws.foldl (wrapStep E maxWidth) (lines ++ done.map joinLine, joinLine cur)).2] =
      lines ++ (packWords E maxWidth done cur ws).map joinLine := by
  induction ws with
  | nil =>
    intro lines done cur _
    simp [packWords]
  | cons w ws ih =>
    intro lines done cur hc
    simp only [List.foldl_cons, packWords, wrapStep]
    by_cases hfit : E.measure (joinLine cur ++ " " ++ w) ≤ maxWidth
    · rw [if_pos hfit, if_pos hfit, ← joinLine_concat cur w hc]
      exact ih lines done (cur ++ [w]) (by simp)
    · rw [if_neg hfit, if_neg hfit]
      have h1 : lines ++ done.map joinLine ++ [joinLine cur] =
          lines ++ (done ++ [cur]).map joinLine := by simp
      have h2 : w = joinLine [w] := rfl
      rw [h1]
      conv_lhs => rw [h2]
      exact ih lines (done ++ [cur]) [w] (by simp)

theorem wrapParagraph_eq (E : TextEnv) (maxWidth : Int) (lines : List String)
    (paragraph : String) :
    wrapParagraph E maxWidth lines paragraph =
      lines ++ (paragraphGroups E maxWidth (E.fields paragraph)).map joinLine := by
  unfold wrapParagraph paragraphGroups
  cases E.fields paragraph with
  | nil => simp [joinLine]
  | cons w0 rest =>
    have := wrapStep_fold E maxWidth rest lines [] [w0] (by simp)
    simpa [joinLine] using this

theorem packWords_spec (E : TextEnv) (maxWidth : Int) (ws : List String) :
    ∀ (done : List (List String)) (cur : List String), cur ≠ [] →
      (∀ g ∈ done, g ≠ []) →
      (∀ g ∈ done, 2 ≤ g.length → E.measure (joinLine g) ≤ maxWidth) →
      (2 ≤ cur.length → E.measure (joinLine cur) ≤ maxWidth) →
      List.Chain' (ForcedBreak E maxWidth) (done ++ [cur]) →
      (packWords E maxWidth done cur ws).flatten = done.flatten ++ cur ++ ws ∧
      (∀ g ∈ packWords E maxWidth done cur ws, g ≠ []) ∧
      (∀ g ∈ packWords E maxWidth done cur ws, 2 ≤ g.length →
        E.measure (joinLine g) ≤ maxWidth) ∧
      List.Chain' (ForcedBreak E maxWidth) (packWords E maxWidth done cur ws) := by
  induction ws with
  | nil =>
    intro done cur hc hne hfit hcur hchain
    simp only [packWords, List.append_nil]
    refine ⟨by simp, ?_, ?_, hchain⟩
    · intro g hg
      simp only [List.mem_append, List.mem_singleton] at hg
      rcases hg with hg | hg
      · exact hne g hg
      · rw [hg]; exact hc
    · intro g hg
      simp only [List.mem_append, List.mem_singleton] at hg
      rcases hg with hg | hg
      · exact hfit g hg
      · rw [hg]; exact hcur
  | cons w ws ih =>
    intro done cur hc hne hfit hcur hchain
    simp only [packWords]
    by_cases hw : E.measure (joinLine cur ++ " " ++ w) ≤ maxWidth
    · rw [if_pos hw]
      have hchain1 : List.Chain' (ForcedBreak E maxWidth) (done ++ [cur ++ [w]]) := by
        rw [List.chain'_append] at hchain ⊢
        refine ⟨hchain.1, List.chain'_singleton _, ?_⟩
        intro x hx y hy
        simp only [List.head?_cons, Option.mem_def, Option.some.injEq] at hy
        subst hy
        have := hchain.2.2 x hx cur (by simp)
        intro v hv
        apply this v
        cases cur with
        | nil => exact absurd rfl hc
        | cons a cur => simpa using hv
      obtain ⟨h1, h2, h3, h4⟩ := ih done (cur ++ [w]) (by simp) hne hfit
        (by intro _; rw [joinLine_concat cur w hc]; exact hw) hchain1
      refine ⟨?_, h2, h3, h4⟩
      rw [h1]
      simp
    · rw [if_neg hw]
      have hne1 : ∀ g ∈ done ++ [cur], g ≠ [] := by
        intro g hg
        simp only [List.mem_append, List.mem_singleton] at hg
        rcases hg with hg | hg
        · exact hne g hg
        · rw [hg]; exact hc
      have hfit1 : ∀ g ∈ done ++ [cur], 2 ≤ g.length → E.measure (joinLine g) ≤ maxWidth := by
        intro g hg
        simp only [List.mem_append, List.mem_singleton] at hg
        rcases hg with hg | hg
        · exact hfit g hg
        · rw [hg]; exact hcur
      have hchain1 : List.Chain' (ForcedBreak E maxWidth) (done ++ [cur] ++ [[w]]) := by
        rw [List.chain'_append]
        refine ⟨hchain, List.chain'_singleton _, ?_⟩
        intro x hx y hy
        simp only [List.getLast?_concat, Option.mem_def, Option.some.injEq] at hx
        simp only [List.head?_cons, Option.mem_def, Option.some.injEq] at hy
        subst hx hy
        intro v hv
        simp only [List.head?_cons, Option.mem_def, Option.some.injEq] at hv
        subst hv
        omega
      obtain ⟨h1, h2, h3, h4⟩ := ih (done ++ [cur]) [w] (by simp) hne1 hfit1
        (by intro h2; simp at h2) hchain1
      refine ⟨?_, h2, h3, h4⟩
      rw [h1]
      simp

theorem paragraphGroups_spec (E : TextEnv) (maxWidth : Int) (words : List String) :
    (paragraphGroups E maxWidth words).flatten = words ∧
    (words = [] → paragraphGroups E maxWidth words = [[]]) ∧
    (words ≠ [] → ∀ g ∈ paragraphGroups E maxWidth words, g ≠ []) ∧
    (∀ g ∈ paragraphGroups E maxWidth words, 2 ≤ g.length →
      E.measure (joinLine g) ≤ maxWidth) ∧
    List.Chain' (ForcedBreak E maxWidth) (paragraphGroups E maxWidth words) ∧
    1 ≤ (paragraphGroups E maxWidth words).length := by
  cases words with
  | nil =>
    refine ⟨by simp [paragraphGroups], fun _ => rfl, fun h => absurd rfl h, ?_,
      List.chain'_singleton _, by simp [paragraphGroups]⟩
    intro g hg h2
    simp only [paragraphGroups, List.mem_singleton] at hg
    subst hg
    simp at h2
  | cons w0 rest =>
    simp only [paragraphGroups]
    obtain ⟨h1, h2, h3, h4⟩ := packWords_spec E maxWidth rest [] [w0] (by simp) (by simp)
      (by simp) (by intro h; simp at h) (by simp)
    refine ⟨by simpa using h1, fun h => by simp at h, fun _ => h2, h3, h4, ?_⟩
    cases hp : packWords E maxWidth [] [w0] rest with
    | nil =>
      rw [hp] at h1
      simp at h1
    | cons g gs => simp

theorem wrapParagraph_fold (E : TextEnv) (maxWidth : Int) (ps : List String) :
    ∀ lines : List String, ps.foldl (wrapParagraph E maxWidth) lines =
      lines ++ (ps.map (fun paragraph =>
        (paragraphGroups E maxWidth (E.fields paragraph)).map joinLine)).flatten := by
  induction ps with
  | nil =>
    intro lines
    simp
  | cons para ps ih =>
    intro lines
    rw [List.foldl_cons, wrapParagraph_eq, ih]
    simp

theorem length_le_length_flatten {α : Type} (l : List (List α))
    (h : ∀ x ∈ l, 1 ≤ x.length) : l.length ≤ l.flatten.length := by
  induction l with
  | nil => simp
  | cons a l ih =>
    have h1 := h a (List.mem_cons_self a l)
    have h2 := ih (fun x hx => h x (List.mem_cons_of_mem _ hx))
    simp only [List.length_cons, List.flatten_cons, List.length_append]
    omega

/-! ## Floating-point lemmas -/

theorem roundHalfEven_err (q : ℚ) : |((roundHalfEven q : Int) : ℚ) - q| ≤ 1 / 2 := by
  have h0 := Int.floor_le q
  have h1 := Int.lt_floor_add_one q
  unfold roundHalfEven
  simp only
  split_ifs <;> push_cast <;> rw [abs_le] <;> constructor <;> linarith

theorem roundHalfEven_eq (q : ℚ) (m : Int) (h : |q - m| < 1 / 2) : roundHalfEven q = m := by
  rw [abs_lt] at h
  obtain ⟨hl, hr⟩ := h
  unfold roundHalfEven
  simp only
  by_cases hq : (m : ℚ) ≤ q
  · have hf : ⌊q⌋ = m := by
      rw [Int.floor_eq_iff]
      constructor <;> linarith
    rw [hf, if_pos (by linarith)]
  · have hf : ⌊q⌋ = m - 1 := by
      rw [Int.floor_eq_iff]
      push_cast
      constructor <;> linarith
    rw [hf, if_neg (by push_cast; linarith), if_pos (by push_cast; linarith)]
    ring

theorem roundHalfEven_tie (q : ℚ) (m : Int) (h : q = m - 1 / 2) (hm : m % 2 = 0) :
    roundHalfEven q = m := by
  have hf : ⌊q⌋ = m - 1 := by
    rw [Int.floor_eq_iff]
    push_cast
    constructor <;> linarith
  unfold roundHalfEven
  simp only
  rw [hf, if_neg (by push_cast; linarith), if_neg (by push_cast; linarith),
    if_neg (by omega)]
  ring

theorem round64_zero : round64 0 = 0 := by
  unfold round64
  rw [if_pos rfl]

theorem round64_eval (x : ℚ) (e m : Int) (he : -1022 ≤ e) (h1 : (2 : ℚ) ^ e ≤ |x|)
    (h2 : |x| < (2 : ℚ) ^ (e + 1)) (hm : roundHalfEven (x * (2 : ℚ) ^ (52 - e)) = m) :
    round64 x = (m : ℚ) * (2 : ℚ) ^ (e - 52) := by
  have hpos : (0 : ℚ) < |x| := lt_of_lt_of_le (zpow_pos (by norm_num) e) h1
  have hx : x ≠ 0 := abs_pos.mp hpos
  have hlog : Int.log 2 |x| = e := by
    apply le_antisymm
    · have := (Int.lt_zpow_iff_log_lt (R := ℚ) (b := 2) (by norm_num) hpos (x := e + 1)).mp
        (by simpa using h2)
      omega
    · exact (Int.zpow_le_iff_le_log (R := ℚ) (b := 2) (by norm_num) hpos).mp (by simpa using h1)
  unfold round64
  rw [if_neg hx]
  simp only
  rw [hlog, max_eq_left he, hm]

theorem round64_eval_pos (x : ℚ) (e m : Int) (he : -1022 ≤ e) (h1 : (2 : ℚ) ^ e ≤ x)
    (h2 : x < (2 : ℚ) ^ (e + 1)) (hm : roundHalfEven (x * (2 : ℚ) ^ (52 - e)) = m) :
    round64 x = (m : ℚ) * (2 : ℚ) ^ (e - 52) := by
  have hpos : (0 : ℚ) < x := lt_of_lt_of_le (zpow_pos (by norm_num) e) h1
  exact round64_eval x e m he (by rwa [abs_of_pos hpos]) (by rwa [abs_of_pos hpos]) hm

theorem round64_err (x : ℚ) (hx : x = 0 ∨ (2 : ℚ) ^ (-1022 : Int) ≤ |x|) :
    |round64 x - x| ≤ |x| / 2 ^ 53 := by
  by_cases h0 : x = 0
  · subst h0
    simp [round64_zero]
  have hmin : (2 : ℚ) ^ (-1022 : Int) ≤ |x| := hx.resolve_left h0
  have hpos : (0 : ℚ) < |x| := abs_pos.mpr h0
  unfold round64
  rw [if_neg h0]
  simp only
  generalize he : max (Int.log 2 |x|) (-1022) = e
  have hle : (2 : ℚ) ^ e ≤ |x| := by
    rcases max_cases (Int.log 2 |x|) (-1022) with ⟨h, _⟩ | ⟨h, _⟩
    · rw [← he, h]
      simpa using Int.zpow_log_le_self (R := ℚ) (b := 2) (by norm_num) hpos
    · rw [← he, h]
      exact hmin
  have hs : (0 : ℚ) < (2 : ℚ) ^ (e - 52) := zpow_pos (by norm_num) _
  have hinv : (2 : ℚ) ^ (52 - e) * (2 : ℚ) ^ (e - 52) = 1 := by
    rw [← zpow_add₀ (by norm_num : (2 : ℚ) ≠ 0)]
    simp
  have herr := roundHalfEven_err (x * (2 : ℚ) ^ (52 - e))
  have hsplit : (2 : ℚ) ^ e = (2 : ℚ) ^ (e - 52) * 2 ^ 52 := by
    rw [← zpow_natCast (2 : ℚ) 52, ← zpow_add₀ (by norm_num : (2 : ℚ) ≠ 0)]
    congr 1
    push_cast
    ring
  have key : ((roundHalfEven (x * (2 : ℚ) ^ (52 - e)) : Int) : ℚ) * (2 : ℚ) ^ (e - 52) - x
      = (((roundHalfEven (x * (2 : ℚ) ^ (52 - e)) : Int) : ℚ) - x * (2 : ℚ) ^ (52 - e))
        * (2 : ℚ) ^ (e - 52) := by
    rw [sub_mul, mul_assoc, hinv, mul_one]
  rw [key, abs_mul, abs_of_pos hs]
  have hb : |((roundHalfEven (x * (2 : ℚ) ^ (52 - e)) : Int) : ℚ) - x * (2 : ℚ) ^ (52 - e)|
      * (2 : ℚ) ^ (e - 52) ≤ 1 / 2 * (2 : ℚ) ^ (e - 52) :=
    mul_le_mul_of_nonneg_right herr hs.le
  rw [le_div_iff₀ (by norm_num : (0 : ℚ) < 2 ^ 53)]
  calc _ ≤ 1 / 2 * (2 : ℚ) ^ (e - 52) * 2 ^ 53 := mul_le_mul_of_nonneg_right hb (by norm_num)
    _ = (2 : ℚ) ^ e := by rw [hsplit]; ring
    _ ≤ |x| := hle

theorem round64_one : round64 1 = 1 := by
  have h := round64_eval_pos 1 0 (2 ^ 52) (by norm_num) (by norm_num) (by norm_num)
    (roundHalfEven_eq _ _ (by norm_num))
  rw [h]
  norm_num

theorem blendAlphaValue_20_255 : blendAlphaValue 20 255 = 255 + 1 / 2 ^ 45 := by
  have h1 : round64 (20 / 255) = 5651576002974740 / 2 ^ 56 := by
    rw [round64_eval_pos (20 / 255) (-4) 5651576002974740 (by norm_num) (by norm_num)
      (by norm_num) (roundHalfEven_eq _ _ (by norm_num [abs_lt]))]
    norm_num
  have h2 : round64 (1 - 5651576002974740 / 2 ^ 56) = 8300752254369150 / 2 ^ 53 := by
    rw [round64_eval_pos (1 - 5651576002974740 / 2 ^ 56) (-1) 8300752254369150 (by norm_num)
      (by norm_num) (by norm_num) (roundHalfEven_tie _ _ (by norm_num) (by norm_num))]
    norm_num
  have h3 : round64 (255 * (8300752254369150 / 2 ^ 53)) = 8268327440875521 / 2 ^ 45 := by
    rw [round64_eval_pos (255 * (8300752254369150 / 2 ^ 53)) 7 8268327440875521 (by norm_num)
      (by norm_num) (by norm_num) (roundHalfEven_eq _ _ (by norm_num [abs_lt]))]
    norm_num
  have h4 : round64 (20 + 8268327440875521 / 2 ^ 45) = 8972014882652161 / 2 ^ 45 := by
    rw [round64_eval_pos (20 + 8268327440875521 / 2 ^ 45) 7 8972014882652161 (by norm_num)
      (by norm_num) (by norm_num) (roundHalfEven_eq _ _ (by norm_num [abs_lt]))]
    norm_num
  have c20 : (((20 : uint8).val : Nat) : ℚ) = 20 := by norm_cast
  have c255 : (((255 : uint8).val : Nat) : ℚ) = 255 := by norm_cast
  unfold blendAlphaValue
  simp only
  rw [c20, c255, h1, h2, h3, h4]
  norm_num

theorem normal_threshold : (2 : ℚ) ^ (-1022 : Int) ≤ 1 / 1024 := by
  have h : (2 : ℚ) ^ (-1022 : Int) ≤ (2 : ℚ) ^ (-10 : Int) :=
    zpow_le_zpow_right₀ (by norm_num) (by norm_num)
  calc (2 : ℚ) ^ (-1022 : Int) ≤ (2 : ℚ) ^ (-10 : Int) := h
    _ = 1 / 1024 := by norm_num

theorem round64_bounds (x : ℚ) (hx : x = 0 ∨ 1 / 1024 ≤ x) :
    x * (1 - 1 / 2 ^ 53) ≤ round64 x ∧ round64 x ≤ x * (1 + 1 / 2 ^ 53) := by
  have h0 : 0 ≤ x := by
    rcases hx with h | h
    · exact h.ge
    · linarith
  have h := round64_err x (hx.imp id (fun h => le_trans normal_threshold
    (le_trans h (le_abs_self x))))
  rw [abs_of_nonneg h0, abs_le] at h
  constructor <;> linarith [h.1, h.2]

theorem blend_chain (S B : ℚ) (hS0 : S = 0 ∨ 1 ≤ S) (hS : S ≤ 254) (hB0 : B = 0 ∨ 1 ≤ B)
    (hB : B ≤ 255) :
    (0 ≤ round64 (S + round64 (B * round64 (1 - round64 (S / 255)))) ∧
      round64 (S + round64 (B * round64 (1 - round64 (S / 255)))) ≤ 255 + 1 / 2 ^ 40) ∧
    (0 ≤ round64 (S + B * round64 (1 - round64 (S / 255))) ∧
      round64 (S + B * round64 (1 - round64 (S / 255))) ≤ 255 + 1 / 2 ^ 40) := by
  have hSn : 0 ≤ S := by rcases hS0 with h | h <;> linarith
  have hBn : 0 ≤ B := by rcases hB0 with h | h <;> linarith
  obtain ⟨ha1, ha2⟩ := round64_bounds (S / 255) (by
    rcases hS0 with h | h
    · left; rw [h]; norm_num
    · right; linarith)
  generalize round64 (S / 255) = a at ha1 ha2
  obtain ⟨ht1, ht2⟩ := round64_bounds (1 - a) (by right; linarith)
  generalize round64 (1 - a) = t at ht1 ht2
  have ht0 : 1 / 512 ≤ t := by linarith
  have hw : B * t ≤ 255 * t := mul_le_mul_of_nonneg_right hB (by linarith)
  have hwn : 0 ≤ B * t := mul_nonneg hBn (by linarith)
  have hw0 : B * t = 0 ∨ 1 / 512 ≤ B * t := by
    rcases hB0 with h | h
    · left; rw [h]; ring
    · right
      have : 1 * t ≤ B * t := mul_le_mul_of_nonneg_right h (by linarith)
      linarith
  obtain ⟨hu1, hu2⟩ := round64_bounds (B * t) (hw0.imp id (fun h => by linarith))
  have hu0 : round64 (B * t) = 0 ∨ 1 / 1024 ≤ round64 (B * t) := by
    rcases hw0 with h | h
    · left; rw [h, round64_zero]
    · right; linarith
  generalize round64 (B * t) = u at hu1 hu2 hu0
  have hun : 0 ≤ u := by rcases hu0 with h | h <;> linarith
  obtain ⟨hv1, hv2⟩ := round64_bounds (S + u) (by
    rcases hS0 with h | h
    · rcases hu0 with h2 | h2
      · left; rw [h, h2]; ring
      · right; linarith
    · right; linarith)
  obtain ⟨hf1, hf2⟩ := round64_bounds (S + B * t) (by
    rcases hS0 with h | h
    · rcases hw0 with h2 | h2
      · left; rw [h, h2]; ring
      · right; linarith
    · right; linarith)
  refine ⟨⟨?_, ?_⟩, ?_, ?_⟩ <;> linarith

theorem blendAlpha_bounds (sa bgA : uint8) :
    (0 ≤ blendAlphaValue sa bgA ∧ blendAlphaValue sa bgA ≤ 255 + 1 / 2 ^ 40) ∧
    (0 ≤ blendAlphaFused sa bgA ∧ blendAlphaFused sa bgA ≤ 255 + 1 / 2 ^ 40) := by
  have hB0 : ((bgA.val : Nat) : ℚ) = 0 ∨ 1 ≤ ((bgA.val : Nat) : ℚ) := by
    rcases Nat.eq_zero_or_pos bgA.val with h | h
    · left; rw [h]; norm_num
    · right; exact_mod_cast h
  have hB : ((bgA.val : Nat) : ℚ) ≤ 255 := by
    have := bgA.isLt
    exact_mod_cast (by omega : bgA.val ≤ 255)
  unfold blendAlphaValue blendAlphaFused
  simp only
  by_cases h255 : sa.val = 255
  · have hb := round64_bounds 255 (by right; norm_num)
    rw [h255]
    norm_num [round64_one, round64_zero]
    constructor <;> linarith [hb.1, hb.2]
  · have hS0 : ((sa.val : Nat) : ℚ) = 0 ∨ 1 ≤ ((sa.val : Nat) : ℚ) := by
      rcases Nat.eq_zero_or_pos sa.val with h | h
      · left; rw [h]; norm_num
      · right; exact_mod_cast h
    have hS : ((sa.val : Nat) : ℚ) ≤ 254 := by
      have := sa.isLt
      exact_mod_cast (by omega : sa.val ≤ 254)
    exact blend_chain _ _ hS0 hS hB0 hB

theorem float64ToUint8_exact (v : ℚ) (h0 : 0 ≤ v) (h1 : v < 256) :
    ((float64ToUint8 v).val : Int) = truncInt v ∧ truncInt v = ⌊v⌋ := by
  have ht : truncInt v = ⌊v⌋ := by
    unfold truncInt
    rw [if_pos h0]
  have hf0 : 0 ≤ ⌊v⌋ := Int.floor_nonneg.mpr h0
  have hf1 : ⌊v⌋ < 256 := by
    rw [Int.floor_lt]
    exact_mod_cast h1
  refine ⟨?_, ht⟩
  unfold float64ToUint8 toUint8
  rw [ht, Int.emod_eq_of_lt hf0 hf1]
  show (((Int.toNat ⌊v⌋) % 256 : Nat) : Int) = ⌊v⌋
  omega

/-! ## `Blit` on a store of canvases -/

theorem set_getElem?_self {α : Type} (l : List α) (i : Nat) (a : α) (h : l[i]? = some a) :
    l.set i a = l := by
  apply List.ext_getElem?
  intro k
  by_cases hk : i = k
  · subst hk
    have hlt : i < l.length := by
      by_contra hge
      rw [List.getElem?_eq_none (by omega)] at h
      exact Option.noConfusion h
    rw [List.getElem?_set_self hlt, h]
  · rw [List.getElem?_set_ne hk]

theorem getElem?_lt {α : Type} (l : List α) (i : Nat) (a : α) (h : l[i]? = some a) :
    i < l.length := by
  by_contra hge
  rw [List.getElem?_eq_none (by omega)] at h
  exact Option.noConfusion h

theorem storeLoad_set_self (st : List Image) (m : Nat) (d : Image) (off : Int)
    (h : m < st.length) : storeLoad (st.set m d) m off = pixGet d.Pix off := by
  unfold storeLoad
  rw [List.getElem?_set_self h]
  rfl

theorem storeLoad_set_ne (st : List Image) (m k : Nat) (d s : Image) (off : Int)
    (hne : m ≠ k) (hs : st[k]? = some s) :
    storeLoad (st.set m d) k off = pixGet s.Pix off := by
  unfold storeLoad
  rw [List.getElem?_set_ne hne, hs]
  rfl

theorem storeStride_set_self (st : List Image) (m : Nat) (d : Image) (h : m < st.length) :
    storeStride (st.set m d) m = some d.Stride := by
  unfold storeStride
  rw [List.getElem?_set_self h]
  rfl

theorem storeStride_set_ne (st : List Image) (m k : Nat) (d s : Image) (hne : m ≠ k)
    (hs : st[k]? = some s) : storeStride (st.set m d) k = some s.Stride := by
  unfold storeStride
  rw [List.getElem?_set_ne hne, hs]
  rfl

theorem storeStore_set_self (st : List Image) (m : Nat) (d : Image) (pix : List uint8)
    (off : Int) (v : uint8) (h : m < st.length) :
    storeStore (st.set m { d with Pix := pix }) m off v =
      (pixSet pix off v).map (fun q => st.set m { d with Pix := q }) := by
  unfold storeStore
  rw [List.getElem?_set_self h]
  simp only [Option.bind_eq_bind, Option.some_bind, Option.pure_def, List.set_set]
  cases pixSet pix off v <;> rfl

/-- The four stores of one pixel through the pointer `m` are the four stores into the
buffer of the canvas at `m`. -/
theorem storeStore4_set_self (st : List Image) (m : Nat) (d : Image) (pix : List uint8)
    (off : Int) (r g b a : uint8) (h : m < st.length) :
    ((storeStore (st.set m { d with Pix := pix }) m off r).bind (fun st1 =>
      (storeStore st1 m (wrap64 (off + 1)) g).bind (fun st2 =>
        (storeStore st2 m (wrap64 (off + 2)) b).bind (fun st3 =>
          storeStore st3 m (wrap64 (off + 3)) a)))) =
      (pixSet4 pix off r g b a).map (fun q => st.set m { d with Pix := q }) := by
  unfold pixSet4
  rw [storeStore_set_self st m d pix off r h]
  cases pixSet pix off r with
  | none => rfl
  | some q1 =>
    simp only [Option.map_some', Option.some_bind, Option.bind_eq_bind]
    rw [storeStore_set_self st m d q1 _ g h]
    cases pixSet q1 (wrap64 (off + 1)) g with
    | none => rfl
    | some q2 =>
      simp only [Option.map_some', Option.some_bind]
      rw [storeStore_set_self st m d q2 _ b h]
      cases pixSet q2 (wrap64 (off + 2)) b with
      | none => rfl
      | some q3 =>
        simp only [Option.map_some', Option.some_bind]
        rw [storeStore_set_self st m d q3 _ a h]

/-- The four loads of one pixel through a pointer, from a buffer `buf`. -/
theorem storeLoad4 (st : List Image) (k : Nat) (buf : List uint8) (off : Int)
    (hl : ∀ o, storeLoad st k o = pixGet buf o) {β : Type}
    (f : uint8 → uint8 → uint8 → uint8 → Option β) :
    ((storeLoad st k off).bind (fun r =>
      (storeLoad st k (wrap64 (off + 1))).bind (fun g =>
        (storeLoad st k (wrap64 (off + 2))).bind (fun b =>
          (storeLoad st k (wrap64 (off + 3))).bind (fun a => f r g b a))))) =
      (pixGet4 buf off).bind (fun v => f v.1 v.2.1 v.2.2.1 v.2.2.2) := by
  unfold pixGet4
  simp only [hl, Option.bind_eq_bind, Option.pure_def]
  cases pixGet buf off with
  | none => rfl
  | some r =>
    simp only [Option.some_bind]
    cases pixGet buf (wrap64 (off + 1)) with
    | none => rfl
    | some g =>
      simp only [Option.some_bind]
      cases pixGet buf (wrap64 (off + 2)) with
      | none => rfl
      | some b =>
        simp only [Option.some_bind]
        cases pixGet buf (wrap64 (off + 3)) with
        | none => rfl
        | some a => rfl

theorem foldlM_map_comm {α σ τ : Type} (R : σ → τ) (f : σ → α → Option σ)
    (g : τ → α → Option τ) (l : List α) (h : ∀ s, ∀ a ∈ l, g (R s) a = (f s a).map R) :
    ∀ s, l.foldlM g (R s) = (l.foldlM f s).map R := by
  induction l with
  | nil =>
    intro s
    rfl
  | cons a l ih =>
    intro s
    rw [List.foldlM_cons, List.foldlM_cons, h s a (List.mem_cons_self a l)]
    cases f s a with
    | none => rfl
    | some s1 =>
      simp only [Option.map_some', Option.some_bind, Option.bind_eq_bind]
      exact ih (fun s a ha => h s a (List.mem_cons_of_mem _ ha)) s1

/-- One pixel of `Blit` on the store: the store after it is the store in which the buffer
of the destination has been replaced by the buffer that the pixel body computes, from the
source buffer or, when source and destination are one canvas, from the destination's
own buffer. -/
theorem storeBlitPixel_eq (B : Blend) (st : List Image) (img src : Nat) (d s : Image)
    (hd : st[img]? = some d) (hs : st[src]? = some s) (srcCurr : subImageState)
    (A : Rectangle) (y srcAbsY : Int) (pix : List uint8) (x : Int) :
    storeBlitPixel B img src srcCurr A y srcAbsY (st.set img { d with Pix := pix }) x =
      (blitPixel B (if img = src then pix else s.Pix) s.Stride d.Stride srcCurr A y srcAbsY
        pix x).map (fun q => st.set img { d with Pix := q }) := by
  have hlt := getElem?_lt st img d hd
  have hstrS : storeStride (st.set img { d with Pix := pix }) src = some s.Stride := by
    by_cases hne : img = src
    · subst hne
      rw [storeStride_set_self _ _ _ hlt]
      rw [hd] at hs
      rw [← Option.some.inj hs]
    · exact storeStride_set_ne _ _ _ _ _ hne hs
  have hstrD : storeStride (st.set img { d with Pix := pix }) img = some d.Stride :=
    storeStride_set_self _ _ _ hlt
  have hlS : ∀ o, storeLoad (st.set img { d with Pix := pix }) src o =
      pixGet (if img = src then pix else s.Pix) o := by
    intro o
    by_cases hne : img = src
    · subst hne
      rw [if_pos rfl, storeLoad_set_self _ _ _ _ hlt]
    · rw [if_neg hne]
      exact storeLoad_set_ne _ _ _ _ _ _ hne hs
  have hlD : ∀ o, storeLoad (st.set img { d with Pix := pix }) img o = pixGet pix o := by
    intro o
    rw [storeLoad_set_self _ _ _ _ hlt]
  unfold storeBlitPixel blitPixel
  dsimp only
  split
  · rfl
  · simp only [hstrS, hstrD, Option.bind_eq_bind, Option.some_bind, Option.pure_def]
    rw [storeLoad4 _ src _ _ hlS]
    cases pixGet4 (if img = src then pix else s.Pix)
        (wrap64 (wrap64 (srcAbsY * s.Stride) +
          wrap64 (wrap64 (srcCurr.origin.X + wrap64 (x - A.X)) * 4))) with
    | none => rfl
    | some v =>
      obtain ⟨sr, sg, sb, sa⟩ := v
      simp only [Option.some_bind]
      split
      · rfl
      · split
        · exact storeStore4_set_self st img d pix _ sr sg sb sa hlt
        · rw [storeLoad4 _ img _ _ hlD]
          cases pixGet4 pix (wrap64 (wrap64 (y * d.Stride) + wrap64 (x * 4))) with
          | none => rfl
          | some bg =>
            obtain ⟨bgR, bgG, bgB, bgA⟩ := bg
            simp only [Option.some_bind]
            exact storeStore4_set_self st img d pix _ _ _ _ _ hlt

/-- `Blit` on the store replaces the entry of the destination by the canvas that the
value-level `Blit` computes, and changes nothing else. -/
theorem storeBlit_eq (B : Blend) (st : List Image) (img src : Nat) (d s : Image)
    (hd : st[img]? = some d) (hs : st[src]? = some s) (p : Point) :
    storeBlit B st img src p =
      (if img = src then Image.BlitSelf B d p else Image.Blit B d s p).map
        (fun d1 => st.set img d1) := by
  have hlt := getElem?_lt st img d hd
  have hst : st.set img { d with Pix := d.Pix } = st := set_getElem?_self st img d hd
  have hloop : ∀ (same : Bool) (dc sc : subImageState), same = decide (img = src) →
      (if (dc.clip.Overlap (Rectangle.Add ⟨p.X, p.Y, sc.bounds.Width, sc.bounds.Height⟩
            dc.origin)).Width ≤ 0 ∨
          (dc.clip.Overlap (Rectangle.Add ⟨p.X, p.Y, sc.bounds.Width, sc.bounds.Height⟩
            dc.origin)).Height ≤ 0 then some st
        else
          (intRange (dc.clip.Overlap (Rectangle.Add ⟨p.X, p.Y, sc.bounds.Width,
              sc.bounds.Height⟩ dc.origin)).Y
            (wrap64 ((dc.clip.Overlap (Rectangle.Add ⟨p.X, p.Y, sc.bounds.Width,
              sc.bounds.Height⟩ dc.origin)).Y +
              (dc.clip.Overlap (Rectangle.Add ⟨p.X, p.Y, sc.bounds.Width,
                sc.bounds.Height⟩ dc.origin)).Height))).foldlM
            (fun st y =>
              if wrap64 (sc.origin.Y + wrap64 (y - (Rectangle.Add ⟨p.X, p.Y, sc.bounds.Width,
                    sc.bounds.Height⟩ dc.origin).Y)) < sc.clip.Y ∨
                  wrap64 (sc.origin.Y + wrap64 (y - (Rectangle.Add ⟨p.X, p.Y,
                    sc.bounds.Width, sc.bounds.Height⟩ dc.origin).Y)) ≥
                    wrap64 (sc.clip.Y + sc.clip.Height) then
                some st
              else
                (intRange (dc.clip.Overlap (Rectangle.Add ⟨p.X, p.Y, sc.bounds.Width,
                    sc.bounds.Height⟩ dc.origin)).X
                  (wrap64 ((dc.clip.Overlap (Rectangle.Add ⟨p.X, p.Y, sc.bounds.Width,
                    sc.bounds.Height⟩ dc.origin)).X +
                    (dc.clip.Overlap (Rectangle.Add ⟨p.X, p.Y, sc.bounds.Width,
                      sc.bounds.Height⟩ dc.origin)).Width))).foldlM
                  (fun st x => storeBlitPixel B img src sc
                    (Rectangle.Add ⟨p.X, p.Y, sc.bounds.Width, sc.bounds.Height⟩ dc.origin) y
                    (wrap64 (sc.origin.Y + wrap64 (y - (Rectangle.Add ⟨p.X, p.Y,
                      sc.bounds.Width, sc.bounds.Height⟩ dc.origin).Y))) st x)
                  st)
            st) =
        (blitLoop B same d s dc sc p).map (fun q => st.set img { d with Pix := q }) := by
    intro same dc sc hsame
    unfold blitLoop
    dsimp only
    split
    · simp only [Option.pure_def, Option.map_some', hst]
    · have := foldlM_map_comm (fun q : List uint8 => st.set img { d with Pix := q })
        (fun pix y =>
          if wrap64 (sc.origin.Y + wrap64 (y - (Rectangle.Add ⟨p.X, p.Y, sc.bounds.Width,
                sc.bounds.Height⟩ dc.origin).Y)) < sc.clip.Y ∨
              wrap64 (sc.origin.Y + wrap64 (y - (Rectangle.Add ⟨p.X, p.Y,
                sc.bounds.Width, sc.bounds.Height⟩ dc.origin).Y)) ≥
                wrap64 (sc.clip.Y + sc.clip.Height) then
            pure pix
          else
            (intRange (dc.clip.Overlap (Rectangle.Add ⟨p.X, p.Y, sc.bounds.Width,
                sc.bounds.Height⟩ dc.origin)).X
              (wrap64 ((dc.clip.Overlap (Rectangle.Add ⟨p.X, p.Y, sc.bounds.Width,
                sc.bounds.Height⟩ dc.origin)).X +
                (dc.clip.Overlap (Rectangle.Add ⟨p.X, p.Y, sc.bounds.Width,
                  sc.bounds.Height⟩ dc.origin)).Width))).foldlM
              (fun pix x => blitPixel B (if same then pix else s.Pix) s.Stride d.Stride sc
                (Rectangle.Add ⟨p.X, p.Y, sc.bounds.Width, sc.bounds.Height⟩ dc.origin) y
                (wrap64 (sc.origin.Y + wrap64 (y - (Rectangle.Add ⟨p.X, p.Y,
                  sc.bounds.Width, sc.bounds.Height⟩ dc.origin).Y))) pix x)
              pix)
        (fun st y =>
          if wrap64 (sc.origin.Y + wrap64 (y - (Rectangle.Add ⟨p.X, p.Y, sc.bounds.Width,
                sc.bounds.Height⟩ dc.origin).Y)) < sc.clip.Y ∨
              wrap64 (sc.origin.Y + wrap64 (y - (Rectangle.Add ⟨p.X, p.Y,
                sc.bounds.Width, sc.bounds.Height⟩ dc.origin).Y)) ≥
                wrap64 (sc.clip.Y + sc.clip.Height) then
            some st
          else
            (intRange (dc.clip.Overlap (Rectangle.Add ⟨p.X, p.Y, sc.bounds.Width,
                sc.bounds.Height⟩ dc.origin)).X
              (wrap64 ((dc.clip.Overlap (Rectangle.Add ⟨p.X, p.Y, sc.bounds.Width,
                sc.bounds.Height⟩ dc.origin)).X +
                (dc.clip.Overlap (Rectangle.Add ⟨p.X, p.Y, sc.bounds.Width,
                  sc.bounds.Height⟩ dc.origin)).Width))).foldlM
              (fun st x => storeBlitPixel B img src sc
                (Rectangle.Add ⟨p.X, p.Y, sc.bounds.Width, sc.bounds.Height⟩ dc.origin) y
                (wrap64 (sc.origin.Y + wrap64 (y - (Rectangle.Add ⟨p.X, p.Y,
                  sc.bounds.Width, sc.bounds.Height⟩ dc.origin).Y))) st x)
              st)
        (intRange (dc.clip.Overlap (Rectangle.Add ⟨p.X, p.Y, sc.bounds.Width,
            sc.bounds.Height⟩ dc.origin)).Y
          (wrap64 ((dc.clip.Overlap (Rectangle.Add ⟨p.X, p.Y, sc.bounds.Width,
            sc.bounds.Height⟩ dc.origin)).Y +
            (dc.clip.Overlap (Rectangle.Add ⟨p.X, p.Y, sc.bounds.Width,
              sc.bounds.Height⟩ dc.origin)).Height)))
        (by
          intro q y _
          dsimp only
          split
          · rfl
          · apply foldlM_map_comm (fun q : List uint8 => st.set img { d with Pix := q })
            intro q1 x _
            rw [storeBlitPixel_eq B st img src d s hd hs]
            rw [hsame]
            by_cases hne : img = src
            · simp [hne]
            · simp [hne])
        d.Pix
      rw [hst] at this
      exact this
  unfold storeBlit
  simp only [hd, hs, Option.bind_eq_bind, Option.some_bind, Option.pure_def]
  by_cases hne : img = src
  · subst hne
    have hsd : s = d := by
      rw [hd] at hs
      exact (Option.some.inj hs).symm
    subst hsd
    rw [if_pos rfl]
    unfold Image.BlitSelf
    cases hc : s.currentState with
    | none => rfl
    | some c =>
      simp only [Option.bind_eq_bind, Option.some_bind, Option.pure_def]
      rw [hloop true c c (by simp)]
      cases blitLoop B true s s c c p <;> rfl
  · rw [if_neg hne]
    unfold Image.Blit
    cases hc : d.currentState with
    | none => rfl
    | some c =>
      simp only [Option.bind_eq_bind, Option.some_bind, Option.pure_def]
      cases hc2 : s.currentState with
      | none => rfl
      | some c2 =>
        simp only [Option.some_bind]
        rw [hloop false c c2 (by simp [hne])]
        cases blitLoop B false d s c c2 p <;> rfl

/-- On every reachable canvas and for every rectangle `r`, the clip current after
`PushSubImage(r)` and the clip current after `PushClip(r)` contain only points of the
previously current clip, and `PushClip` leaves the current frame's origin and bounds
unchanged. On a canvas whose size does not wrap the area (width times height) of the new
clip is not larger, provided the subtractions `x2 - x1` and `y2 - y1` of `Overlap` do
not wrap around. -/
theorem push_tightens_clip (w h : Int) (img : Image) (hr : Reachable w h img)
    (r : Rectangle) :
    ∃ curr, img.currentState = some curr ∧
      (∃ img1 c1, img.PushSubImage r = some img1 ∧ img1.currentState = some c1 ∧
        (∀ p, c1.clip.Contains p = true → curr.clip.Contains p = true) ∧
        (SizeOK w h → curr.clip.OverlapExact (Rectangle.Add r curr.origin) →
          c1.clip.Width * c1.clip.Height ≤ curr.clip.Width * curr.clip.Height)) ∧
      (∃ img2 c2, img.PushClip r = some img2 ∧ img2.currentState = some c2 ∧
        (∀ p, c2.clip.Contains p = true → curr.clip.Contains p = true) ∧
        (SizeOK w h → curr.clip.OverlapExact (Rectangle.Add r curr.origin) →
          c2.clip.Width * c2.clip.Height ≤ curr.clip.Width * curr.clip.Height) ∧
        c2.origin = curr.origin ∧ c2.bounds = curr.bounds) := by
  obtain ⟨h4, _, h6⟩ := reachable_stackWF w h img hr
  obtain ⟨L, b, hL⟩ := stack_cases img.stateStack h4
  have hp := (h6 b (by rw [hL]; simp)).1
  have hcur := currentState_concat img L b hL
  refine ⟨b, hcur, ?_, ?_⟩
  · refine ⟨_, _, pushSubImage_eq img r b hcur,
      currentState_concat _ (L ++ [b]) _ (by rw [hL]), ?_, ?_⟩
    · intro p hc
      exact ((overlap_contains_iff _ _ p hp.1 hp.2).1 hc).1
    · intro hz hx
      have hw := reachable_wf w h img hz hr
      have hb := hw.2.2.2.2.2 b (by rw [hL]; simp)
      exact overlap_area_le _ _ hb.1.2.2 hx
  · refine ⟨_, _, pushClip_concat img L b r hL, currentState_concat _ L _ rfl, ?_, ?_,
      rfl, rfl⟩
    · intro p hc
      exact ((overlap_contains_iff _ _ p hp.1 hp.2).1 hc).1
    · intro hz hx
      have hw := reachable_wf w h img hz hr
      have hb := hw.2.2.2.2.2 b (by rw [hL]; simp)
      exact overlap_area_le _ _ hb.1.2.2 hx

/-! ## Theorems: geometry -/

/-- C7: `Overlap` is commutative as a rectangle value, for all rectangles including
those of non-positive size. -/
theorem overlap_comm (a b : Rectangle) : a.Overlap b = b.Overlap a := by
  simp only [Rectangle.Overlap, max_comm a.X b.X, max_comm a.Y b.Y,
    min_comm (wrap64 (a.X + a.Width)) (wrap64 (b.X + b.Width)),
    min_comm (wrap64 (a.Y + a.Height)) (wrap64 (b.Y + b.Height))]

/-- C8, failing input: the rectangles `(9223372036854775802, 0, 10, 1)` and `(0, 0, 5, 1)`
share no point, yet `Overlap` returns `(9223372036854775802, 0, 10, 1)`, a rectangle of
width `10` and height `1` that is not empty: the subtraction `x2 - x1` wraps around. So
"empty iff no common point" fails, and the result is not the rectangle of "0 or negative
width/height" that the comment on `Overlap` promises when there is no overlap. The
pointwise half of the claim fails as well: `(-9223372036854775808, 0, -1, 1)` contains
`(0, 0)`, but its overlap with itself does not. -/
theorem overlap_wraps_around :
    (Rectangle.Overlap ⟨9223372036854775802, 0, 10, 1⟩ ⟨0, 0, 5, 1⟩ =
        ⟨9223372036854775802, 0, 10, 1⟩ ∧
      (Rectangle.Overlap ⟨9223372036854775802, 0, 10, 1⟩ ⟨0, 0, 5, 1⟩).isEmpty = false ∧
      ¬ ∃ p : Point, Rectangle.Contains ⟨9223372036854775802, 0, 10, 1⟩ p = true ∧
        Rectangle.Contains ⟨0, 0, 5, 1⟩ p = true) ∧
    (Rectangle.Contains ⟨-9223372036854775808, 0, -1, 1⟩ ⟨0, 0⟩ = true ∧
      (Rectangle.Overlap ⟨-9223372036854775808, 0, -1, 1⟩
        ⟨-9223372036854775808, 0, -1, 1⟩).Contains ⟨0, 0⟩ = false) := by
  refine ⟨⟨by decide, by decide, ?_⟩, by decide, by decide⟩
  rintro ⟨p, h1, h2⟩
  rw [contains_iff] at h1 h2
  have e1 : wrap64 (9223372036854775802 + 10) = -9223372036854775804 := by decide
  have e2 : wrap64 (0 + 5) = 5 := by decide
  dsimp only at h1 h2
  rw [e1] at h1
  rw [e2] at h2
  omega

/-! ## Theorems: the canvas -/

/-- C1, as stated, fails for a canvas whose size wraps around: `NewImage(4611686018427387905,
1)` computes `4*w*h = 4` in 64-bit arithmetic, so the buffer has four bytes and the stride
is `4`, while the clip is `(0, 0, 4611686018427387905, 1)`. The point `(1, 0)` lies in the
clip, and `Set((1, 0), c)` indexes the buffer at offset `4`, outside it: a run-time
panic instead of a stored colour. -/
theorem set_then_at_counterexample :
    ∃ img curr, NewImage 4611686018427387905 1 = some img ∧
      Reachable 4611686018427387905 1 img ∧ img.Pix.length = 4 ∧
      img.currentState = some curr ∧ curr.clip.Contains (curr.origin.Add ⟨1, 0⟩) = true ∧
      img.Set ⟨1, 0⟩ ⟨255, 0, 0, 255⟩ = none :=
  ⟨_, _, rfl, Reachable.newImage rfl, rfl, rfl, by decide, by decide⟩

/-- C1, amended: on every canvas reachable from `NewImage(w, h)` with `w, h > 0` and
`4*w*h` not above the largest `int`, `Set(p, c)` returns, and a following `At(p)` returns
exactly `c` when `origin + p` lies in the current clip; when it lies outside, `At(p)`
returns the zero colour and `Set` has left the pixel buffer unchanged. -/
theorem set_then_at (w h : Int) (img : Image) (hz : SizeOK w h) (hr : Reachable w h img)
    (p : Point) (c : Color) :
    ∃ curr, img.currentState = some curr ∧ ∃ img1, img.Set p c = some img1 ∧
      (curr.clip.Contains (curr.origin.Add p) = true → img1.At p = some c) ∧
      (curr.clip.Contains (curr.origin.Add p) = false →
        img1.At p = some Color.zero ∧ img1.Pix = img.Pix) := by
  have hw := reachable_wf w h img hz hr
  obtain ⟨h1, h2, _, h4, _, h6⟩ := hw
  obtain ⟨L, b, hL⟩ := stack_cases img.stateStack h4
  have hb := h6 b (by rw [hL]; simp)
  refine ⟨b, currentState_concat img L b hL, ?_⟩
  by_cases hc : b.clip.Contains (b.origin.Add p) = true
  · have hoff := pixel_offset_ok w h img.Pix img.Stride b.clip (b.origin.Add p).X
      (b.origin.Add p).Y h1 h2 hz hb.1.1 hc
    obtain ⟨q, hq, _⟩ := pixSet4_length img.Pix _ c.R c.G c.B c.A hoff.2.1 hoff.2.2.1
      hoff.2.2.2
    refine ⟨{ img with Pix := q }, ?_, ?_, ?_⟩
    · rw [set_concat img L b p c hL, if_pos hc, hoff.1, hq]
      rfl
    · intro _
      rw [at_concat { img with Pix := q } L b p hL, if_pos hc]
      dsimp only
      rw [hoff.1, pixGet4_pixSet4 img.Pix q _ c.R c.G c.B c.A hoff.2.2.2 hq]
      rfl
    · intro hf
      rw [hc] at hf
      exact absurd hf (by decide)
  · refine ⟨img, ?_, ?_, ?_⟩
    · rw [set_concat img L b p c hL, if_neg hc]
    · intro ht
      exact absurd ht hc
    · intro _
      refine ⟨?_, rfl⟩
      rw [at_concat img L b p hL, if_neg hc]

/-- Witness for C1 on the canvas `NewImage(2, 2)`. -/
theorem set_then_at_witness :
    (SizeOK 2 2 ∧ Reachable 2 2 canvas2) ∧
    ∃ curr, canvas2.currentState = some curr ∧
      ∃ img1, canvas2.Set ⟨1, 1⟩ ⟨255, 0, 0, 255⟩ = some img1 ∧
      (curr.clip.Contains (curr.origin.Add ⟨1, 1⟩) = true →
        img1.At ⟨1, 1⟩ = some ⟨255, 0, 0, 255⟩) ∧
      (curr.clip.Contains (curr.origin.Add ⟨1, 1⟩) = false →
        img1.At ⟨1, 1⟩ = some Color.zero ∧ img1.Pix = canvas2.Pix) :=
  ⟨⟨by decide, canvas2_reachable⟩,
    set_then_at 2 2 canvas2 (by decide) canvas2_reachable ⟨1, 1⟩ ⟨255, 0, 0, 255⟩⟩

/-- C2: on a canvas (its view-state stack is never empty) and for every rectangle `r`,
also of zero or negative size or outside the canvas, `PushSubImage(r)` returns and a
following `PopSubImage()` gives back the canvas unchanged: the whole view-state stack
and the pixel buffer are what they were before the push. -/
theorem pushSubImage_then_popSubImage (img : Image) (r : Rectangle)
    (h : img.stateStack ≠ []) :
    ∃ img1, img.PushSubImage r = some img1 ∧ img1.PopSubImage = img ∧
      img1.PopSubImage.stateStack = img.stateStack ∧ img1.PopSubImage.Pix = img.Pix := by
  obtain ⟨L, b, hL⟩ := stack_cases img.stateStack h
  refine ⟨_, pushSubImage_concat img L b r hL, ?_⟩
  have hpop := popSubImage_concat
    { img with stateStack := L ++ [b] ++
        [{ origin := b.origin.Add ⟨r.X, r.Y⟩
           bounds := ⟨(b.origin.Add ⟨r.X, r.Y⟩).X, (b.origin.Add ⟨r.X, r.Y⟩).Y, r.Width,
             r.Height⟩
           clip := b.clip.Overlap
             ⟨(b.origin.Add ⟨r.X, r.Y⟩).X, (b.origin.Add ⟨r.X, r.Y⟩).Y, r.Width, r.Height⟩
           clippingStack := [] }] } (L ++ [b]) _ rfl
  rw [if_neg (by simp)] at hpop
  rw [hpop]
  have he : ({ img with stateStack := L ++ [b] } : Image) = img := by
    cases img
    simp only at hL
    simp [hL]
  refine ⟨he, ?_, rfl⟩
  exact hL.symm

/-- Witness for C2: a rectangle of negative size outside the canvas `NewImage(2, 2)`. -/
theorem pushSubImage_then_popSubImage_witness :
    canvas2.stateStack ≠ [] ∧
    ∃ img1, canvas2.PushSubImage ⟨5, -3, -1, 0⟩ = some img1 ∧ img1.PopSubImage = canvas2 ∧
      img1.PopSubImage.stateStack = canvas2.stateStack ∧
      img1.PopSubImage.Pix = canvas2.Pix :=
  ⟨by decide, pushSubImage_then_popSubImage canvas2 ⟨5, -3, -1, 0⟩ (by decide)⟩

/-- C3: on a canvas and for every list of rectangles `r1..rn`, the `n` calls of
`PushClip` return, and `n` calls of `PopClip` then give back the canvas unchanged (so
the current frame's clip and clip-restore stack are restored exactly); after `k < n`
pops the canvas, and so its clip, is the one that was current just after
`PushClip(r(n-k))`, that is after the first `n-k` pushes. -/
theorem pushClip_popClip_lifo (img : Image) (rs : List Rectangle)
    (h : img.stateStack ≠ []) :
    (∃ img1, pushClips img rs = some img1 ∧ popClips img1 rs.length = some img) ∧
    (∀ k, k < rs.length →
      ∃ img1 img2, pushClips img rs = some img1 ∧ popClips img1 k = some img2 ∧
        pushClips img (rs.take (rs.length - k)) = some img2) := by
  constructor
  · obtain ⟨i1, i2, e1, e2, e3⟩ := push_pop_clips img h rs.length rs (le_refl _)
    simp only [Nat.sub_self, List.take_zero, pushClips, Option.some.injEq] at e3
    subst e3
    exact ⟨i1, e1, e2⟩
  · intro k hk
    exact push_pop_clips img h k rs (le_of_lt hk)

/-- Witness for C3: two nested clips on the canvas `NewImage(2, 2)`. -/
theorem pushClip_popClip_lifo_witness :
    canvas2.stateStack ≠ [] ∧
    ((∃ img1, pushClips canvas2 [⟨0, 0, 1, 2⟩, ⟨0, 1, 2, 1⟩] = some img1 ∧
        popClips img1 [(⟨0, 0, 1, 2⟩ : Rectangle), ⟨0, 1, 2, 1⟩].length = some canvas2) ∧
    (∀ k, k < [(⟨0, 0, 1, 2⟩ : Rectangle), ⟨0, 1, 2, 1⟩].length →
      ∃ img1 img2, pushClips canvas2 [⟨0, 0, 1, 2⟩, ⟨0, 1, 2, 1⟩] = some img1 ∧
        popClips img1 k = some img2 ∧
        pushClips canvas2 ([(⟨0, 0, 1, 2⟩ : Rectangle), ⟨0, 1, 2, 1⟩].take
          ([(⟨0, 0, 1, 2⟩ : Rectangle), ⟨0, 1, 2, 1⟩].length - k)) = some img2)) :=
  ⟨by decide, pushClip_popClip_lifo canvas2 [⟨0, 0, 1, 2⟩, ⟨0, 1, 2, 1⟩] (by decide)⟩

/-- C4, failing input: on `NewImage(5, 1)`, whose clip `(0, 0, 5, 1)` has area `5`, the
calls `PushSubImage((9223372036854775802, 0, 10, 1))` and
`PushClip((9223372036854775802, 0, 10, 1))` both leave the current clip
`(9223372036854775802, 0, 10, 1)`, of area `10`: the subtraction `x2 - x1` of `Overlap`
wraps around, where the comment on `Overlap` promises a width of `0` or less. The new
clip contains no point, so only the claim about the area fails. -/
theorem push_enlarges_clip_area :
    ∃ img curr, NewImage 5 1 = some img ∧ img.currentState = some curr ∧
      curr.clip.Width * curr.clip.Height = 5 ∧
      (∃ img1 c1, img.PushSubImage ⟨9223372036854775802, 0, 10, 1⟩ = some img1 ∧
        img1.currentState = some c1 ∧ c1.clip = ⟨9223372036854775802, 0, 10, 1⟩ ∧
        c1.clip.Width * c1.clip.Height = 10) ∧
      (∃ img2 c2, img.PushClip ⟨9223372036854775802, 0, 10, 1⟩ = some img2 ∧
        img2.currentState = some c2 ∧ c2.clip = ⟨9223372036854775802, 0, 10, 1⟩ ∧
        c2.clip.Width * c2.clip.Height = 10) :=
  ⟨_, _, rfl, rfl, by decide, ⟨_, _, rfl, rfl, by decide, by decide⟩,
    ⟨_, _, rfl, rfl, by decide, by decide⟩⟩

/-- C5, as stated, fails on `NewImage(2, 2)` after `PushClip((0,0,1,1))` and
`PushSubImage((0,0,2,2))`: the point `(1,1)` lies in the canvas extent, in the rectangle
of both frames on the view stack, and no clip is pushed in the top frame, yet the
current clip `(0,0,1,1)` does not contain it. -/
theorem clip_intersection_counterexample :
    NewImage 2 2 = some canvas2 ∧
    (runOps [.pushClip ⟨0, 0, 1, 1⟩, .pushSubImage ⟨0, 0, 2, 2⟩] (canvas2, [[]])).map
        (fun s => (s.1.currentState.map (fun c => c.clip.Contains ⟨1, 1⟩),
          topFrameIntersection 2 2 s.1 s.2 ⟨1, 1⟩)) =
      some (some false, true) := by
  decide

/-- C5, amended: in every state reachable from `NewImage(w, h)` by a run of
`PushSubImage`/`PopSubImage`/`PushClip`/`PopClip` (every run returns), the points of the
current clip are exactly the points of the intersection of the canvas extent
`(0,0,w,h)`, the absolute rectangle of every sub-image frame on the view stack, and the
absolute rectangle of every clip pushed and not yet popped in any frame on the view
stack (the frames below the top one included). -/
theorem clip_is_intersection (w h : Int) (img0 : Image) (h0 : NewImage w h = some img0)
    (ops : List StackOp) :
    ∃ img g curr, runOps ops (img0, [[]]) = some (img, g) ∧
      img.currentState = some curr ∧
      ∀ p, curr.clip.Contains p = allFramesIntersection w h img g p := by
  obtain ⟨hne, hinv⟩ := newImage_stackInv w h img0 h0
  obtain ⟨img, g, hrun, hn, hv⟩ := run_inv w h ops img0 [[]] hne hinv
  obtain ⟨L, b, hL⟩ := stack_cases img.stateStack hn.1
  refine ⟨img, g, b, hrun, currentState_concat img L b hL, ?_⟩
  intro p
  rw [hL, List.reverse_concat] at hv
  cases hg : g.reverse with
  | nil =>
    rw [hg] at hv
    simp [stackInv] at hv
  | cons cl gr =>
    rw [hg] at hv
    have hg1 : g = gr.reverse ++ [cl] := List.reverse_eq_cons_iff.1 hg
    have hc := stack_contains w h L.reverse b cl gr hv p
    rw [Bool.eq_iff_iff, hc]
    simp only [allFramesIntersection, Bool.and_eq_true, List.all_eq_true, hL, hg1]
    constructor
    · rintro ⟨h1, h2, h3⟩
      refine ⟨⟨h1, ?_⟩, ?_⟩
      · intro f hf
        apply h2
        simp only [List.mem_append, List.mem_singleton] at hf
        simp only [List.mem_cons, List.mem_reverse]
        tauto
      · intro cl1 hcl
        apply h3
        simp only [List.mem_append, List.mem_singleton, List.mem_reverse] at hcl
        simp only [List.mem_cons]
        tauto
    · rintro ⟨⟨h1, h2⟩, h3⟩
      refine ⟨h1, ?_, ?_⟩
      · intro f hf
        apply h2
        simp only [List.mem_cons, List.mem_reverse] at hf
        simp only [List.mem_append, List.mem_singleton]
        tauto
      · intro cl1 hcl
        apply h3
        simp only [List.mem_cons] at hcl
        simp only [List.mem_append, List.mem_singleton, List.mem_reverse]
        tauto

/-- Witness for C5 (amended): a clip pushed below a sub-image on `NewImage(2, 2)`. -/
theorem clip_is_intersection_witness :
    NewImage 2 2 = some canvas2 ∧
    ∃ img g curr,
      runOps [.pushClip ⟨0, 0, 1, 1⟩, .pushSubImage ⟨0, 0, 2, 2⟩] (canvas2, [[]]) =
        some (img, g) ∧
      img.currentState = some curr ∧
      ∀ p, curr.clip.Contains p = allFramesIntersection 2 2 img g p :=
  ⟨by decide, clip_is_intersection 2 2 canvas2 (by decide)
    [.pushClip ⟨0, 0, 1, 1⟩, .pushSubImage ⟨0, 0, 2, 2⟩]⟩

/-- C6: in every state reachable from `NewImage(w, h)` the view-state stack has at least
one frame and its bottom frame is the root frame (origin `(0,0)`, bounds `(0,0,w,h)`);
`PopSubImage` on a one-frame stack and `PopClip` on a frame whose clip-restore stack is
empty leave the canvas (stack and pixels) unchanged. -/
theorem stack_never_empty (w h : Int) (img : Image) (hr : Reachable w h img) :
    1 ≤ img.stateStack.length ∧
    (∃ f, img.stateStack.head? = some f ∧ f.origin = ⟨0, 0⟩ ∧ f.bounds = ⟨0, 0, w, h⟩) ∧
    (img.stateStack.length = 1 → img.PopSubImage = img) ∧
    (∀ curr, img.currentState = some curr → curr.clippingStack = [] →
      img.PopClip = some img) := by
  obtain ⟨h4, h5, _⟩ := reachable_stackWF w h img hr
  refine ⟨?_, ?_, ?_, ?_⟩
  · cases hs : img.stateStack with
    | nil => exact absurd hs h4
    | cons f rest => simp
  · cases hs : img.stateStack with
    | nil => exact absurd hs h4
    | cons f rest =>
      rw [hs] at h5
      simp only [List.map_cons, List.head?_cons, Option.some.injEq, Prod.mk.injEq] at h5
      exact ⟨f, rfl, h5.1, h5.2⟩
  · intro hl
    unfold Image.PopSubImage
    rw [if_neg (by omega)]
  · intro curr hc he
    unfold Image.PopClip
    simp [hc, he]

/-- Witness for C6 on the canvas `NewImage(2, 2)`. -/
theorem stack_never_empty_witness :
    Reachable 2 2 canvas2 ∧
    (1 ≤ canvas2.stateStack.length ∧
    (∃ f, canvas2.stateStack.head? = some f ∧ f.origin = ⟨0, 0⟩ ∧
      f.bounds = ⟨0, 0, 2, 2⟩) ∧
    (canvas2.stateStack.length = 1 → canvas2.PopSubImage = canvas2) ∧
    (∀ curr, canvas2.currentState = some curr → curr.clippingStack = [] →
      canvas2.PopClip = some canvas2)) :=
  ⟨canvas2_reachable, stack_never_empty 2 2 canvas2 canvas2_reachable⟩

/-- C9, as stated, fails for a canvas whose size wraps around: the buffer of
`NewImage(4611686018427387905, 1)` has `4*w*h = 4` bytes in 64-bit arithmetic, and its
clip is `(0, 0, 4611686018427387905, 1)`. `At((1, 0))` loads at offset `4` and
`HLine(0, 1, 2, 1, c)` stores at offset `4`, outside `[0, 4)`. -/
theorem pixel_ops_overflow_counterexample :
    ∃ img, NewImage 4611686018427387905 1 = some img ∧ img.Pix.length = 4 ∧
      img.Stride = 4 ∧ img.At ⟨1, 0⟩ = none ∧ pixGet4 img.Pix 4 = none ∧
      img.HLine 0 1 2 1 ⟨255, 0, 0, 255⟩ = none :=
  ⟨_, rfl, rfl, rfl, by decide, by decide, by decide⟩

/-- C9, amended: on every canvas reachable from `NewImage(w, h)`, with `w, h > 0` and
`4*w*h` not above the largest `int`, through the push/pop and drawing operations, `Set`,
`At`, `Fill`, `HLine`, `VLine`, `Border` and `Blit` (from any source canvas reachable
under the same condition, or from the canvas itself) return for all arguments: no load
or store of theirs uses an offset outside `[0, len(Pix))`, since such an access makes
the operation fail. -/
theorem pixel_ops_in_bounds (w h : Int) (img : Image) (hz : SizeOK w h)
    (hr : Reachable w h img) :
    (∀ p c, ∃ img1, img.Set p c = some img1) ∧
    (∀ p, ∃ col, img.At p = some col) ∧
    (∀ c, ∃ img1, img.Fill c = some img1) ∧
    (∀ y x1 x2 t c, ∃ img1, img.HLine y x1 x2 t c = some img1) ∧
    (∀ x y1 y2 t c, ∃ img1, img.VLine x y1 y2 t c = some img1) ∧
    (∀ c, ∃ img1, img.Border c = some img1) ∧
    (∀ (B : Blend) (sw sh : Int) (src : Image) (p : Point), SizeOK sw sh →
      Reachable sw sh src → ∃ img1, Image.Blit B img src p = some img1) ∧
    (∀ (B : Blend) (p : Point), ∃ img1, Image.BlitSelf B img p = some img1) := by
  have hw := reachable_wf w h img hz hr
  refine ⟨?_, ?_, ?_, ?_, ?_, ?_, ?_, ?_⟩
  · intro p c
    obtain ⟨i, hi, _⟩ := set_ok w h img p c hz hw
    exact ⟨i, hi⟩
  · intro p
    exact at_ok w h img p hz hw
  · intro c
    obtain ⟨i, hi, _⟩ := fill_ok w h img c hz hw
    exact ⟨i, hi⟩
  · intro y x1 x2 t c
    obtain ⟨i, hi, _⟩ := hline_ok w h img y x1 x2 t c hz hw
    exact ⟨i, hi⟩
  · intro x y1 y2 t c
    obtain ⟨i, hi, _⟩ := vline_ok w h img x y1 y2 t c hz hw
    exact ⟨i, hi⟩
  · intro c
    obtain ⟨i, hi, _⟩ := border_ok w h img c hz hw
    exact ⟨i, hi⟩
  · intro B sw sh src p hsz hs
    obtain ⟨i, hi, _⟩ := blit_ok B sw sh w h img src p hz hsz hw
      (reachable_wf sw sh src hsz hs)
    exact ⟨i, hi⟩
  · intro B p
    obtain ⟨i, hi, _⟩ := blitSelf_ok B w h img p hz hw
    exact ⟨i, hi⟩

/-- Witness for C9 on the canvas `NewImage(2, 2)`. -/
theorem pixel_ops_in_bounds_witness :
    (SizeOK 2 2 ∧ Reachable 2 2 canvas2) ∧
    ((∀ p c, ∃ img1, canvas2.Set p c = some img1) ∧
    (∀ p, ∃ col, canvas2.At p = some col) ∧
    (∀ c, ∃ img1, canvas2.Fill c = some img1) ∧
    (∀ y x1 x2 t c, ∃ img1, canvas2.HLine y x1 x2 t c = some img1) ∧
    (∀ x y1 y2 t c, ∃ img1, canvas2.VLine x y1 y2 t c = some img1) ∧
    (∀ c, ∃ img1, canvas2.Border c = some img1) ∧
    (∀ (B : Blend) (sw sh : Int) (src : Image) (p : Point), SizeOK sw sh →
      Reachable sw sh src → ∃ img1, Image.Blit B canvas2 src p = some img1) ∧
    (∀ (B : Blend) (p : Point), ∃ img1, Image.BlitSelf B canvas2 p = some img1)) :=
  ⟨⟨by decide, canvas2_reachable⟩,
    pixel_ops_in_bounds 2 2 canvas2 (by decide) canvas2_reachable⟩

/-- C10, as stated, fails in two ways. On `NewImage(4611686018427387905, 2)`, whose buffer
has `4*w*h = 8` bytes in 64-bit arithmetic and whose stride is `4`, the sequence
`PushSubImage((0, 0, 2, 2)); Set((1, 1), c)` stores at offset `8`, outside the buffer: a
run-time panic. On `NewImage(2, 2)` the sub-image `(1, 0, 9223372036854775807, 1)` has a
right edge `1 + 9223372036854775807` that wraps around, so its clip contains no point:
`Set((0, 0), c)` stores nothing and `At((1, 0))` in the parent gives the zero colour,
although `0 <= 0 < 9223372036854775807`, `0 <= 0 < 1` and `(1, 0)` lies in the parent's
clip. -/
theorem subimage_mapping_counterexample :
    ((NewImage 4611686018427387905 2).map (fun i => i.Pix.length) = some 8 ∧
      ((NewImage 4611686018427387905 2).bind
        (fun i => i.PushSubImage ⟨0, 0, 2, 2⟩)).isSome = true ∧
      (NewImage 4611686018427387905 2).bind (fun i => (i.PushSubImage ⟨0, 0, 2, 2⟩).bind
        (fun j => j.Set ⟨1, 1⟩ ⟨0, 0, 255, 255⟩)) = none) ∧
    (NewImage 2 2 = some canvas2 ∧
      canvas2.currentState.map (fun curr =>
        curr.clip.Contains (curr.origin.Add (Point.Add ⟨1, 0⟩ ⟨0, 0⟩))) = some true ∧
      (canvas2.PushSubImage ⟨1, 0, 9223372036854775807, 1⟩).bind
        (fun i => (i.Set ⟨0, 0⟩ ⟨0, 0, 255, 255⟩).bind
          (fun j => j.PopSubImage.At (Point.Add ⟨1, 0⟩ ⟨0, 0⟩))) = some Color.zero) := by
  decide

/-- C10, amended: on every canvas reachable from `NewImage(w, h)` with `w, h > 0` and
`4*w*h` not above the largest `int`, for every rectangle `r` whose right and bottom
edges in absolute coordinates, `(origin.x + r.x) + r.width` and
`(origin.y + r.y) + r.height`, are computed without wraparound, every local point `q` and
colour `c` (all of them `int` values), the sequence `PushSubImage(r); Set(q, c);
PopSubImage()` returns; afterwards `At((r.x+q.x, r.y+q.y))` in the parent frame returns
`c` whenever `0 <= q.x < r.width`, `0 <= q.y < r.height` and the parent point lies inside
the parent's clip; when `q` is outside `(0, 0, r.width, r.height)` the pixel buffer is
unchanged by the sequence. -/
theorem subimage_coordinate_mapping (w h : Int) (img : Image) (hz : SizeOK w h)
    (hr : Reachable w h img) (curr : subImageState) (hcur : img.currentState = some curr)
    (r : Rectangle) (q : Point) (c : Color)
    (hq : I64 q.X ∧ I64 q.Y) (hs : I64 r.Width ∧ I64 r.Height)
    (hex : I64 ((curr.origin.Add ⟨r.X, r.Y⟩).X + r.Width) ∧
      I64 ((curr.origin.Add ⟨r.X, r.Y⟩).Y + r.Height)) :
    ∃ img1 img2, img.PushSubImage r = some img1 ∧ img1.Set q c = some img2 ∧
      ((0 ≤ q.X ∧ q.X < r.Width ∧ 0 ≤ q.Y ∧ q.Y < r.Height ∧
          curr.clip.Contains (curr.origin.Add (Point.Add ⟨r.X, r.Y⟩ q)) = true) →
        img2.PopSubImage.At (Point.Add ⟨r.X, r.Y⟩ q) = some c) ∧
      (Rectangle.Contains ⟨0, 0, r.Width, r.Height⟩ q = false →
        img2.PopSubImage.Pix = img.Pix) := by
  have hw := reachable_wf w h img hz hr
  obtain ⟨h1, h2, _, h4, _, h6⟩ := hw
  obtain ⟨L, b, hL⟩ := stack_cases img.stateStack h4
  have hb := h6 b (by rw [hL]; simp)
  have hbc : b = curr := Option.some.inj ((currentState_concat img L b hL).symm.trans hcur)
  subst hbc
  have hpush := pushSubImage_concat img L b r hL
  generalize hnf : ({ origin := b.origin.Add ⟨r.X, r.Y⟩
                      bounds := ⟨(b.origin.Add ⟨r.X, r.Y⟩).X, (b.origin.Add ⟨r.X, r.Y⟩).Y,
                        r.Width, r.Height⟩
                      clip := b.clip.Overlap
                        ⟨(b.origin.Add ⟨r.X, r.Y⟩).X, (b.origin.Add ⟨r.X, r.Y⟩).Y, r.Width,
                          r.Height⟩
                      clippingStack := [] } : subImageState) = nf at hpush
  have hnfo : nf.origin = b.origin.Add ⟨r.X, r.Y⟩ := by rw [← hnf]
  have hnfc : nf.clip = b.clip.Overlap
      ⟨(b.origin.Add ⟨r.X, r.Y⟩).X, (b.origin.Add ⟨r.X, r.Y⟩).Y, r.Width, r.Height⟩ := by
    rw [← hnf]
  have hpt : nf.origin.Add q = b.origin.Add (Point.Add ⟨r.X, r.Y⟩ q) := by
    rw [hnfo]
    simp only [Point.Add, Point.mk.injEq]
    constructor <;> (unfold wrap64; omega)
  have hoX := wrap64_I64 (b.origin.X + r.X)
  have hoY := wrap64_I64 (b.origin.Y + r.Y)
  have hiff : nf.clip.Contains (nf.origin.Add q) = true ↔
      (b.clip.Contains (b.origin.Add (Point.Add ⟨r.X, r.Y⟩ q)) = true ∧
        Rectangle.Contains ⟨0, 0, r.Width, r.Height⟩ q = true) := by
    rw [← hpt, hnfc, overlap_contains_iff _ _ _ hb.1.2.1.1 hb.1.2.1.2, hnfo]
    simp only [contains_iff, Point.Add] at hex ⊢
    unfold I64 at hq hs hex hoX hoY
    have e1 : wrap64 (wrap64 (b.origin.X + r.X) + r.Width) =
        wrap64 (b.origin.X + r.X) + r.Width := wrap64_of_I64 _ hex.1
    have e2 : wrap64 (wrap64 (b.origin.Y + r.Y) + r.Height) =
        wrap64 (b.origin.Y + r.Y) + r.Height := wrap64_of_I64 _ hex.2
    have e3 : wrap64 (0 + r.Width) = r.Width := by
      rw [zero_add]
      exact wrap64_of_I64 _ hs.1
    have e4 : wrap64 (0 + r.Height) = r.Height := by
      rw [zero_add]
      exact wrap64_of_I64 _ hs.2
    rw [e1, e2, e3, e4]
    generalize wrap64 (b.origin.X + r.X) = ox at *
    generalize wrap64 (b.origin.Y + r.Y) = oy at *
    unfold wrap64
    constructor <;> intro hh <;> omega
  have hset := set_concat { img with stateStack := L ++ [b] ++ [nf] } (L ++ [b]) nf q c rfl
  by_cases hin : nf.clip.Contains (nf.origin.Add q) = true
  · have hpc := (hiff.1 hin).1
    have hoff := pixel_offset_ok w h img.Pix img.Stride b.clip
      (b.origin.Add (Point.Add ⟨r.X, r.Y⟩ q)).X (b.origin.Add (Point.Add ⟨r.X, r.Y⟩ q)).Y
      h1 h2 hz hb.1.1 hpc
    obtain ⟨pix1, hq1, _⟩ := pixSet4_length img.Pix _ c.R c.G c.B c.A hoff.2.1 hoff.2.2.1
      hoff.2.2.2
    rw [if_pos hin] at hset
    dsimp only at hset
    rw [hpt, hoff.1, hq1] at hset
    refine ⟨_, _, hpush, hset, ?_, ?_⟩
    · intro _
      have hpop := popSubImage_concat
        { img with Pix := pix1, stateStack := L ++ [b] ++ [nf] } (L ++ [b]) nf rfl
      rw [if_neg (by simp)] at hpop
      rw [hpop, at_concat _ L b (Point.Add ⟨r.X, r.Y⟩ q) rfl, if_pos hpc]
      dsimp only
      rw [hoff.1, pixGet4_pixSet4 img.Pix pix1 _ c.R c.G c.B c.A hoff.2.2.2 hq1]
      rfl
    · intro hf
      have := (hiff.1 hin).2
      rw [hf] at this
      exact absurd this (by decide)
  · rw [if_neg hin] at hset
    refine ⟨_, _, hpush, hset, ?_, ?_⟩
    · intro hh
      exfalso
      apply hin
      rw [hiff]
      refine ⟨hh.2.2.2.2, ?_⟩
      rw [contains_iff]
      dsimp only
      rw [zero_add, zero_add, wrap64_of_I64 _ hs.1, wrap64_of_I64 _ hs.2]
      omega
    · intro _
      have hpop := popSubImage_concat
        { img with stateStack := L ++ [b] ++ [nf] } (L ++ [b]) nf rfl
      rw [if_neg (by simp)] at hpop
      rw [hpop]

/-- Witness for C10: the sub-image `(1, 1, 1, 1)` of the canvas `NewImage(2, 2)`. -/
theorem subimage_coordinate_mapping_witness :
    (SizeOK 2 2 ∧ Reachable 2 2 canvas2 ∧
      canvas2.currentState = some ⟨⟨0, 0⟩, ⟨0, 0, 2, 2⟩, ⟨0, 0, 2, 2⟩, []⟩ ∧
      (I64 (⟨0, 0⟩ : Point).X ∧ I64 (⟨0, 0⟩ : Point).Y) ∧
      (I64 (⟨1, 1, 1, 1⟩ : Rectangle).Width ∧ I64 (⟨1, 1, 1, 1⟩ : Rectangle).Height) ∧
      I64 ((Point.Add ⟨0, 0⟩ ⟨1, 1⟩).X + 1) ∧ I64 ((Point.Add ⟨0, 0⟩ ⟨1, 1⟩).Y + 1)) ∧
    ∃ img1 img2, canvas2.PushSubImage ⟨1, 1, 1, 1⟩ = some img1 ∧
      img1.Set ⟨0, 0⟩ ⟨0, 0, 255, 255⟩ = some img2 ∧
      ((0 ≤ (⟨0, 0⟩ : Point).X ∧ (⟨0, 0⟩ : Point).X < (⟨1, 1, 1, 1⟩ : Rectangle).Width ∧
          0 ≤ (⟨0, 0⟩ : Point).Y ∧
          (⟨0, 0⟩ : Point).Y < (⟨1, 1, 1, 1⟩ : Rectangle).Height ∧
          Rectangle.Contains ⟨0, 0, 2, 2⟩
            (Point.Add ⟨0, 0⟩ (Point.Add ⟨1, 1⟩ ⟨0, 0⟩)) = true) →
        img2.PopSubImage.At (Point.Add ⟨1, 1⟩ ⟨0, 0⟩) = some ⟨0, 0, 255, 255⟩) ∧
      (Rectangle.Contains ⟨0, 0, 1, 1⟩ ⟨0, 0⟩ = false →
        img2.PopSubImage.Pix = canvas2.Pix) :=
  ⟨⟨by decide, canvas2_reachable, rfl, by decide, by decide, by decide, by decide⟩,
    subimage_coordinate_mapping 2 2 canvas2 (by decide) canvas2_reachable
      ⟨⟨0, 0⟩, ⟨0, 0, 2, 2⟩, ⟨0, 0, 2, 2⟩, []⟩ rfl ⟨1, 1, 1, 1⟩ ⟨0, 0⟩ ⟨0, 0, 255, 255⟩
      (by decide) (by decide) (by decide)⟩

/-- C13, as stated, fails for a canvas whose size wraps around: the buffer of
`NewImage(4611686018427387905, 1)` has `4*w*h = 4` bytes in 64-bit arithmetic. After
`PushClip((1, 0, 1, 1))` the clip is `(1, 0, 1, 1)`, and `Fill(c)` stores the pixel
`(1, 0)` at offset `4`, outside the buffer: a run-time panic. -/
theorem fill_overflow_counterexample :
    (NewImage 4611686018427387905 1).map (fun i => i.Pix.length) = some 4 ∧
    ((NewImage 4611686018427387905 1).bind (fun i => i.PushClip ⟨1, 0, 1, 1⟩)).bind
        (fun j => j.currentState.map (fun curr => curr.clip)) = some ⟨1, 0, 1, 1⟩ ∧
    ((NewImage 4611686018427387905 1).bind (fun i => i.PushClip ⟨1, 0, 1, 1⟩)).bind
        (fun j => j.Fill ⟨255, 0, 0, 255⟩) = none := by
  decide

/-- C13, amended: on every canvas reachable from `NewImage(w, h)` with `w, h > 0` and
`4*w*h` not above the largest `int`, and for every colour `c`, `Fill(c)` returns;
afterwards every pixel whose absolute coordinate lies in the current clip holds exactly
the four channel values of `c` (whatever the alpha of `c`), every pixel of the canvas
outside the current clip is unchanged, and the view-state stack is unchanged; when the
clip is empty the buffer is unchanged. -/
theorem fill_postcondition (w h : Int) (img : Image) (hz : SizeOK w h)
    (hr : Reachable w h img) (c : Color) :
    ∃ curr img1, img.currentState = some curr ∧ img.Fill c = some img1 ∧
      (∀ x y, curr.clip.Contains ⟨x, y⟩ = true → img1.pixel x y = some c.px) ∧
      (∀ x y, 0 ≤ x → x < w → 0 ≤ y → y < h → curr.clip.Contains ⟨x, y⟩ = false →
        img1.pixel x y = img.pixel x y) ∧
      img1.stateStack = img.stateStack ∧
      (curr.clip.isEmpty = true → img1.Pix = img.Pix) := by
  have hw := reachable_wf w h img hz hr
  obtain ⟨curr, hcur, hf⟩ := wf_current w h img hw
  obtain ⟨h1, h2, _, _, _, _⟩ := hw
  obtain ⟨q, hq, _, hg, hu⟩ := fillLoop_spec w h img.Pix img.Stride curr.clip c h1 h2 hz
    hf.1.1
  refine ⟨curr, { img with Pix := q }, hcur, ?_, ?_, ?_, rfl, ?_⟩
  · unfold Image.Fill
    simp only [hcur, Option.bind_eq_bind, Option.some_bind, Option.pure_def, hq]
  · intro x y hc
    exact hg x y hc
  · intro x y h0 hlt h2 h3 hc
    exact hu x y h0 hlt h2 h3 hc
  · intro he
    have := fillLoop_empty img.Pix img.Stride curr.clip c hf.1.2.2 he
    rw [hq] at this
    exact Option.some.inj this

/-- Witness for C13 on the canvas `NewImage(2, 2)`. -/
theorem fill_postcondition_witness :
    (SizeOK 2 2 ∧ Reachable 2 2 canvas2) ∧
    ∃ curr img1, canvas2.currentState = some curr ∧
      canvas2.Fill ⟨255, 0, 0, 0⟩ = some img1 ∧
      (∀ x y, curr.clip.Contains ⟨x, y⟩ = true →
        img1.pixel x y = some (Color.px ⟨255, 0, 0, 0⟩)) ∧
      (∀ x y, 0 ≤ x → x < 2 → 0 ≤ y → y < 2 → curr.clip.Contains ⟨x, y⟩ = false →
        img1.pixel x y = canvas2.pixel x y) ∧
      img1.stateStack = canvas2.stateStack ∧
      (curr.clip.isEmpty = true → img1.Pix = canvas2.Pix) :=
  ⟨⟨by decide, canvas2_reachable⟩,
    fill_postcondition 2 2 canvas2 (by decide) canvas2_reachable ⟨255, 0, 0, 0⟩⟩

/-- C14, as stated, fails in two ways. On `NewImage(4611686018427387905, 1)`, whose buffer
has `4*w*h = 4` bytes in 64-bit arithmetic, `HLine(0, 1, 2, 1, c)` stores the pixel
`(1, 0)` at offset `4`, outside the buffer: a run-time panic. On `NewImage(2, 2)` the
call `HLine(-9223372036854775808, 0, 2, -1, c)` has a non-positive thickness, but the
bottom edge `y + t` of its rectangle wraps around to `9223372036854775807`, and the call
sets all four pixels of the canvas; `VLine` does the same with the axes exchanged. -/
theorem line_overflow_counterexample :
    ((NewImage 4611686018427387905 1).map (fun i => i.Pix.length) = some 4 ∧
      (NewImage 4611686018427387905 1).bind
        (fun i => i.HLine 0 1 2 1 ⟨1, 2, 3, 4⟩) = none) ∧
    (NewImage 2 2 = some canvas2 ∧
      (canvas2.HLine (-9223372036854775808) 0 2 (-1) ⟨1, 2, 3, 4⟩).map (fun i => i.Pix) =
        some [1, 2, 3, 4, 1, 2, 3, 4, 1, 2, 3, 4, 1, 2, 3, 4] ∧
      (canvas2.VLine (-9223372036854775808) 0 2 (-1) ⟨1, 2, 3, 4⟩).map (fun i => i.Pix) =
        some [1, 2, 3, 4, 1, 2, 3, 4, 1, 2, 3, 4, 1, 2, 3, 4]) := by
  decide

/-- C14, amended: on every canvas reachable from `NewImage(w, h)` with `w, h > 0` and
`4*w*h` not above the largest `int`, and for arguments for which the difference
`max(b1,b2) - min(b1,b2)`, the edge `a + t` and the translation of the line's rectangle by
the origin are computed without wraparound, `HLine(a, b1, b2, t, c)` returns and sets to
`c` exactly the pixels whose local coordinates `(x, y)` satisfy
`min(b1,b2) <= x < max(b1,b2)` and `a <= y < a+t` and whose absolute position
`origin + (x, y)` lies in the current clip; every other pixel of the canvas is unchanged.
The call with `b1` and `b2` exchanged gives the same canvas, and a non-positive thickness
or `b1 = b2` leaves the canvas unchanged. `VLine(a, b1, b2, t, c)` satisfies the same
statement with the axes exchanged. -/
theorem line_postcondition (w h : Int) (img : Image) (hz : SizeOK w h)
    (hr : Reachable w h img) (curr : subImageState) (hcur : img.currentState = some curr)
    (a b1 b2 t : Int) (c : Color) (hd : I64 (max b1 b2 - min b1 b2))
    (hH : Rectangle.Exact ⟨min b1 b2, a, max b1 b2 - min b1 b2, t⟩ curr.origin)
    (hV : Rectangle.Exact ⟨a, min b1 b2, t, max b1 b2 - min b1 b2⟩ curr.origin) :
    (∃ img1, img.HLine a b1 b2 t c = some img1 ∧ img1.stateStack = img.stateStack ∧
      (∀ x y, I64 x → I64 y → min b1 b2 ≤ x ∧ x < max b1 b2 ∧ a ≤ y ∧ y < a + t →
        curr.clip.Contains (curr.origin.Add ⟨x, y⟩) = true →
        img1.pixel (curr.origin.Add ⟨x, y⟩).X (curr.origin.Add ⟨x, y⟩).Y = some c.px) ∧
      (∀ x y, I64 x → I64 y →
        0 ≤ (curr.origin.Add ⟨x, y⟩).X → (curr.origin.Add ⟨x, y⟩).X < w →
        0 ≤ (curr.origin.Add ⟨x, y⟩).Y → (curr.origin.Add ⟨x, y⟩).Y < h →
        ¬ ((min b1 b2 ≤ x ∧ x < max b1 b2 ∧ a ≤ y ∧ y < a + t) ∧
            curr.clip.Contains (curr.origin.Add ⟨x, y⟩) = true) →
        img1.pixel (curr.origin.Add ⟨x, y⟩).X (curr.origin.Add ⟨x, y⟩).Y =
          img.pixel (curr.origin.Add ⟨x, y⟩).X (curr.origin.Add ⟨x, y⟩).Y) ∧
      img.HLine a b2 b1 t c = some img1 ∧
      ((t ≤ 0 ∨ b1 = b2) → img1 = img)) ∧
    (∃ img2, img.VLine a b1 b2 t c = some img2 ∧ img2.stateStack = img.stateStack ∧
      (∀ x y, I64 x → I64 y → min b1 b2 ≤ y ∧ y < max b1 b2 ∧ a ≤ x ∧ x < a + t →
        curr.clip.Contains (curr.origin.Add ⟨x, y⟩) = true →
        img2.pixel (curr.origin.Add ⟨x, y⟩).X (curr.origin.Add ⟨x, y⟩).Y = some c.px) ∧
      (∀ x y, I64 x → I64 y →
        0 ≤ (curr.origin.Add ⟨x, y⟩).X → (curr.origin.Add ⟨x, y⟩).X < w →
        0 ≤ (curr.origin.Add ⟨x, y⟩).Y → (curr.origin.Add ⟨x, y⟩).Y < h →
        ¬ ((min b1 b2 ≤ y ∧ y < max b1 b2 ∧ a ≤ x ∧ x < a + t) ∧
            curr.clip.Contains (curr.origin.Add ⟨x, y⟩) = true) →
        img2.pixel (curr.origin.Add ⟨x, y⟩).X (curr.origin.Add ⟨x, y⟩).Y =
          img.pixel (curr.origin.Add ⟨x, y⟩).X (curr.origin.Add ⟨x, y⟩).Y) ∧
      img.VLine a b2 b1 t c = some img2 ∧
      ((t ≤ 0 ∨ b1 = b2) → img2 = img)) := by
  have hw := reachable_wf w h img hz hr
  have hwd : wrap64 (max b1 b2 - min b1 b2) = max b1 b2 - min b1 b2 := wrap64_of_I64 _ hd
  obtain ⟨img1, he1, hs1, hg1, hu1, hn1⟩ :=
    fillAbsRect_local w h img curr ⟨min b1 b2, a, max b1 b2 - min b1 b2, t⟩ c hz hw hcur hH
  obtain ⟨img2, he2, hs2, hg2, hu2, hn2⟩ :=
    fillAbsRect_local w h img curr ⟨a, min b1 b2, t, max b1 b2 - min b1 b2⟩ c hz hw hcur hV
  have hcH : ∀ x y, Rectangle.Contains ⟨min b1 b2, a, max b1 b2 - min b1 b2, t⟩ ⟨x, y⟩ = true ↔
      (min b1 b2 ≤ x ∧ x < max b1 b2 ∧ a ≤ y ∧ y < a + t) := by
    intro x y
    have e1 : I64 (min b1 b2 + (max b1 b2 - min b1 b2)) := hH.1.2.1
    have e2 : I64 (a + t) := hH.2.2.1
    rw [contains_iff]
    dsimp only
    rw [wrap64_of_I64 _ e1, wrap64_of_I64 _ e2]
    omega
  have hcV : ∀ x y, Rectangle.Contains ⟨a, min b1 b2, t, max b1 b2 - min b1 b2⟩ ⟨x, y⟩ = true ↔
      (min b1 b2 ≤ y ∧ y < max b1 b2 ∧ a ≤ x ∧ x < a + t) := by
    intro x y
    have e1 : I64 (a + t) := hV.1.2.1
    have e2 : I64 (min b1 b2 + (max b1 b2 - min b1 b2)) := hV.2.2.1
    rw [contains_iff]
    dsimp only
    rw [wrap64_of_I64 _ e1, wrap64_of_I64 _ e2]
    omega
  refine ⟨⟨img1, ?_, hs1.1, ?_, ?_, ?_, ?_⟩, ⟨img2, ?_, hs2.1, ?_, ?_, ?_, ?_⟩⟩
  · rw [hline_eq, hwd]
    exact he1
  · intro x y hx hy hxy hc
    exact hg1 x y hx hy ((hcH x y).2 hxy) hc
  · intro x y hx hy h0 hlt h2 h3 hn
    apply hu1 x y hx hy h0 hlt h2 h3
    rintro ⟨hrc, hc⟩
    exact hn ⟨(hcH x y).1 hrc, hc⟩
  · rw [hline_eq, min_comm, max_comm, hwd]
    exact he1
  · intro hd
    apply hn1
    dsimp only
    rcases hd with hd | hd
    · exact Or.inr hd
    · left
      subst hd
      simp
  · rw [vline_eq, hwd]
    exact he2
  · intro x y hx hy hxy hc
    exact hg2 x y hx hy ((hcV x y).2 hxy) hc
  · intro x y hx hy h0 hlt h2 h3 hn
    apply hu2 x y hx hy h0 hlt h2 h3
    rintro ⟨hrc, hc⟩
    exact hn ⟨(hcV x y).1 hrc, hc⟩
  · rw [vline_eq, min_comm, max_comm, hwd]
    exact he2
  · intro hd
    apply hn2
    dsimp only
    rcases hd with hd | hd
    · exact Or.inl hd
    · right
      subst hd
      simp

/-- Witness for C14 on the canvas `NewImage(2, 2)`: a line given right to left. -/
theorem line_postcondition_witness :
    (SizeOK 2 2 ∧ Reachable 2 2 canvas2 ∧
      canvas2.currentState = some ⟨⟨0, 0⟩, ⟨0, 0, 2, 2⟩, ⟨0, 0, 2, 2⟩, []⟩ ∧
      I64 (max 2 0 - min 2 0) ∧
      Rectangle.Exact ⟨min 2 0, 1, max 2 0 - min 2 0, 1⟩ ⟨0, 0⟩ ∧
      Rectangle.Exact ⟨1, min 2 0, 1, max 2 0 - min 2 0⟩ ⟨0, 0⟩) ∧
    ((∃ img1, canvas2.HLine 1 2 0 1 ⟨1, 2, 3, 4⟩ = some img1 ∧
        img1.stateStack = canvas2.stateStack ∧
        (∀ x y, I64 x → I64 y → min 2 0 ≤ x ∧ x < max 2 0 ∧ 1 ≤ y ∧ y < 1 + 1 →
          Rectangle.Contains ⟨0, 0, 2, 2⟩ (Point.Add ⟨0, 0⟩ ⟨x, y⟩) = true →
          img1.pixel (Point.Add ⟨0, 0⟩ ⟨x, y⟩).X (Point.Add ⟨0, 0⟩ ⟨x, y⟩).Y =
            some (Color.px ⟨1, 2, 3, 4⟩)) ∧
        (∀ x y, I64 x → I64 y →
          0 ≤ (Point.Add ⟨0, 0⟩ ⟨x, y⟩).X → (Point.Add ⟨0, 0⟩ ⟨x, y⟩).X < 2 →
          0 ≤ (Point.Add ⟨0, 0⟩ ⟨x, y⟩).Y → (Point.Add ⟨0, 0⟩ ⟨x, y⟩).Y < 2 →
          ¬ ((min 2 0 ≤ x ∧ x < max 2 0 ∧ 1 ≤ y ∧ y < 1 + 1) ∧
              Rectangle.Contains ⟨0, 0, 2, 2⟩ (Point.Add ⟨0, 0⟩ ⟨x, y⟩) = true) →
          img1.pixel (Point.Add ⟨0, 0⟩ ⟨x, y⟩).X (Point.Add ⟨0, 0⟩ ⟨x, y⟩).Y =
            canvas2.pixel (Point.Add ⟨0, 0⟩ ⟨x, y⟩).X (Point.Add ⟨0, 0⟩ ⟨x, y⟩).Y) ∧
        canvas2.HLine 1 0 2 1 ⟨1, 2, 3, 4⟩ = some img1 ∧
        (((1 : Int) ≤ 0 ∨ (2 : Int) = 0) → img1 = canvas2)) ∧
      (∃ img2, canvas2.VLine 1 2 0 1 ⟨1, 2, 3, 4⟩ = some img2 ∧
        img2.stateStack = canvas2.stateStack ∧
        (∀ x y, I64 x → I64 y → min 2 0 ≤ y ∧ y < max 2 0 ∧ 1 ≤ x ∧ x < 1 + 1 →
          Rectangle.Contains ⟨0, 0, 2, 2⟩ (Point.Add ⟨0, 0⟩ ⟨x, y⟩) = true →
          img2.pixel (Point.Add ⟨0, 0⟩ ⟨x, y⟩).X (Point.Add ⟨0, 0⟩ ⟨x, y⟩).Y =
            some (Color.px ⟨1, 2, 3, 4⟩)) ∧
        (∀ x y, I64 x → I64 y →
          0 ≤ (Point.Add ⟨0, 0⟩ ⟨x, y⟩).X → (Point.Add ⟨0, 0⟩ ⟨x, y⟩).X < 2 →
          0 ≤ (Point.Add ⟨0, 0⟩ ⟨x, y⟩).Y → (Point.Add ⟨0, 0⟩ ⟨x, y⟩).Y < 2 →
          ¬ ((min 2 0 ≤ y ∧ y < max 2 0 ∧ 1 ≤ x ∧ x < 1 + 1) ∧
              Rectangle.Contains ⟨0, 0, 2, 2⟩ (Point.Add ⟨0, 0⟩ ⟨x, y⟩) = true) →
          img2.pixel (Point.Add ⟨0, 0⟩ ⟨x, y⟩).X (Point.Add ⟨0, 0⟩ ⟨x, y⟩).Y =
            canvas2.pixel (Point.Add ⟨0, 0⟩ ⟨x, y⟩).X (Point.Add ⟨0, 0⟩ ⟨x, y⟩).Y) ∧
        canvas2.VLine 1 0 2 1 ⟨1, 2, 3, 4⟩ = some img2 ∧
        (((1 : Int) ≤ 0 ∨ (2 : Int) = 0) → img2 = canvas2))) :=
  ⟨⟨by decide, canvas2_reachable, rfl, by decide, by decide, by decide⟩,
    line_postcondition 2 2 canvas2 (by decide) canvas2_reachable
      ⟨⟨0, 0⟩, ⟨0, 0, 2, 2⟩, ⟨0, 0, 2, 2⟩, []⟩ rfl 1 2 0 1 ⟨1, 2, 3, 4⟩ (by decide)
      (by decide) (by decide)⟩

/-- C15, as stated, fails in two ways. On `NewImage(4611686018427387905, 1)`, whose buffer
has `4*w*h = 4` bytes in 64-bit arithmetic, `Border(c)` in the sub-image `(1, 0, 1, 1)`
stores the pixel `(1, 0)` at offset `4`, outside the buffer: a run-time panic. On
`NewImage(2, 2)` the sub-image `(-9223372036854775808, 0, -9223372036854775807, 2)` has a
negative width, so no local `x` satisfies `0 <= x < w`; its right edge wraps around to
`1`, its clip is `(0, 0, 1, 2)`, and `Border(c)` sets the pixels `(0, 0)` and `(0, 1)`:
the line `VLine(w-1, 0, h, 1, c)` lands on the absolute column `0`. -/
theorem border_overflow_counterexample :
    ((NewImage 4611686018427387905 1).map (fun i => i.Pix.length) = some 4 ∧
      ((NewImage 4611686018427387905 1).bind (fun i => i.PushSubImage ⟨1, 0, 1, 1⟩)).bind
        (fun j => j.Border ⟨9, 9, 9, 255⟩) = none) ∧
    (NewImage 2 2 = some canvas2 ∧
      (canvas2.PushSubImage ⟨-9223372036854775808, 0, -9223372036854775807, 2⟩).bind
        (fun j => j.currentState.map (fun curr => (curr.bounds.Width, curr.clip))) =
          some (-9223372036854775807, ⟨0, 0, 1, 2⟩) ∧
      (canvas2.PushSubImage ⟨-9223372036854775808, 0, -9223372036854775807, 2⟩).bind
        (fun j => (j.Border ⟨9, 9, 9, 255⟩).map (fun i => i.Pix)) =
          some [9, 9, 9, 255, 0, 0, 0, 0, 9, 9, 9, 255, 0, 0, 0, 0]) := by
  decide

/-- C15, amended: on every canvas reachable from `NewImage(w, h)` with `w, h > 0` and
`4*w*h` not above the largest `int`, with `(W, H)` the size of the current frame's bounds,
when the right and bottom edges `origin.x + W` and `origin.y + H` of the bounds are
computed without wraparound, `Border(c)` returns and sets to `c` the pixels at local
`(x, y)` with `0 <= x < W`, `0 <= y < H` and `x = 0` or `x = W-1` or `y = 0` or `y = H-1`
whose absolute position lies in the current clip; every other pixel of the canvas
(interior pixels, pixels outside the clip) is unchanged. This covers frames of zero or
negative size, whose clip is empty. -/
theorem border_postcondition (w h : Int) (img : Image) (hz : SizeOK w h)
    (hr : Reachable w h img) (curr : subImageState) (hcur : img.currentState = some curr)
    (c : Color) (hs : I64 curr.bounds.Width ∧ I64 curr.bounds.Height)
    (hex : I64 (curr.origin.X + curr.bounds.Width) ∧
      I64 (curr.origin.Y + curr.bounds.Height)) :
    ∃ img1, img.Border c = some img1 ∧ img1.stateStack = img.stateStack ∧
      (∀ x y, I64 x → I64 y →
          (0 ≤ x ∧ x < curr.bounds.Width ∧ 0 ≤ y ∧ y < curr.bounds.Height ∧
            (x = 0 ∨ x = curr.bounds.Width - 1 ∨ y = 0 ∨ y = curr.bounds.Height - 1)) →
          curr.clip.Contains (curr.origin.Add ⟨x, y⟩) = true →
          img1.pixel (curr.origin.Add ⟨x, y⟩).X (curr.origin.Add ⟨x, y⟩).Y = some c.px) ∧
      (∀ x y, I64 x → I64 y →
          0 ≤ (curr.origin.Add ⟨x, y⟩).X → (curr.origin.Add ⟨x, y⟩).X < w →
          0 ≤ (curr.origin.Add ⟨x, y⟩).Y → (curr.origin.Add ⟨x, y⟩).Y < h →
          ¬ ((0 ≤ x ∧ x < curr.bounds.Width ∧ 0 ≤ y ∧ y < curr.bounds.Height ∧
              (x = 0 ∨ x = curr.bounds.Width - 1 ∨ y = 0 ∨ y = curr.bounds.Height - 1)) ∧
            curr.clip.Contains (curr.origin.Add ⟨x, y⟩) = true) →
          img1.pixel (curr.origin.Add ⟨x, y⟩).X (curr.origin.Add ⟨x, y⟩).Y =
            img.pixel (curr.origin.Add ⟨x, y⟩).X (curr.origin.Add ⟨x, y⟩).Y) := by
  have hw := reachable_wf w h img hz hr
  obtain ⟨curr1, hcur1, hf⟩ := wf_current w h img hw
  have hcc : curr1 = curr := Option.some.inj (hcur1.symm.trans hcur)
  subst hcc
  have hfb : FrameBounds curr1 := by
    apply reachable_frameBounds w h img hr
    unfold Image.currentState at hcur
    exact List.mem_of_mem_getLast? hcur
  obtain ⟨ho, hbx, hby, hcb, _⟩ := hfb
  by_cases hne : ∃ P : Point, curr1.clip.Contains P = true
  · obtain ⟨P, hP⟩ := hne
    have hb := hcb P hP
    have hcv := hf.1.1 P hP
    rw [contains_iff, hbx, hby, wrap64_of_I64 _ hex.1, wrap64_of_I64 _ hex.2] at hb
    have hzM := hz.2.2
    have hwb : w ≤ 9223372036854775806 := by
      have := hz.1
      have := hz.2.1
      nlinarith
    have hhb : h ≤ 9223372036854775806 := by
      have := hz.1
      have := hz.2.1
      nlinarith
    have hW0 : 0 < curr1.bounds.Width := by omega
    have hH0 : 0 < curr1.bounds.Height := by omega
    have hoX : curr1.origin.X < 9223372036854775806 := by omega
    have hoY : curr1.origin.Y < 9223372036854775806 := by omega
    have hH : ∀ (i : Image) (y : Int),
        i.HLine y 0 curr1.bounds.Width 1 c = i.fillAbsRect ⟨0, y, curr1.bounds.Width, 1⟩ c := by
      intro i y
      unfold Image.HLine
      rw [if_neg (by omega)]
      dsimp only
      rw [sub_zero, wrap64_of_I64 _ hs.1]
    have hV : ∀ (i : Image) (x : Int),
        i.VLine x 0 curr1.bounds.Height 1 c =
          i.fillAbsRect ⟨x, 0, 1, curr1.bounds.Height⟩ c := by
      intro i x
      unfold Image.VLine
      rw [if_neg (by omega)]
      dsimp only
      rw [sub_zero, wrap64_of_I64 _ hs.2]
    have hw1 : wrap64 (curr1.bounds.Width - 1) = curr1.bounds.Width - 1 := by
      apply wrap64_of_I64
      unfold I64 at hs ⊢
      omega
    have hh1 : wrap64 (curr1.bounds.Height - 1) = curr1.bounds.Height - 1 := by
      apply wrap64_of_I64
      unfold I64 at hs ⊢
      omega
    have hE1 : Rectangle.Exact ⟨0, 0, curr1.bounds.Width, 1⟩ curr1.origin := by
      unfold Rectangle.Exact I64 at *
      dsimp only
      omega
    have hE2 : Rectangle.Exact ⟨0, curr1.bounds.Height - 1, curr1.bounds.Width, 1⟩
        curr1.origin := by
      unfold Rectangle.Exact I64 at *
      dsimp only
      omega
    have hE3 : Rectangle.Exact ⟨0, 0, 1, curr1.bounds.Height⟩ curr1.origin := by
      unfold Rectangle.Exact I64 at *
      dsimp only
      omega
    have hE4 : Rectangle.Exact ⟨curr1.bounds.Width - 1, 0, 1, curr1.bounds.Height⟩
        curr1.origin := by
      unfold Rectangle.Exact I64 at *
      dsimp only
      omega
    obtain ⟨i1, e1, s1, g1, u1, _⟩ := fillAbsRect_local w h img curr1
      ⟨0, 0, curr1.bounds.Width, 1⟩ c hz hw hcur hE1
    have w1 := sameView_wf w h img i1 hw s1
    have c1 := (currentState_sameView _ _ s1).trans hcur
    obtain ⟨i2, e2, s2, g2, u2, _⟩ := fillAbsRect_local w h i1 curr1
      ⟨0, curr1.bounds.Height - 1, curr1.bounds.Width, 1⟩ c hz w1 c1 hE2
    have w2 := sameView_wf w h i1 i2 w1 s2
    have c2 := (currentState_sameView _ _ s2).trans c1
    obtain ⟨i3, e3, s3, g3, u3, _⟩ := fillAbsRect_local w h i2 curr1
      ⟨0, 0, 1, curr1.bounds.Height⟩ c hz w2 c2 hE3
    have w3 := sameView_wf w h i2 i3 w2 s3
    have c3 := (currentState_sameView _ _ s3).trans c2
    obtain ⟨i4, e4, s4, g4, u4, _⟩ := fillAbsRect_local w h i3 curr1
      ⟨curr1.bounds.Width - 1, 0, 1, curr1.bounds.Height⟩ c hz w3 c3 hE4
    have hborder : img.Border c = some i4 := by
      unfold Image.Border
      simp only [hcur, Option.bind_eq_bind, Option.some_bind, hH, hV, hw1, hh1, e1, e2, e3,
        e4]
    have hc1 : ∀ x y, Rectangle.Contains ⟨0, 0, curr1.bounds.Width, 1⟩ ⟨x, y⟩ = true ↔
        (0 ≤ x ∧ x < curr1.bounds.Width ∧ y = 0) := by
      intro x y
      rw [contains_exact _ _ _ hE1]
      dsimp only
      omega
    have hc2 : ∀ x y, Rectangle.Contains
        ⟨0, curr1.bounds.Height - 1, curr1.bounds.Width, 1⟩ ⟨x, y⟩ = true ↔
        (0 ≤ x ∧ x < curr1.bounds.Width ∧ y = curr1.bounds.Height - 1) := by
      intro x y
      rw [contains_exact _ _ _ hE2]
      dsimp only
      omega
    have hc3 : ∀ x y, Rectangle.Contains ⟨0, 0, 1, curr1.bounds.Height⟩ ⟨x, y⟩ = true ↔
        (0 ≤ y ∧ y < curr1.bounds.Height ∧ x = 0) := by
      intro x y
      rw [contains_exact _ _ _ hE3]
      dsimp only
      omega
    have hc4 : ∀ x y, Rectangle.Contains
        ⟨curr1.bounds.Width - 1, 0, 1, curr1.bounds.Height⟩ ⟨x, y⟩ = true ↔
        (0 ≤ y ∧ y < curr1.bounds.Height ∧ x = curr1.bounds.Width - 1) := by
      intro x y
      rw [contains_exact _ _ _ hE4]
      dsimp only
      omega
    have hin : ∀ x y, I64 x → I64 y →
        curr1.clip.Contains (curr1.origin.Add ⟨x, y⟩) = true →
        (0 ≤ x ∧ x < curr1.bounds.Width ∧ 0 ≤ y ∧ y < curr1.bounds.Height) ∧
          ((0 ≤ (curr1.origin.Add ⟨x, y⟩).X ∧ (curr1.origin.Add ⟨x, y⟩).X < w) ∧
            (0 ≤ (curr1.origin.Add ⟨x, y⟩).Y ∧ (curr1.origin.Add ⟨x, y⟩).Y < h)) := by
      intro x y hx hy hc
      have hb1 := hcb _ hc
      have hcv1 := hf.1.1 _ hc
      rw [contains_iff, hbx, hby, wrap64_of_I64 _ hex.1, wrap64_of_I64 _ hex.2] at hb1
      refine ⟨?_, ⟨hcv1.1, hcv1.2.1⟩, hcv1.2.2.1, hcv1.2.2.2⟩
      simp only [Point.Add] at hb1
      unfold I64 at hx hy ho hs
      revert hb1
      unfold wrap64
      omega
    refine ⟨i4, hborder, ?_, ?_, ?_⟩
    · rw [s4.1, s3.1, s2.1, s1.1]
    · intro x y hx hy hxy hc
      have hcanvas := (hin x y hx hy hc).2
      by_cases h4 : Rectangle.Contains ⟨curr1.bounds.Width - 1, 0, 1, curr1.bounds.Height⟩
          ⟨x, y⟩ = true
      · exact g4 x y hx hy h4 hc
      · rw [u4 x y hx hy hcanvas.1.1 hcanvas.1.2 hcanvas.2.1 hcanvas.2.2 (fun hh => h4 hh.1)]
        by_cases h3 : Rectangle.Contains ⟨0, 0, 1, curr1.bounds.Height⟩ ⟨x, y⟩ = true
        · exact g3 x y hx hy h3 hc
        · rw [u3 x y hx hy hcanvas.1.1 hcanvas.1.2 hcanvas.2.1 hcanvas.2.2
            (fun hh => h3 hh.1)]
          by_cases h2 : Rectangle.Contains
              ⟨0, curr1.bounds.Height - 1, curr1.bounds.Width, 1⟩ ⟨x, y⟩ = true
          · exact g2 x y hx hy h2 hc
          · rw [u2 x y hx hy hcanvas.1.1 hcanvas.1.2 hcanvas.2.1 hcanvas.2.2
              (fun hh => h2 hh.1)]
            apply g1 x y hx hy _ hc
            rw [hc2] at h2
            rw [hc3] at h3
            rw [hc4] at h4
            rw [hc1]
            omega
    · intro x y hx hy h0 hlt h2 h3 hn
      have hnot : ∀ r : Rectangle,
          (r.Contains ⟨x, y⟩ = true → (x = 0 ∨ x = curr1.bounds.Width - 1 ∨ y = 0 ∨
            y = curr1.bounds.Height - 1)) →
          ¬ (r.Contains ⟨x, y⟩ = true ∧
            curr1.clip.Contains (curr1.origin.Add ⟨x, y⟩) = true) := by
        rintro r hedge ⟨hrc, hc⟩
        apply hn
        have := (hin x y hx hy hc).1
        exact ⟨⟨this.1, this.2.1, this.2.2.1, this.2.2.2, hedge hrc⟩, hc⟩
      rw [u4 x y hx hy h0 hlt h2 h3 (hnot _ (by
          intro hrc
          rw [hc4] at hrc
          omega)),
        u3 x y hx hy h0 hlt h2 h3 (hnot _ (by
          intro hrc
          rw [hc3] at hrc
          omega)),
        u2 x y hx hy h0 hlt h2 h3 (hnot _ (by
          intro hrc
          rw [hc2] at hrc
          omega)),
        u1 x y hx hy h0 hlt h2 h3 (hnot _ (by
          intro hrc
          rw [hc1] at hrc
          omega))]
  · have hnone : ∀ (i : Image), WF w h i → i.currentState = some curr1 →
        ∀ r : Rectangle, i.fillAbsRect r c = some i := by
      intro i hwi hci r
      obtain ⟨cc, i1, hcc, e1, _, _, _, hemp⟩ := fillAbsRect_spec w h i r c hz hwi
      have hq : cc = curr1 := Option.some.inj (hcc.symm.trans hci)
      subst hq
      rw [e1, hemp (fun x y hh => hne ⟨⟨x, y⟩, hh.1⟩)]
    have hborder : img.Border c = some img := by
      unfold Image.Border
      simp only [hcur, Option.bind_eq_bind, Option.some_bind, hline_eq, vline_eq,
        hnone img hw hcur]
    refine ⟨img, hborder, rfl, ?_, fun _ _ _ _ _ _ _ _ _ => rfl⟩
    intro x y _ _ _ hc
    exact absurd ⟨_, hc⟩ hne

/-- Witness for C15 on the canvas `NewImage(2, 2)`. -/
theorem border_postcondition_witness :
    (SizeOK 2 2 ∧ Reachable 2 2 canvas2 ∧
      canvas2.currentState = some ⟨⟨0, 0⟩, ⟨0, 0, 2, 2⟩, ⟨0, 0, 2, 2⟩, []⟩ ∧
      (I64 (2 : Int) ∧ I64 (2 : Int)) ∧ (I64 ((0 : Int) + 2) ∧ I64 ((0 : Int) + 2))) ∧
    ∃ img1, canvas2.Border ⟨9, 9, 9, 255⟩ = some img1 ∧
      img1.stateStack = canvas2.stateStack ∧
      (∀ x y, I64 x → I64 y →
          (0 ≤ x ∧ x < 2 ∧ 0 ≤ y ∧ y < 2 ∧ (x = 0 ∨ x = 2 - 1 ∨ y = 0 ∨ y = 2 - 1)) →
          Rectangle.Contains ⟨0, 0, 2, 2⟩ (Point.Add ⟨0, 0⟩ ⟨x, y⟩) = true →
          img1.pixel (Point.Add ⟨0, 0⟩ ⟨x, y⟩).X (Point.Add ⟨0, 0⟩ ⟨x, y⟩).Y =
            some (Color.px ⟨9, 9, 9, 255⟩)) ∧
      (∀ x y, I64 x → I64 y →
          0 ≤ (Point.Add ⟨0, 0⟩ ⟨x, y⟩).X → (Point.Add ⟨0, 0⟩ ⟨x, y⟩).X < 2 →
          0 ≤ (Point.Add ⟨0, 0⟩ ⟨x, y⟩).Y → (Point.Add ⟨0, 0⟩ ⟨x, y⟩).Y < 2 →
          ¬ ((0 ≤ x ∧ x < 2 ∧ 0 ≤ y ∧ y < 2 ∧ (x = 0 ∨ x = 2 - 1 ∨ y = 0 ∨ y = 2 - 1)) ∧
            Rectangle.Contains ⟨0, 0, 2, 2⟩ (Point.Add ⟨0, 0⟩ ⟨x, y⟩) = true) →
          img1.pixel (Point.Add ⟨0, 0⟩ ⟨x, y⟩).X (Point.Add ⟨0, 0⟩ ⟨x, y⟩).Y =
            canvas2.pixel (Point.Add ⟨0, 0⟩ ⟨x, y⟩).X (Point.Add ⟨0, 0⟩ ⟨x, y⟩).Y) :=
  ⟨⟨by decide, canvas2_reachable, rfl, by decide, by decide⟩,
    border_postcondition 2 2 canvas2 (by decide) canvas2_reachable
      ⟨⟨0, 0⟩, ⟨0, 0, 2, 2⟩, ⟨0, 0, 2, 2⟩, []⟩ rfl ⟨9, 9, 9, 255⟩ (by decide) (by decide)⟩

/-- C11, as stated, fails in two ways. The destination `NewImage(4611686018427387905, 1)`
has a buffer of `4*w*h = 4` bytes in 64-bit arithmetic, and blitting the opaque `1 x 1`
canvas at `(1, 0)` stores at offset `4`, outside the buffer: a run-time panic. And when
the source view is the sub-image `(0, 0, 9223372036854775807, 1)` of the opaque `1 x 1`
canvas, blitted at `(1, 0)` onto `NewImage(2, 2)`, the right edge
`1 + 9223372036854775807` of the destination rectangle wraps around, the loop over `x`
is empty and the destination is unchanged, although for the pixel `(1, 0)` the offsets
are `i = j = 0`, inside the source bounds size, and `so + (0, 0)` lies in the source
clip. -/
theorem blit_overflow_counterexample :
    ((NewImage 4611686018427387905 1).map (fun i => i.Pix.length) = some 4 ∧
      (NewImage 4611686018427387905 1).bind
        (fun i => Image.Blit sampleBlend i opaque1 ⟨1, 0⟩) = none) ∧
    (NewImage 2 2 = some canvas2 ∧
      (opaque1.PushSubImage ⟨0, 0, 9223372036854775807, 1⟩).bind
        (fun s => s.currentState.map
          (fun sc => (sc.origin, sc.bounds.Width, sc.bounds.Height,
            sc.clip.Contains ⟨0, 0⟩))) =
        some (⟨0, 0⟩, 9223372036854775807, 1, true) ∧
      (opaque1.PushSubImage ⟨0, 0, 9223372036854775807, 1⟩).bind
        (fun s => s.pixel 0 0) = some (7, 8, 9, 255) ∧
      (opaque1.PushSubImage ⟨0, 0, 9223372036854775807, 1⟩).bind
        (fun s => Image.Blit sampleBlend canvas2 s ⟨1, 0⟩) = some canvas2 ∧
      canvas2.pixel 1 0 = some (0, 0, 0, 0)) := by
  decide

/-- C11, amended: for canvases `img` (destination) and `src` (a different canvas)
reachable from `NewImage` with sizes whose `4*w*h` is not above the largest `int`, the
pixels of `src` all of alpha 255, with `so`, `(sw, sh)`, `sc` the origin, bounds size and
clip of the source's current view and `d0`, `dc` the origin and clip of the
destination's, and when the corners `d0 + p` and `d0 + p + (sw, sh)` of the destination
rectangle are computed without wraparound, `img.Blit(src, p)` returns, and for every
absolute destination pixel `(x, y)` with `(i, j) = (x, y) - (d0 + p)`: if `(x, y)` is in
`dc`, `0 <= i < sw`, `0 <= j < sh` and `so + (i, j)` is in `sc`, the destination pixel
equals the source pixel at `so + (i, j)` in all four channels; otherwise the destination
pixel is unchanged. In the scenario of the tests (source `20 x 20` placed at `(10,10)` on
a `50 x 50` destination) `(10,10)` and `(29,29)` are copied and `(9,9)` is untouched, and
with the destination clip `(0,0,15,15)` the pixel `(14,14)` is copied and `(15,15)` is
untouched. -/
theorem blit_opaque_postcondition (B : Blend) (w h sw sh : Int) (img src : Image)
    (hz : SizeOK w h) (hsz : SizeOK sw sh)
    (hr : Reachable w h img) (hs : Reachable sw sh src)
    (dstCurr srcCurr : subImageState) (hd : img.currentState = some dstCurr)
    (hsc : src.currentState = some srcCurr) (p : Point)
    (hb : I64 srcCurr.bounds.Width ∧ I64 srcCurr.bounds.Height)
    (hX : I64 (dstCurr.origin.X + p.X) ∧
      I64 (dstCurr.origin.X + p.X + srcCurr.bounds.Width))
    (hY : I64 (dstCurr.origin.Y + p.Y) ∧
      I64 (dstCurr.origin.Y + p.Y + srcCurr.bounds.Height))
    (hop : ∀ sx sy, 0 ≤ sx → sx < sw → 0 ≤ sy → sy < sh →
      ∃ r g b, src.pixel sx sy = some (r, g, b, 255)) :
    ∃ img1, Image.Blit B img src p = some img1 ∧
      (∀ x y i j, i = x - (dstCurr.origin.X + p.X) → j = y - (dstCurr.origin.Y + p.Y) →
        ((dstCurr.clip.Contains ⟨x, y⟩ = true ∧ 0 ≤ i ∧ i < srcCurr.bounds.Width ∧
            0 ≤ j ∧ j < srcCurr.bounds.Height ∧
            srcCurr.clip.Contains ⟨srcCurr.origin.X + i, srcCurr.origin.Y + j⟩ = true) →
          img1.pixel x y = src.pixel (srcCurr.origin.X + i) (srcCurr.origin.Y + j)) ∧
        (0 ≤ x → x < w → 0 ≤ y → y < h →
          ¬ (dstCurr.clip.Contains ⟨x, y⟩ = true ∧ 0 ≤ i ∧ i < srcCurr.bounds.Width ∧
            0 ≤ j ∧ j < srcCurr.bounds.Height ∧
            srcCurr.clip.Contains ⟨srcCurr.origin.X + i, srcCurr.origin.Y + j⟩ = true) →
          img1.pixel x y = img.pixel x y)) ∧
      (w = 50 → h = 50 → dstCurr.origin = ⟨0, 0⟩ → p = ⟨10, 10⟩ →
        srcCurr.origin = ⟨0, 0⟩ → srcCurr.bounds.Width = 20 → srcCurr.bounds.Height = 20 →
        srcCurr.clip = ⟨0, 0, 20, 20⟩ →
        (dstCurr.clip = ⟨0, 0, 50, 50⟩ →
          img1.pixel 10 10 = src.pixel 0 0 ∧ img1.pixel 29 29 = src.pixel 19 19 ∧
            img1.pixel 9 9 = img.pixel 9 9) ∧
        (dstCurr.clip = ⟨0, 0, 15, 15⟩ →
          img1.pixel 14 14 = src.pixel 4 4 ∧ img1.pixel 15 15 = img.pixel 15 15)) := by
  have hw := reachable_wf w h img hz hr
  have hsw := reachable_wf sw sh src hsz hs
  obtain ⟨dcA, scA, img1, hd1, hsc1, hbl, _, hg, hu, _⟩ :=
    blit_spec B sw sh w h img src p hz hsz hw hsw
  obtain ⟨dcB, hd2, hdf⟩ := wf_current w h img hw
  obtain ⟨scB, hs2, hsf⟩ := wf_current sw sh src hsw
  have e1 : dstCurr = dcA := Option.some.inj (hd.symm.trans hd1)
  have e2 : srcCurr = scA := Option.some.inj (hsc.symm.trans hsc1)
  subst e1 e2
  have e3 : dstCurr = dcB := Option.some.inj (hd.symm.trans hd2)
  have e4 : srcCurr = scB := Option.some.inj (hsc.symm.trans hs2)
  subst e3 e4
  have hso : I64 srcCurr.origin.X ∧ I64 srcCurr.origin.Y := by
    have := reachable_frameBounds sw sh src hs srcCurr (by
      unfold Image.currentState at hsc
      exact List.mem_of_mem_getLast? hsc)
    exact this.1
  have hszM := hsz.2.2
  have hswb : sw ≤ 9223372036854775806 := by
    have := hsz.1
    have := hsz.2.1
    nlinarith
  have hshb : sh ≤ 9223372036854775806 := by
    have := hsz.1
    have := hsz.2.1
    nlinarith
  have hAX :
      (Rectangle.Add ⟨p.X, p.Y, srcCurr.bounds.Width, srcCurr.bounds.Height⟩
        dstCurr.origin).X = dstCurr.origin.X + p.X := by
    show wrap64 (p.X + dstCurr.origin.X) = _
    rw [add_comm, wrap64_of_I64 _ hX.1]
  have hAY :
      (Rectangle.Add ⟨p.X, p.Y, srcCurr.bounds.Width, srcCurr.bounds.Height⟩
        dstCurr.origin).Y = dstCurr.origin.Y + p.Y := by
    show wrap64 (p.Y + dstCurr.origin.Y) = _
    rw [add_comm, wrap64_of_I64 _ hY.1]
  have hAc : ∀ x y,
      (Rectangle.Add ⟨p.X, p.Y, srcCurr.bounds.Width, srcCurr.bounds.Height⟩
        dstCurr.origin).Contains ⟨x, y⟩ = true ↔
      (0 ≤ x - (dstCurr.origin.X + p.X) ∧
        x - (dstCurr.origin.X + p.X) < srcCurr.bounds.Width ∧
        0 ≤ y - (dstCurr.origin.Y + p.Y) ∧
        y - (dstCurr.origin.Y + p.Y) < srcCurr.bounds.Height) := by
    intro x y
    rw [contains_iff, hAX, hAY]
    show _ ∧ _ < wrap64 (dstCurr.origin.X + p.X + srcCurr.bounds.Width) ∧ _ ∧
      _ < wrap64 (dstCurr.origin.Y + p.Y + srcCurr.bounds.Height) ↔ _
    rw [wrap64_of_I64 _ hX.2, wrap64_of_I64 _ hY.2]
    dsimp only
    omega
  have hSX : ∀ x, 0 ≤ x - (dstCurr.origin.X + p.X) →
      x - (dstCurr.origin.X + p.X) < srcCurr.bounds.Width →
      (srcCurr.origin.Add (Point.Sub ⟨x, 0⟩ (p.Add dstCurr.origin))).X =
        wrap64 (srcCurr.origin.X + (x - (dstCurr.origin.X + p.X))) := by
    intro x h0 h1
    show wrap64 (srcCurr.origin.X + wrap64 (x - wrap64 (p.X + dstCurr.origin.X))) = _
    rw [add_comm p.X, wrap64_of_I64 _ hX.1]
    congr 2
    apply wrap64_of_I64
    unfold I64 at hb ⊢
    omega
  have hSY : ∀ y, 0 ≤ y - (dstCurr.origin.Y + p.Y) →
      y - (dstCurr.origin.Y + p.Y) < srcCurr.bounds.Height →
      (srcCurr.origin.Add (Point.Sub ⟨0, y⟩ (p.Add dstCurr.origin))).Y =
        wrap64 (srcCurr.origin.Y + (y - (dstCurr.origin.Y + p.Y))) := by
    intro y h0 h1
    show wrap64 (srcCurr.origin.Y + wrap64 (y - wrap64 (p.Y + dstCurr.origin.Y))) = _
    rw [add_comm p.Y, wrap64_of_I64 _ hY.1]
    congr 2
    apply wrap64_of_I64
    unfold I64 at hb ⊢
    omega
  have hS : ∀ x y, 0 ≤ x - (dstCurr.origin.X + p.X) →
      x - (dstCurr.origin.X + p.X) < srcCurr.bounds.Width →
      0 ≤ y - (dstCurr.origin.Y + p.Y) →
      y - (dstCurr.origin.Y + p.Y) < srcCurr.bounds.Height →
      srcCurr.origin.Add (Point.Sub ⟨x, y⟩ (p.Add dstCurr.origin)) =
        ⟨wrap64 (srcCurr.origin.X + (x - (dstCurr.origin.X + p.X))),
          wrap64 (srcCurr.origin.Y + (y - (dstCurr.origin.Y + p.Y)))⟩ := by
    intro x y h0 h1 h2 h3
    have ex := hSX x h0 h1
    have ey := hSY y h2 h3
    simp only [Point.Add, Point.Sub, Point.mk.injEq] at ex ey ⊢
    exact ⟨ex, ey⟩
  have hmain : ∀ x y i j, i = x - (dstCurr.origin.X + p.X) → j = y - (dstCurr.origin.Y + p.Y) →
      ((dstCurr.clip.Contains ⟨x, y⟩ = true ∧ 0 ≤ i ∧ i < srcCurr.bounds.Width ∧
          0 ≤ j ∧ j < srcCurr.bounds.Height ∧
          srcCurr.clip.Contains ⟨srcCurr.origin.X + i, srcCurr.origin.Y + j⟩ = true) →
        img1.pixel x y = src.pixel (srcCurr.origin.X + i) (srcCurr.origin.Y + j)) ∧
      (0 ≤ x → x < w → 0 ≤ y → y < h →
        ¬ (dstCurr.clip.Contains ⟨x, y⟩ = true ∧ 0 ≤ i ∧ i < srcCurr.bounds.Width ∧
          0 ≤ j ∧ j < srcCurr.bounds.Height ∧
          srcCurr.clip.Contains ⟨srcCurr.origin.X + i, srcCurr.origin.Y + j⟩ = true) →
        img1.pixel x y = img.pixel x y) := by
    intro x y i j hi hj
    subst hi hj
    constructor
    · rintro ⟨hc, hi0, hi1, hj0, hj1, hsrc⟩
      have hsp := hsf.1.1 _ hsrc
      dsimp only at hsp
      have hpt : srcCurr.origin.Add (Point.Sub ⟨x, y⟩ (p.Add dstCurr.origin)) =
          ⟨srcCurr.origin.X + (x - (dstCurr.origin.X + p.X)),
            srcCurr.origin.Y + (y - (dstCurr.origin.Y + p.Y))⟩ := by
        rw [hS x y hi0 hi1 hj0 hj1, wrap64_of_I64, wrap64_of_I64]
        · unfold I64
          omega
        · unfold I64
          omega
      have := hg x y hc ((hAc x y).2 ⟨hi0, hi1, hj0, hj1⟩) (by rw [hpt]; exact hsrc)
      rw [hpt] at this
      rw [this]
      obtain ⟨r, g, b, hrgb⟩ := hop _ _ hsp.1 hsp.2.1 hsp.2.2.1 hsp.2.2.2
      have hdp := hdf.1.1 _ hc
      dsimp only at hdp
      obtain ⟨bg, hbg⟩ := pixel_some w h img hz hw x y ⟨hdp.1, hdp.2.1⟩ ⟨hdp.2.2.1, hdp.2.2.2⟩
      rw [hrgb, hbg]
      exact composeOpt_opaque B r g b bg
    · intro h0 h1 h2 h3 hn
      apply hu x y h0 h1 h2 h3
      rintro ⟨hc, hA, hsrc⟩
      apply hn
      have hA1 := (hAc x y).1 hA
      rw [hS x y hA1.1 hA1.2.1 hA1.2.2.1 hA1.2.2.2] at hsrc
      have hsp := hsf.1.1 _ hsrc
      dsimp only at hsp
      have ex : wrap64 (srcCurr.origin.X + (x - (dstCurr.origin.X + p.X))) =
          srcCurr.origin.X + (x - (dstCurr.origin.X + p.X)) := by
        have := hsp.1
        revert this
        unfold I64 at hso hb
        unfold wrap64
        omega
      have ey : wrap64 (srcCurr.origin.Y + (y - (dstCurr.origin.Y + p.Y))) =
          srcCurr.origin.Y + (y - (dstCurr.origin.Y + p.Y)) := by
        have := hsp.2.2.1
        revert this
        unfold I64 at hso hb
        unfold wrap64
        omega
      rw [ex, ey] at hsrc
      exact ⟨hc, hA1.1, hA1.2.1, hA1.2.2.1, hA1.2.2.2, hsrc⟩
  refine ⟨img1, hbl, hmain, ?_⟩
  intro hw50 hh50 ho hp hso hbw hbh hscl
  subst hw50 hh50 hp
  constructor
  · intro hdcl
    refine ⟨?_, ?_, ?_⟩
    · have := (hmain 10 10 0 0 (by simp [ho]) (by simp [ho])).1
        (by rw [hdcl, hscl, hso, hbw, hbh]; decide)
      rw [hso] at this
      exact this
    · have := (hmain 29 29 19 19 (by simp [ho]) (by simp [ho])).1
        (by rw [hdcl, hscl, hso, hbw, hbh]; decide)
      rw [hso] at this
      exact this
    · exact (hmain 9 9 (-1) (-1) (by simp [ho]) (by simp [ho])).2 (by decide) (by decide)
        (by decide) (by decide) (by
          intro hh
          exact absurd hh.2.1 (by decide))
  · intro hdcl
    refine ⟨?_, ?_⟩
    · have := (hmain 14 14 4 4 (by simp [ho]) (by simp [ho])).1
        (by rw [hdcl, hscl, hso, hbw, hbh]; decide)
      rw [hso] at this
      exact this
    · exact (hmain 15 15 5 5 (by simp [ho]) (by simp [ho])).2 (by decide) (by decide)
        (by decide) (by decide) (by
          intro hh
          rw [hdcl] at hh
          exact absurd hh.1 (by decide))

/-- Witness for C11: the scenario of `TestBlit`. The source is `NewImage(20, 20)` after
`Fill(red)`, the destination `NewImage(50, 50)`, and `p = (10, 10)`: the pixels `(10,10)`
and `(29,29)` receive red and `(9,9)` stays empty; on the destination clipped to
`(0,0,15,15)` the pixel `(14,14)` receives red and `(15,15)` stays empty. -/
theorem blit_opaque_postcondition_witness :
    ∃ src dst dstc img1 img2,
      (NewImage 20 20).bind (fun i => i.Fill ⟨255, 0, 0, 255⟩) = some src ∧
      NewImage 50 50 = some dst ∧ dst.PushClip ⟨0, 0, 15, 15⟩ = some dstc ∧
      Image.Blit sampleBlend dst src ⟨10, 10⟩ = some img1 ∧
      img1.pixel 10 10 = some (255, 0, 0, 255) ∧ img1.pixel 29 29 = some (255, 0, 0, 255) ∧
      img1.pixel 9 9 = some (0, 0, 0, 0) ∧
      Image.Blit sampleBlend dstc src ⟨10, 10⟩ = some img2 ∧
      img2.pixel 14 14 = some (255, 0, 0, 255) ∧ img2.pixel 15 15 = some (0, 0, 0, 0) := by
  obtain ⟨i20, h20⟩ : ∃ i, NewImage 20 20 = some i := ⟨_, rfl⟩
  obtain ⟨dst, h50⟩ : ∃ i, NewImage 50 50 = some i := ⟨_, rfl⟩
  have hz20 : SizeOK 20 20 := by decide
  have hz50 : SizeOK 50 50 := by decide
  have hw20 := newImage_wf 20 20 i20 hz20 h20
  obtain ⟨s20, hs20⟩ := newImage_eq 20 20 i20 h20
  have hc20 : i20.currentState = some ⟨⟨0, 0⟩, ⟨0, 0, 20, 20⟩, ⟨0, 0, 20, 20⟩, []⟩ := by
    rw [hs20]
    rfl
  obtain ⟨q, hq, _, hg, _⟩ := fillLoop_spec 20 20 i20.Pix i20.Stride ⟨0, 0, 20, 20⟩
    ⟨255, 0, 0, 255⟩ hw20.1 hw20.2.1 hz20 (by
      intro pt hpt
      rw [contains_iff] at hpt
      have e : wrap64 (0 + 20) = 20 := by decide
      dsimp only at hpt
      rw [e] at hpt
      omega)
  have hfill : i20.Fill ⟨255, 0, 0, 255⟩ = some { i20 with Pix := q } := by
    unfold Image.Fill
    simp only [hc20, Option.bind_eq_bind, Option.some_bind, Option.pure_def, hq]
  have hrs : Reachable 20 20 { i20 with Pix := q } :=
    Reachable.fill ⟨255, 0, 0, 255⟩ (Reachable.newImage h20) hfill
  have hsc : ({ i20 with Pix := q } : Image).currentState =
      some ⟨⟨0, 0⟩, ⟨0, 0, 20, 20⟩, ⟨0, 0, 20, 20⟩, []⟩ := hc20
  have hred : ∀ sx sy : Int, 0 ≤ sx → sx < 20 → 0 ≤ sy → sy < 20 →
      ({ i20 with Pix := q } : Image).pixel sx sy = some (255, 0, 0, 255) := by
    intro sx sy h0 h1 h2 h3
    apply hg sx sy
    rw [contains_iff]
    have e : wrap64 (0 + 20) = 20 := by decide
    dsimp only
    rw [e]
    omega
  have hop : ∀ sx sy : Int, 0 ≤ sx → sx < 20 → 0 ≤ sy → sy < 20 →
      ∃ r g b, ({ i20 with Pix := q } : Image).pixel sx sy = some (r, g, b, 255) := by
    intro sx sy h0 h1 h2 h3
    exact ⟨255, 0, 0, hred sx sy h0 h1 h2 h3⟩
  obtain ⟨s50, hs50⟩ := newImage_eq 50 50 dst h50
  have hd : dst.currentState = some ⟨⟨0, 0⟩, ⟨0, 0, 50, 50⟩, ⟨0, 0, 50, 50⟩, []⟩ := by
    rw [hs50]
    rfl
  have hclip : dst.PushClip ⟨0, 0, 15, 15⟩ = some { dst with
      stateStack := [⟨⟨0, 0⟩, ⟨0, 0, 50, 50⟩, ⟨0, 0, 15, 15⟩, [⟨0, 0, 50, 50⟩]⟩] } := by
    rw [hs50]
    rfl
  have hdc : ({ dst with
      stateStack := [⟨⟨0, 0⟩, ⟨0, 0, 50, 50⟩, ⟨0, 0, 15, 15⟩, [⟨0, 0, 50, 50⟩]⟩] } :
        Image).currentState =
      some ⟨⟨0, 0⟩, ⟨0, 0, 50, 50⟩, ⟨0, 0, 15, 15⟩, [⟨0, 0, 50, 50⟩]⟩ := rfl
  have hrd : Reachable 50 50 dst := Reachable.newImage h50
  have hrdc := Reachable.pushClip ⟨0, 0, 15, 15⟩ hrd hclip
  have hzero : ∀ x y : Int, 0 ≤ x → x < 50 → 0 ≤ y → y < 50 →
      dst.pixel x y = some (0, 0, 0, 0) := by
    intro x y h0 h1 h2 h3
    obtain ⟨v, hv⟩ := pixel_some 50 50 dst hz50 (newImage_wf 50 50 dst hz50 h50) x y
      ⟨h0, h1⟩ ⟨h2, h3⟩
    have hv0 := hv
    unfold Image.pixel at hv0
    rw [hs50] at hv0
    rw [hv, pixGet4_replicate _ _ _ hv0]
  obtain ⟨img1, hb1, _, hscen1⟩ := blit_opaque_postcondition sampleBlend 50 50 20 20 dst
    { i20 with Pix := q } hz50 hz20 hrd hrs _ _ hd hsc ⟨10, 10⟩ (by decide) (by decide)
    (by decide) hop
  obtain ⟨img2, hb2, _, hscen2⟩ := blit_opaque_postcondition sampleBlend 50 50 20 20 _
    { i20 with Pix := q } hz50 hz20 hrdc hrs _ _ hdc hsc ⟨10, 10⟩ (by decide) (by decide)
    (by decide) hop
  obtain ⟨p1, p2, p3⟩ := (hscen1 rfl rfl rfl rfl rfl rfl rfl rfl).1 rfl
  obtain ⟨p4, p5⟩ := (hscen2 rfl rfl rfl rfl rfl rfl rfl rfl).2 rfl
  refine ⟨{ i20 with Pix := q }, dst, _, img1, img2, ?_, h50, hclip, hb1, ?_, ?_, ?_, hb2,
    ?_, ?_⟩
  · rw [h20]
    exact hfill
  · rw [p1]
    exact hred 0 0 (by decide) (by decide) (by decide) (by decide)
  · rw [p2]
    exact hred 19 19 (by decide) (by decide) (by decide) (by decide)
  · rw [p3]
    exact hzero 9 9 (by decide) (by decide) (by decide) (by decide)
  · rw [p4]
    exact hred 4 4 (by decide) (by decide) (by decide) (by decide)
  · rw [p5]
    exact hzero 15 15 (by decide) (by decide) (by decide) (by decide)

/-- C12, as stated, fails for a source whose size wraps around: the freshly created
canvas `NewImage(4611686018427387905, 1)` has a buffer of `4*w*h = 4` bytes in 64-bit
arithmetic, all of them zero. Blitting it at `(0, 0)` onto `NewImage(2, 2)` loads the
source pixel `(1, 0)` at offset `4`, outside the source buffer: a run-time panic, where
the claim has the destination left unchanged. -/
theorem blit_transparent_counterexample :
    NewImage 2 2 = some canvas2 ∧
    (NewImage 4611686018427387905 1).map (fun s => s.Pix) = some [0, 0, 0, 0] ∧
    (NewImage 4611686018427387905 1).bind
      (fun s => Image.Blit sampleBlend canvas2 s ⟨0, 0⟩) = none ∧
    (NewImage 4611686018427387905 1).bind
      (fun s => storeBlit sampleBlend [canvas2, s] 0 1 ⟨0, 0⟩) = none := by
  decide

/-- C12, amended: for canvases `img` (destination) and `src` (a different canvas)
reachable from `NewImage` with sizes whose `4*w*h` is not above the largest `int`, held
in a store of canvases at the distinct places `d` and `s`, the call `img.Blit(src, p)`
returns and changes in the store the entry of the destination only: the source, its
pixel buffer and its view-state stack, is what it was, and so is every other canvas. The
destination keeps its view-state stack; a destination pixel whose mapped source pixel
has alpha 0 is unchanged, so a source whose pixels all have alpha 0, such as a freshly
created canvas, leaves the destination and the whole store unchanged. -/
theorem blit_transparent_readonly (B : Blend) (w h sw sh : Int) (img src : Image)
    (hz : SizeOK w h) (hsz : SizeOK sw sh)
    (hr : Reachable w h img) (hs : Reachable sw sh src) (p : Point)
    (st : List Image) (d s : Nat) (hds : d ≠ s) (hdi : st[d]? = some img)
    (hsi : st[s]? = some src) :
    ∃ dstCurr srcCurr img1 st1, img.currentState = some dstCurr ∧
      src.currentState = some srcCurr ∧ Image.Blit B img src p = some img1 ∧
      storeBlit B st d s p = some st1 ∧ st1[d]? = some img1 ∧ st1[s]? = some src ∧
      (∀ k, k ≠ d → st1[k]? = st[k]?) ∧
      img1.stateStack = img.stateStack ∧
      (∀ x y, 0 ≤ x → x < w → 0 ≤ y → y < h →
        (∃ r g b, src.pixel
          (srcCurr.origin.Add (Point.Sub ⟨x, y⟩ (p.Add dstCurr.origin))).X
          (srcCurr.origin.Add (Point.Sub ⟨x, y⟩ (p.Add dstCurr.origin))).Y =
            some (r, g, b, 0)) →
        img1.pixel x y = img.pixel x y) ∧
      ((∀ sx sy, 0 ≤ sx → sx < sw → 0 ≤ sy → sy < sh →
          ∃ r g b, src.pixel sx sy = some (r, g, b, 0)) → img1 = img ∧ st1 = st) ∧
      (∀ fw fh fresh (k : Nat), SizeOK fw fh → NewImage fw fh = some fresh → d ≠ k →
        st[k]? = some fresh →
        Image.Blit B img fresh p = some img ∧ storeBlit B st d k p = some st) := by
  have hw := reachable_wf w h img hz hr
  have hsw := reachable_wf sw sh src hsz hs
  obtain ⟨dc, sc, img1, hd, hsc, hb, hsv, hg, hu, hz0⟩ :=
    blit_spec B sw sh w h img src p hz hsz hw hsw
  obtain ⟨sc1, hs1, hsf⟩ := wf_current sw sh src hsw
  have e2 : sc1 = sc := Option.some.inj (hs1.symm.trans hsc)
  subst e2
  have hlt := getElem?_lt st d img hdi
  have hstore : storeBlit B st d s p = some (st.set d img1) := by
    rw [storeBlit_eq B st d s img src hdi hsi p, if_neg hds, hb]
    rfl
  refine ⟨dc, sc1, img1, st.set d img1, hd, hsc, hb, hstore, ?_, ?_, ?_, hsv.1, ?_, ?_, ?_⟩
  · rw [List.getElem?_set_self hlt]
  · rw [List.getElem?_set_ne hds]
    exact hsi
  · intro k hk
    rw [List.getElem?_set_ne (fun hh => hk hh.symm)]
  · intro x y h0 h1 h2 h3 hsrc
    by_cases hD : dc.clip.Contains ⟨x, y⟩ = true ∧
        (Rectangle.Add ⟨p.X, p.Y, sc1.bounds.Width, sc1.bounds.Height⟩
          dc.origin).Contains ⟨x, y⟩ = true ∧
        sc1.clip.Contains (sc1.origin.Add (Point.Sub ⟨x, y⟩ (p.Add dc.origin))) = true
    · have := hg x y hD.1 hD.2.1 hD.2.2
      obtain ⟨r, g, b, hrgb⟩ := hsrc
      obtain ⟨bg, hbg⟩ := pixel_some w h img hz hw x y ⟨h0, h1⟩ ⟨h2, h3⟩
      rw [this, hrgb, hbg]
      exact composeOpt_transparent B r g b bg
    · exact hu x y h0 h1 h2 h3 hD
  · intro hall
    have : img1 = img := by
      apply hz0
      intro sx sy hc
      have hsp := hsf.1.1 _ hc
      dsimp only at hsp
      exact hall sx sy hsp.1 hsp.2.1 hsp.2.2.1 hsp.2.2.2
    refine ⟨this, ?_⟩
    rw [this]
    exact set_getElem?_self st d img hdi
  · intro fw fh fresh k hfz hn hdk hki
    have hfw := newImage_wf fw fh fresh hfz hn
    obtain ⟨dc2, fc, i2, _, hfc, hb2, _, _, _, hz2⟩ :=
      blit_spec B fw fh w h img fresh p hz hfz hw hfw
    obtain ⟨fc1, hf1, hff⟩ := wf_current fw fh fresh hfw
    have e3 : fc1 = fc := Option.some.inj (hf1.symm.trans hfc)
    subst e3
    have : i2 = img := by
      apply hz2
      intro sx sy hc
      have hsp := hff.1.1 _ hc
      dsimp only at hsp
      obtain ⟨v, hv⟩ := pixel_some fw fh fresh hfz hfw sx sy ⟨hsp.1, hsp.2.1⟩
        ⟨hsp.2.2.1, hsp.2.2.2⟩
      have hv0 : v = (0, 0, 0, 0) := by
        obtain ⟨_, hfe⟩ := newImage_eq fw fh fresh hn
        unfold Image.pixel at hv
        rw [hfe] at hv
        exact pixGet4_replicate _ _ _ hv
      rw [hv0] at hv
      exact ⟨0, 0, 0, hv⟩
    rw [this] at hb2
    refine ⟨hb2, ?_⟩
    rw [storeBlit_eq B st d k img fresh hdi hki p, if_neg hdk, hb2]
    show some (st.set d img) = some st
    rw [set_getElem?_self st d img hdi]

/-- Witness for C12: the fresh canvas `NewImage(2, 2)` blitted onto the opaque `1 x 1`
canvas, in the store that holds the opaque canvas at place `0` and the fresh one at
place `1`. -/
theorem blit_transparent_readonly_witness :
    (SizeOK 1 1 ∧ SizeOK 2 2 ∧ Reachable 1 1 opaque1 ∧ Reachable 2 2 canvas2 ∧
      (0 : Nat) ≠ 1 ∧ [opaque1, canvas2][0]? = some opaque1 ∧
      [opaque1, canvas2][1]? = some canvas2) ∧
    ∃ dstCurr srcCurr img1 st1, opaque1.currentState = some dstCurr ∧
      canvas2.currentState = some srcCurr ∧
      Image.Blit sampleBlend opaque1 canvas2 ⟨0, 0⟩ = some img1 ∧
      storeBlit sampleBlend [opaque1, canvas2] 0 1 ⟨0, 0⟩ = some st1 ∧
      st1[0]? = some img1 ∧ st1[1]? = some canvas2 ∧
      (∀ k, k ≠ 0 → st1[k]? = [opaque1, canvas2][k]?) ∧
      img1.stateStack = opaque1.stateStack ∧
      (∀ x y, 0 ≤ x → x < 1 → 0 ≤ y → y < 1 →
        (∃ r g b, canvas2.pixel
          (srcCurr.origin.Add (Point.Sub ⟨x, y⟩ (Point.Add ⟨0, 0⟩ dstCurr.origin))).X
          (srcCurr.origin.Add (Point.Sub ⟨x, y⟩ (Point.Add ⟨0, 0⟩ dstCurr.origin))).Y =
            some (r, g, b, 0)) →
        img1.pixel x y = opaque1.pixel x y) ∧
      ((∀ sx sy, 0 ≤ sx → sx < 2 → 0 ≤ sy → sy < 2 →
          ∃ r g b, canvas2.pixel sx sy = some (r, g, b, 0)) →
        img1 = opaque1 ∧ st1 = [opaque1, canvas2]) ∧
      (∀ fw fh fresh (k : Nat), SizeOK fw fh → NewImage fw fh = some fresh → 0 ≠ k →
        [opaque1, canvas2][k]? = some fresh →
        Image.Blit sampleBlend opaque1 fresh ⟨0, 0⟩ = some opaque1 ∧
          storeBlit sampleBlend [opaque1, canvas2] 0 k ⟨0, 0⟩ =
            some [opaque1, canvas2]) :=
  ⟨⟨by decide, by decide, opaque1_reachable, canvas2_reachable, by decide, rfl, rfl⟩,
    blit_transparent_readonly sampleBlend 1 1 2 2 opaque1 canvas2 (by decide) (by decide)
      opaque1_reachable canvas2_reachable ⟨0, 0⟩ [opaque1, canvas2] 0 1 (by decide) rfl rfl⟩

/-- C17, as stated, fails for negative scales when the size or an edge of the destination
rectangle wraps around. For a `3 x 3` source and `scale = -6148914691236517205` the
products `srcW*scale` and `srcH*scale` wrap around to `1`, the draw rectangle on
`NewImage(2, 2)` is `(0, 0, 1, 1)`, and the pixel `(0, 0)` is stored. For a `2 x 2` source,
`scale = -4611686018427387904` and `p = (-5, -5)` the products are
`-9223372036854775808`, without wraparound, but the edges `-5 + srcW*scale` and
`-5 + srcH*scale` wrap around to `9223372036854775803`, and all four pixels of the canvas
are stored. -/
theorem degenerate_scale_counterexample :
    NewImage 2 2 = some canvas2 ∧
    (Image.DrawImageScaled sampleBlend canvas2
        (.other ⟨⟨0, 0⟩, ⟨3, 3⟩⟩ (fun _ _ => (65535, 65535, 65535, 65535))) ⟨0, 0⟩
        (-6148914691236517205)).map (fun i => i.Pix) =
      some [255, 255, 255, 255, 0, 0, 0, 0, 0, 0, 0, 0, 0, 0, 0, 0] ∧
    (Image.DrawImageScaled sampleBlend canvas2
        (.other ⟨⟨0, 0⟩, ⟨2, 2⟩⟩ (fun _ _ => (65535, 65535, 65535, 65535))) ⟨-5, -5⟩
        (-4611686018427387904)).map (fun i => i.Pix) =
      some [255, 255, 255, 255, 255, 255, 255, 255, 255, 255, 255, 255, 255, 255, 255,
        255] := by
  decide

/-- C17, amended: on every reachable canvas, for every pixel source of non-negative width
and height and every point `p`, `DrawImageScaled(src, p, 0)` returns without evaluating a
division (a division by zero would be a run-time panic) and gives back the canvas
unchanged: the same pixel buffer and the same view-state stack. The same holds for every
`scale < 1` when, on one axis at least, the size `srcH*scale` (or `srcW*scale`) of the
destination rectangle and its far edge `(origin + p) + srcH*scale` (or
`(origin + p) + srcW*scale`) are computed without wraparound. -/
theorem drawImageScaled_degenerate_scale (B : Blend) (w h : Int) (img : Image)
    (hr : Reachable w h img) (curr : subImageState) (hcur : img.currentState = some curr)
    (src : image.Image) (p : Point) (hw : 0 ≤ src.Bounds.Dx) (hh : 0 ≤ src.Bounds.Dy) :
    Image.DrawImageScaled B img src p 0 = some img ∧
      ∀ scale, scale < 1 →
        ((I64 (src.Bounds.Dy * scale) ∧
            I64 ((p.Add curr.origin).Y + src.Bounds.Dy * scale)) ∨
          (I64 (src.Bounds.Dx * scale) ∧
            I64 ((p.Add curr.origin).X + src.Bounds.Dx * scale))) →
        Image.DrawImageScaled B img src p scale = some img := by
  obtain ⟨h4, _, h6⟩ := reachable_stackWF w h img hr
  have hpos : ClipPos curr.clip := by
    apply (h6 curr _).1
    unfold Image.currentState at hcur
    exact List.mem_of_mem_getLast? hcur
  have hzero : Image.DrawImageScaled B img src p 0 = some img := by
    apply drawImageScaled_no_rows B img curr src p 0 hcur hpos.2
    rw [mul_zero]
    have := wrap64_I64 (p.Y + curr.origin.Y)
    simp only [Point.Add]
    revert this
    unfold I64 wrap64
    omega
  refine ⟨hzero, ?_⟩
  intro scale hs hov
  rcases hov with hrow | hcol
  · apply drawImageScaled_no_rows B img curr src p scale hcur hpos.2
    have hm : src.Bounds.Dy * scale ≤ 0 := mul_nonpos_of_nonneg_of_nonpos hh (by omega)
    rw [wrap64_of_I64 _ hrow.1, wrap64_of_I64 _ hrow.2]
    omega
  · by_cases h0 : scale = 0
    · rw [h0]
      exact hzero
    · apply drawImageScaled_no_columns B img curr src p scale hcur hpos.1 h0
      have hm : src.Bounds.Dx * scale ≤ 0 := mul_nonpos_of_nonneg_of_nonpos hw (by omega)
      rw [wrap64_of_I64 _ hcol.1, wrap64_of_I64 _ hcol.2]
      omega

/-- Witness for C17: the one-pixel sprite drawn with scale `0` and with scale `-3` on
`NewImage(2, 2)`. -/
theorem drawImageScaled_degenerate_scale_witness :
    (Reachable 2 2 canvas2 ∧
      canvas2.currentState = some ⟨⟨0, 0⟩, ⟨0, 0, 2, 2⟩, ⟨0, 0, 2, 2⟩, []⟩ ∧
      0 ≤ (image.Image.rgba sprite).Bounds.Dx ∧
      0 ≤ (image.Image.rgba sprite).Bounds.Dy ∧ (-3 : Int) < 1 ∧
      (I64 ((image.Image.rgba sprite).Bounds.Dy * (-3)) ∧
        I64 ((Point.Add ⟨0, 0⟩ ⟨0, 0⟩).Y + (image.Image.rgba sprite).Bounds.Dy * (-3)))) ∧
    (Image.DrawImageScaled sampleBlend canvas2 (.rgba sprite) ⟨0, 0⟩ 0 = some canvas2 ∧
      Image.DrawImageScaled sampleBlend canvas2 (.rgba sprite) ⟨0, 0⟩ (-3) = some canvas2) :=
  ⟨⟨canvas2_reachable, rfl, by decide, by decide, by decide, by decide, by decide⟩,
    (drawImageScaled_degenerate_scale sampleBlend 2 2 canvas2 canvas2_reachable
      ⟨⟨0, 0⟩, ⟨0, 0, 2, 2⟩, ⟨0, 0, 2, 2⟩, []⟩ rfl (.rgba sprite) ⟨0, 0⟩
      (by decide) (by decide)).1,
    (drawImageScaled_degenerate_scale sampleBlend 2 2 canvas2 canvas2_reachable
      ⟨⟨0, 0⟩, ⟨0, 0, 2, 2⟩, ⟨0, 0, 2, 2⟩, []⟩ rfl (.rgba sprite) ⟨0, 0⟩
      (by decide) (by decide)).2 (-3) (by decide) (Or.inl ⟨by decide, by decide⟩)⟩

/-- C16, failing input: the sprite `sheet.SubImage(image.Rect(1, 0, 2, 1))` is a pixel
source of size `1 x 1` whose only pixel `(10, 20, 30, 255)` has alpha 255, yet
`DrawImageScaled(sprite, (0,0), 1)` on `NewImage(2, 2)` stores `(40, 50, 60, 255)`, the
pixel of the sheet to the right of the sprite, at the destination pixel `(0, 0)`. -/
theorem drawImageScaled_sprite_wrong_pixel :
    sprite.Rect.Dx = 1 ∧ sprite.Rect.Dy = 1 ∧
    sprite.RGBAAt (sprite.Rect.Min.X + 0) (sprite.Rect.Min.Y + 0) =
      some ⟨10, 20, 30, 255⟩ ∧
    (Image.DrawImageScaled sampleBlend canvas2 (.rgba sprite) ⟨0, 0⟩ 1).bind
      (fun img1 => img1.pixel 0 0) = some (40, 50, 60, 255) := by
  decide

/-- C20, failing input: for the sprite `sheet.SubImage(image.Rect(1, 0, 2, 1))`, whose
bounds start at `(1, 0)`, the direct access at source coordinate `(0, 0)` reads
`(40, 50, 60, 255)` while `At(1, 0).RGBA()` shifted right by 8 gives `(10, 20, 30, 255)`;
`DrawImageScaled` draws different destinations for the sprite as `*image.RGBA` and for the
same picture behind another `image.Image` implementation. -/
theorem fast_path_differs_from_general :
    sprite = ⟨[10, 20, 30, 255, 40, 50, 60, 255], 12, ⟨⟨1, 0⟩, ⟨2, 1⟩⟩⟩ ∧
    fetchDirect sprite sprite.Rect 0 0 = some (40, 50, 60, 255) ∧
    fetchGeneral (.rgba sprite) sprite.Rect 0 0 = some (10, 20, 30, 255) ∧
    (Image.DrawImageScaled sampleBlend canvas2 (.rgba sprite) ⟨0, 0⟩ 1).map
      (fun img1 => img1.Pix.take 4) = some [40, 50, 60, 255] ∧
    (Image.DrawImageScaled sampleBlend canvas2 spriteOther ⟨0, 0⟩ 1).map
      (fun img1 => img1.Pix.take 4) = some [10, 20, 30, 255] := by
  decide

/-- C18: for every text, every measurement function and every `maxWidth`, the lines
returned by `wrapText` are, paragraph by paragraph (the paragraphs being the pieces
between newlines), the lines `joinLine g` of groups `g` of consecutive words of the
paragraph, in order, such that (a) every line of two or more words measures at most
`maxWidth`, and (b) for every line followed by another line of the same paragraph, that
line extended by a space and the first word of the next line measures more than
`maxWidth`; a paragraph without words gives exactly one empty line, and the number of
returned lines is at least the number of paragraphs. -/
theorem wrapText_greedy (E : TextEnv) (text : String) (maxWidth : Int) :
    ∃ groups : List (List (List String)),
      wrapText E text maxWidth = (groups.map (fun gs => gs.map joinLine)).flatten ∧
      List.Forall₂ (fun paragraph gs =>
          gs.flatten = E.fields paragraph ∧
          (E.fields paragraph = [] → gs = [[]] ∧ gs.map joinLine = [""]) ∧
          (E.fields paragraph ≠ [] → ∀ g ∈ gs, g ≠ []) ∧
          (∀ g ∈ gs, 2 ≤ g.length → E.measure (joinLine g) ≤ maxWidth) ∧
          List.Chain' (fun g1 g2 =>
            ∀ w ∈ g2.head?, maxWidth < E.measure (joinLine g1 ++ " " ++ w)) gs)
        (E.splitLines text) groups ∧
      (E.splitLines text).length ≤ (wrapText E text maxWidth).length := by
  refine ⟨(E.splitLines text).map (fun paragraph =>
    paragraphGroups E maxWidth (E.fields paragraph)), ?_, ?_, ?_⟩
  · unfold wrapText
    rw [wrapParagraph_fold]
    simp [List.map_map, Function.comp_def]
  · rw [List.forall₂_map_right_iff, List.forall₂_same]
    intro paragraph _
    obtain ⟨h1, h2, h3, h4, h5, _⟩ := paragraphGroups_spec E maxWidth (E.fields paragraph)
    refine ⟨h1, ?_, h3, h4, h5⟩
    intro hnil
    have := h2 hnil
    rw [this]
    exact ⟨rfl, rfl⟩
  · unfold wrapText
    rw [wrapParagraph_fold, List.nil_append]
    have := length_le_length_flatten ((E.splitLines text).map (fun paragraph =>
      (paragraphGroups E maxWidth (E.fields paragraph)).map joinLine)) (by
        intro x hx
        simp only [List.mem_map] at hx
        obtain ⟨para, _, rfl⟩ := hx
        rw [List.length_map]
        exact (paragraphGroups_spec E maxWidth (E.fields para)).2.2.2.2.2)
    simpa using this

/-- C19, as stated, fails on `NewImage(2, 2)` after `PushClip((1,0,1,2))` with the anchor
`(1, 0)`: the clip is `(1,0,1,2)`, so the clip width minus the anchor's x is `0`, but
`Text` does draw: the pixel `(1, 0)` receives the rendered pixel `(5, 6, 7, 255)`, which
only happens for a `maxWidth` above `0`. -/
theorem text_maxWidth_counterexample :
    (canvas2.PushClip ⟨1, 0, 1, 2⟩).bind (fun img => img.currentState.map (fun curr =>
      (curr.clip, curr.clip.Width - (⟨1, 0⟩ : Point).X))) = some (⟨1, 0, 1, 2⟩, 0) ∧
    ((canvas2.PushClip ⟨1, 0, 1, 2⟩).bind (fun img =>
      Image.Text inkEnv sampleBlend img ⟨1, 0⟩ ⟨5, 6, 7, 255⟩ false "x")).bind
        (fun img1 => img1.pixel 1 0) = some (5, 6, 7, 255) ∧
    canvas2.pixel 1 0 = some (0, 0, 0, 0) := by
  decide

/-- C19, amended: in every view state and for every anchor `p`, `Text` is what it is for
`maxWidth = (clip.x - origin.x) + clip.width - p.x`, the right edge of the current clip
in local coordinates minus the anchor's x coordinate, taken as an `int` (the three
operations of the code wrap around to the same value as the formula does): when that
value is `<= 0`, `Text` returns the canvas unchanged, and otherwise it wraps the text to
that width, renders the lines into an off-screen image of that width and composites it
onto the canvas. When the value of the formula is an `int`, it is `maxWidth` itself. -/
theorem text_maxWidth (E : TextEnv) (B : Blend) (img : Image) (curr : subImageState)
    (p : Point) (c : Color) (wrap : Bool) (msg : String)
    (hcur : img.currentState = some curr) :
    (Image.Text E B img p c wrap msg =
      if wrap64 (curr.clip.X - curr.origin.X + curr.clip.Width - p.X) ≤ 0 then some img
      else textDraw E B img curr p c wrap msg
        (wrap64 (curr.clip.X - curr.origin.X + curr.clip.Width - p.X))) ∧
    (I64 (curr.clip.X - curr.origin.X + curr.clip.Width - p.X) →
      Image.Text E B img p c wrap msg =
        if curr.clip.X - curr.origin.X + curr.clip.Width - p.X ≤ 0 then some img
        else textDraw E B img curr p c wrap msg
          (curr.clip.X - curr.origin.X + curr.clip.Width - p.X)) := by
  have hM : wrap64 (wrap64 ((curr.clip.Sub curr.origin).X + (curr.clip.Sub curr.origin).Width) -
      p.X) = wrap64 (curr.clip.X - curr.origin.X + curr.clip.Width - p.X) := by
    show wrap64 (wrap64 (wrap64 (curr.clip.X - curr.origin.X) + curr.clip.Width) - p.X) = _
    unfold wrap64
    omega
  have h1 : Image.Text E B img p c wrap msg =
      if wrap64 (curr.clip.X - curr.origin.X + curr.clip.Width - p.X) ≤ 0 then some img
      else textDraw E B img curr p c wrap msg
        (wrap64 (curr.clip.X - curr.origin.X + curr.clip.Width - p.X)) := by
    unfold Image.Text
    simp only [hcur, Option.bind_eq_bind, Option.some_bind, Option.pure_def, hM]
  refine ⟨h1, ?_⟩
  intro hex
  rw [h1, wrap64_of_I64 _ hex]

/-- Witness for C19 (amended): the canvas `NewImage(2, 2)` after `PushClip((1,0,1,2))` and
the anchor `(1, 0)`, where `clip.width - p.x = 0` and
`(clip.x - origin.x) + clip.width - p.x = 1`, so that `Text` draws. -/
theorem text_maxWidth_witness :
    (canvas2.PushClip ⟨1, 0, 1, 2⟩ =
        some ⟨List.replicate 16 0, 8, ⟨0, 0, 2, 2⟩,
          [⟨⟨0, 0⟩, ⟨0, 0, 2, 2⟩, ⟨1, 0, 1, 2⟩, [⟨0, 0, 2, 2⟩]⟩]⟩ ∧
      Image.currentState ⟨List.replicate 16 0, 8, ⟨0, 0, 2, 2⟩,
          [⟨⟨0, 0⟩, ⟨0, 0, 2, 2⟩, ⟨1, 0, 1, 2⟩, [⟨0, 0, 2, 2⟩]⟩]⟩ =
        some ⟨⟨0, 0⟩, ⟨0, 0, 2, 2⟩, ⟨1, 0, 1, 2⟩, [⟨0, 0, 2, 2⟩]⟩ ∧
      I64 ((1 : Int) - 0 + 1 - 1)) ∧
    Image.Text inkEnv sampleBlend
        ⟨List.replicate 16 0, 8, ⟨0, 0, 2, 2⟩,
          [⟨⟨0, 0⟩, ⟨0, 0, 2, 2⟩, ⟨1, 0, 1, 2⟩, [⟨0, 0, 2, 2⟩]⟩]⟩
        ⟨1, 0⟩ ⟨5, 6, 7, 255⟩ false "x" =
      if (1 : Int) - 0 + 1 - 1 ≤ 0 then
        some ⟨List.replicate 16 0, 8, ⟨0, 0, 2, 2⟩,
          [⟨⟨0, 0⟩, ⟨0, 0, 2, 2⟩, ⟨1, 0, 1, 2⟩, [⟨0, 0, 2, 2⟩]⟩]⟩
      else textDraw inkEnv sampleBlend
        ⟨List.replicate 16 0, 8, ⟨0, 0, 2, 2⟩,
          [⟨⟨0, 0⟩, ⟨0, 0, 2, 2⟩, ⟨1, 0, 1, 2⟩, [⟨0, 0, 2, 2⟩]⟩]⟩
        ⟨⟨0, 0⟩, ⟨0, 0, 2, 2⟩, ⟨1, 0, 1, 2⟩, [⟨0, 0, 2, 2⟩]⟩ ⟨1, 0⟩ ⟨5, 6, 7, 255⟩ false "x"
        ((1 : Int) - 0 + 1 - 1) :=
  ⟨⟨by decide, by decide, by decide⟩,
    (text_maxWidth inkEnv sampleBlend
      ⟨List.replicate 16 0, 8, ⟨0, 0, 2, 2⟩,
        [⟨⟨0, 0⟩, ⟨0, 0, 2, 2⟩, ⟨1, 0, 1, 2⟩, [⟨0, 0, 2, 2⟩]⟩]⟩
      ⟨⟨0, 0⟩, ⟨0, 0, 2, 2⟩, ⟨1, 0, 1, 2⟩, [⟨0, 0, 2, 2⟩]⟩ ⟨1, 0⟩ ⟨5, 6, 7, 255⟩ false "x"
      (by decide)).2 (by decide)⟩

/-- C21 counterexample: no pair of a partial source alpha `0 < sa < 255` and a
destination alpha `bgA` makes the `float64` value `sa + bgA*(1 - sa/255)` of the blend
exceed 255 with an overflowing conversion to `uint8`: the conversion always stores the
integer part of the value. -/
theorem blend_alpha_overflow_counterexample :
    ¬ ∃ sa bgA : uint8, 0 < sa.val ∧ sa.val < 255 ∧ 255 < blendAlphaValue sa bgA ∧
      overflowsUint8 (blendAlphaValue sa bgA) := by
  rintro ⟨sa, bgA, -, -, -, h⟩
  obtain ⟨⟨h0, h1⟩, -⟩ := blendAlpha_bounds sa bgA
  exact h (float64ToUint8_exact _ h0 (by linarith)).1

/-- C21 amended: the destination-alpha value of the blend, `sa + bgA*(1 - sa/255)`, can
exceed 255 only by floating-point rounding and never leaves the 8-bit range on truncation.
For some partial source alpha it is greater than 255 (it is `255 + 2^-45` at `sa = 20`,
`bgA = 255`, where the stored alpha is 255); for every `sa` and `bgA` in `0..255` the
exact value is at most 255 and the `float64` value lies between 0 and `255 + 2^-40`, with
or without a fused multiply-add, so the conversion to `uint8` does not overflow and the
stored alpha is the integer part of the value. -/
theorem blend_alpha_stays_in_range :
    (∃ sa bgA : uint8, 0 < sa.val ∧ sa.val < 255 ∧ 255 < blendAlphaValue sa bgA) ∧
    blendAlphaValue 20 255 = 255 + 1 / 2 ^ 45 ∧
    float64Blend.alpha 20 255 = 255 ∧
    ∀ sa bgA : uint8,
      (sa.val : ℚ) + (bgA.val : ℚ) * (1 - (sa.val : ℚ) / 255) ≤ 255 ∧
      (0 ≤ blendAlphaValue sa bgA ∧ blendAlphaValue sa bgA ≤ 255 + 1 / 2 ^ 40) ∧
      (0 ≤ blendAlphaFused sa bgA ∧ blendAlphaFused sa bgA ≤ 255 + 1 / 2 ^ 40) ∧
      ¬ overflowsUint8 (blendAlphaValue sa bgA) ∧
      ¬ overflowsUint8 (blendAlphaFused sa bgA) ∧
      ((float64Blend.alpha sa bgA).val : Int) = ⌊blendAlphaValue sa bgA⌋ := by
  have hex := blendAlphaValue_20_255
  refine ⟨⟨20, 255, by decide, by decide, by rw [hex]; norm_num⟩, hex, ?_, ?_⟩
  · have h := float64ToUint8_exact (blendAlphaValue 20 255) (by rw [hex]; norm_num)
      (by rw [hex]; norm_num)
    have hfl : ⌊blendAlphaValue 20 255⌋ = 255 := by
      rw [hex, Int.floor_eq_iff]
      norm_num
    apply Fin.ext
    have h1 : ((float64ToUint8 (blendAlphaValue 20 255)).val : Int) = 255 := by
      rw [h.1, h.2, hfl]
    show (float64ToUint8 (blendAlphaValue 20 255)).val = 255
    exact_mod_cast h1
  · intro sa bgA
    obtain ⟨⟨h0, h1⟩, hf0, hf1⟩ := blendAlpha_bounds sa bgA
    have e1 := float64ToUint8_exact _ h0 (by linarith : blendAlphaValue sa bgA < 256)
    have e2 := float64ToUint8_exact _ hf0 (by linarith : blendAlphaFused sa bgA < 256)
    refine ⟨?_, ⟨h0, h1⟩, ⟨hf0, hf1⟩, fun h => h e1.1, fun h => h e2.1, ?_⟩
    · have hS : ((sa.val : Nat) : ℚ) ≤ 255 := by
        have := sa.isLt
        exact_mod_cast (by omega : sa.val ≤ 255)
      have hB : ((bgA.val : Nat) : ℚ) ≤ 255 := by
        have := bgA.isLt
        exact_mod_cast (by omega : bgA.val ≤ 255)
      have hk : (0 : ℚ) ≤ 1 - ((sa.val : Nat) : ℚ) / 255 := by linarith
      have := mul_le_mul_of_nonneg_right hB hk
      linarith
    · show ((float64ToUint8 (blendAlphaValue sa bgA)).val : Int) = _
      rw [e1.1, e1.2]

end Q2D
